import Mathlib

/-!
# Verification of `twitter-bookmarks` (classification, routing, quiet hours, the run)
# and of the `tuya` configuration

A shallow embedding of `src/twitter-bookmarks/main.go` (namespace `Bookmarks`) and of
`src/tuya/internal/config/config.go` (namespace `Tuya`).

* Go strings that hold text are Lean `String`s (valid UTF-8).  `len` and
  `strings.Contains` work on the UTF-8 bytes, obtained with `utf8`; a string
  that was cut by a byte slice (`truncate`) is a byte list.
* A Go `map[string]V` is an association list; the order in which a `range`
  loop visits its keys is not fixed by the language, so every function that
  ranges over a map takes, for each of its loops, the shuffle the runtime
  applies to the keys, and the theorems hold for every shuffle.
* Calls that leave the process (sub-processes, files, the clock) and calls of
  library decoders and scanners are answered by a `World` record, each answer
  a function of the arguments of the call; printed lines and file writes are
  collected as events.
* Go `int` is 64 bits wide: the category counters wrap around (`wrapInt64`).
* The concurrent workers of `processBookmarksParallel` are not modelled: what
  they leave behind is an answer of the world.
* `fmt.Sscanf` with the format of `parseClock` is embedded after the scanner
  of package fmt (`Sscanf`): at most two runes for each number, nothing read
  after the second one.  The run itself takes the scanner from the world.
* The Tuya configuration is saved and loaded through a `System` record: the
  file system is threaded through `Save` and `Load` as a state, and the YAML
  library is a pair of functions.  The values of `scaleCloudValue` are
  IEEE 754 doubles and are not embedded.
-/

set_option autoImplicit false

namespace Bookmarks

/-! ## Go runtime: strings -/

/-- Rune lowering table of the Go runtime (`unicode.ToLower`).  The table is not part of
the repository; only its action on ASCII is fixed here. -/
structure RuneCase where
  lower : Char → Char
  ascii : ∀ c : Char, c.toNat < 128 → lower c = c.toLower

/-- A lowering table that folds the ASCII letters only. -/
def asciiCase : RuneCase := ⟨Char.toLower, fun _ _ => rfl⟩

/-- Go `unicode.IsSpace`. -/
def isSpace (c : Char) : Bool :=
  c.toNat = 0x09 || c.toNat = 0x0A || c.toNat = 0x0B || c.toNat = 0x0C || c.toNat = 0x0D ||
  c.toNat = 0x20 || c.toNat = 0x85 || c.toNat = 0xA0 || c.toNat = 0x1680 ||
  (0x2000 ≤ c.toNat && c.toNat ≤ 0x200A) || c.toNat = 0x2028 || c.toNat = 0x2029 ||
  c.toNat = 0x202F || c.toNat = 0x205F || c.toNat = 0x3000

/-- Go `strings.TrimSpace`: drop leading and trailing white space. -/
def TrimSpace (s : String) : String :=
  ⟨((s.data.dropWhile isSpace).reverse.dropWhile isSpace).reverse⟩

/-- Go `strings.ToLower` on valid UTF-8: every rune is mapped by `unicode.ToLower`. -/
def ToLower (U : RuneCase) (s : String) : String := ⟨s.data.map U.lower⟩

/-- Go `strings.ReplaceAll(s, old, "")` for a one-character `old`. -/
def removeAll (s : String) (old : Char) : String := ⟨s.data.filter (fun c => c ≠ old)⟩

/-- UTF-8 encoding of one rune, as a list of byte values. -/
def utf8Rune (c : Char) : List Nat :=
  let v := c.toNat
  if v < 0x80 then [v]
  else if v < 0x800 then [0xC0 + v / 0x40, 0x80 + v % 0x40]
  else if v < 0x10000 then [0xE0 + v / 0x1000, 0x80 + (v / 0x40) % 0x40, 0x80 + v % 0x40]
  else [0xF0 + v / 0x40000, 0x80 + (v / 0x1000) % 0x40, 0x80 + (v / 0x40) % 0x40, 0x80 + v % 0x40]

/-- The bytes of a Go string. -/
def utf8 (s : String) : List Nat := s.data.flatMap utf8Rune

/-- Go `len(s)`: the number of bytes. -/
def len (s : String) : Nat := (utf8 s).length

/-- Does `l` start with `p`? -/
def startsWith : List Nat → List Nat → Bool
  | _, [] => true
  | [], _ :: _ => false
  | a :: l, b :: p => a == b && startsWith l p

/-- Does `p` occur in `l` as a contiguous block? -/
def hasBlock : List Nat → List Nat → Bool
  | [], p => p.isEmpty
  | a :: l, p => startsWith (a :: l) p || hasBlock l p

/-- Go `strings.Contains(s, substr)`: byte-wise substring test. -/
def Contains (s substr : String) : Bool := hasBlock (utf8 s) (utf8 substr)

/-! ## Go runtime: maps -/

/-- A Go `map[string]V`, as an association list with distinct keys. -/
abbrev GoMap (V : Type) := List (String × V)

namespace GoMap

variable {V : Type}

/-- The lookup `v, ok := m[k]`. -/
def get? (m : GoMap V) (k : String) : Option V :=
  match m with
  | [] => none
  | (k', v) :: rest => if k' = k then some v else get? rest k

/-- The assignment `m[k] = v`. -/
def set (m : GoMap V) (k : String) (v : V) : GoMap V :=
  match m with
  | [] => [(k, v)]
  | (k', v') :: rest => if k' = k then (k, v) :: rest else (k', v') :: set rest k v

/-- The keys of the map. -/
def keys (m : GoMap V) : List String := m.map Prod.fst

end GoMap

/-- What the runtime may do to the keys of a map before a `range` loop visits them: list
them in some order, each key once. -/
def RangeOrder (pick : List String → List String) : Prop := ∀ keys, (pick keys).Perm keys

/-! ## Data model (main.go 22-102) -/

structure State where
  LastProcessed : String
  ProcessedIDs : List String
  Categories : GoMap Int
deriving DecidableEq

structure Tweet where
  ID : String
  Raw : String
  Text : String
  Thread : String

structure Config where
  ConfigPath : String
  StatePath : String
  ObsidianBase : String
  PromptsDir : String
  BirdBin : String
  SummarizeBin : String
  GeminiBin : String
  QuietStart : String
  QuietEnd : String
  Limit : Int
  Parallel : Bool
  Workers : Int

structure CategoryConfig where
  Description : String
  Keywords : List String
deriving DecidableEq

structure RoutingConfig where
  Action : String
  Path : String
  Notify : Bool
deriving DecidableEq

structure CategoriesConfig where
  Items : GoMap CategoryConfig
  Order : List String
deriving DecidableEq

structure BookmarksConfig where
  Categories : CategoriesConfig
  Routing : GoMap RoutingConfig
deriving DecidableEq

/-- Kinds of a YAML node (yaml.v3). -/
inductive YamlKind
  | DocumentNode | SequenceNode | MappingNode | ScalarNode | AliasNode
deriving DecidableEq

/-- A YAML node as `CategoriesConfig.UnmarshalYAML` reads it.  The content of a mapping
node alternates key and value nodes; it is kept as the list of pairs of the key scalar
`Content[i].Value` and the outcome of `Content[i+1].Decode(&category)`. -/
structure YamlNode where
  Kind : YamlKind
  Content : List (String × Except String CategoryConfig)

/-- The loop of `CategoriesConfig.UnmarshalYAML` (main.go 74-87). -/
def UnmarshalYAML.loop :
    List (String × Except String CategoryConfig) → CategoriesConfig → Except String CategoriesConfig
  | [], c => .ok c
  | (k, v) :: rest, c =>
    let key := TrimSpace k
    if key = "" then UnmarshalYAML.loop rest c
    else
      match v with
      | .error err => .error err
      | .ok category => UnmarshalYAML.loop rest ⟨c.Items.set key category, c.Order ++ [key]⟩

/-- `CategoriesConfig.UnmarshalYAML` (main.go 66-90). -/
def UnmarshalYAML (node : YamlNode) : Except String CategoriesConfig :=
  if node.Kind ≠ YamlKind.MappingNode then .error "categories must be a mapping"
  else UnmarshalYAML.loop node.Content ⟨[], []⟩

/-- `sortedKeys` (main.go 410-417): the keys in ascending order. -/
def sortedKeys (values : GoMap CategoryConfig) : List String :=
  values.keys.insertionSort (fun a b => decide (a < b) || decide (a = b))

/-- `BookmarksConfig.CategoryOrder` (main.go 97-102). -/
def BookmarksConfig.CategoryOrder (c : BookmarksConfig) : List String :=
  if c.Categories.Order.length > 0 then c.Categories.Order
  else sortedKeys c.Categories.Items

/-- The configuration document after YAML parsing: the node under `categories` and the
decoded `routing` table, each absent when the key is missing or null. -/
structure ConfigDocument where
  categories : Option YamlNode
  routing : Option (GoMap RoutingConfig)

/-- `loadBookmarksConfig` (main.go 355-384).  `file` is the outcome of creating the default
file, reading it and parsing the YAML text; the categories node is then decoded by
`UnmarshalYAML`. -/
def loadBookmarksConfig (path : String) (file : Except String ConfigDocument) :
    Except String BookmarksConfig :=
  if TrimSpace path = "" then .error "config path is required"
  else
    match file with
    | .error err => .error err
    | .ok doc =>
      let decoded : Except String CategoriesConfig :=
        match doc.categories with
        | none => .ok ⟨[], []⟩
        | some node => UnmarshalYAML node
      match decoded with
      | .error err => .error err
      | .ok categories =>
        if categories.Items.length = 0 then .error "config must define at least one category"
        else
          let routing := match doc.routing with
            | none => []
            | some r => r
          let order := if categories.Order.length = 0 then sortedKeys categories.Items
            else categories.Order
          .ok ⟨⟨categories.Items, order⟩, routing⟩

/-! ## Classification (main.go 566-717) -/

/-- The keyword loop of `categorizeTweet` (main.go 574-581): is some non-empty keyword
found in the lowered text? -/
def categorizeTweet.keywords (U : RuneCase) (textLower : String) : List String → Bool
  | [] => false
  | kw :: rest =>
    if kw = "" then categorizeTweet.keywords U textLower rest
    else if Contains textLower (ToLower U kw) then true
    else categorizeTweet.keywords U textLower rest

/-- The category loop of `categorizeTweet` (main.go 569-582). -/
def categorizeTweet.loop (U : RuneCase) (textLower : String) (items : GoMap CategoryConfig) :
    List String → String
  | [] => ""
  | name :: rest =>
    match items.get? name with
    | none => categorizeTweet.loop U textLower items rest
    | some category =>
      if categorizeTweet.keywords U textLower category.Keywords then name
      else categorizeTweet.loop U textLower items rest

/-- `categorizeTweet` (main.go 566-585). -/
def categorizeTweet (U : RuneCase) (tweet : Tweet) (categories : CategoriesConfig) : String :=
  let textLower := ToLower U (tweet.Raw ++ "\n" ++ tweet.Thread)
  categorizeTweet.loop U textLower categories.Items categories.Order

structure LLMAnalysis where
  Category : String
  NeedsURLContent : Bool
deriving DecidableEq

/-- `normalizeCategoryKey` (main.go 685-691). -/
def normalizeCategoryKey (U : RuneCase) (value : String) : String :=
  let normalized := ToLower U (TrimSpace value)
  let normalized := removeAll normalized ' '
  let normalized := removeAll normalized '_'
  let normalized := removeAll normalized '-'
  normalized

/-- `normalizeCategory` (main.go 662-683).  `range1` and `range2` order the keys for the
two `range categories.Items` loops. -/
def normalizeCategory (U : RuneCase) (value : String) (categories : CategoriesConfig)
    (range1 range2 : List String → List String) : String :=
  let trimmed := TrimSpace value
  if trimmed = "" then ""
  else
    let lower := ToLower U trimmed
    match (range1 categories.Items.keys).find? (fun name => decide (ToLower U name = lower)) with
    | some name => name
    | none =>
      let normalized := normalizeCategoryKey U lower
      match (range2 categories.Items.keys).find?
          (fun name => decide (normalizeCategoryKey U (ToLower U name) = normalized)) with
      | some name => name
      | none => ""

/-- `findCategoryByNormalizedKey` (main.go 703-711); `range1` orders the keys for its loop
over `categories.Items`. -/
def findCategoryByNormalizedKey (U : RuneCase) (categories : CategoriesConfig) (target : String)
    (range1 : List String → List String) : String :=
  let normalized := normalizeCategoryKey U target
  match (range1 categories.Items.keys).find?
      (fun name => decide (normalizeCategoryKey U name = normalized)) with
  | some name => name
  | none => ""

/-- `fallbackCategory` (main.go 693-701). -/
def fallbackCategory (U : RuneCase) (categories : CategoriesConfig)
    (range1 : List String → List String) : String :=
  let other := findCategoryByNormalizedKey U categories "other" range1
  if other ≠ "" then other
  else
    match categories.Order with
    | first :: _ => first
    | [] => ""

/-- `tweetHasEnoughContext` (main.go 713-717). -/
def tweetHasEnoughContext (tweet : Tweet) : Bool :=
  let textLen := len (TrimSpace tweet.Text)
  let threadLen := len (TrimSpace tweet.Thread)
  decide (textLen ≥ 200) || decide (threadLen ≥ 200)

/-- `uniqueStrings` (main.go 1068-1079): drop repeated values, keeping first occurrences. -/
def uniqueStrings.loop : List String → List String → List String
  | [], result => result
  | value :: rest, result =>
    if value ∈ result then uniqueStrings.loop rest result
    else uniqueStrings.loop rest (result ++ [value])

/-- `uniqueStrings` (main.go 1068-1079). -/
def uniqueStrings (values : List String) : List String := uniqueStrings.loop values []

/-- The class of runes a URL may hold in the pattern of `extractURLs`: everything except
white space (RE2 `\s`) and the listed delimiters. -/
def urlRune (c : Char) : Bool :=
  !(c = '\t' || c = '\n' || c.toNat = 0x0C || c = '\r' || c = ' ' ||
    c = '<' || c = '>' || c = '"' || c = '\x7b' || c = '\x7d' || c = '|' || c = '\\' ||
    c = '^' || c.toNat = 0x60 || c = '[' || c = ']')

/-- Does a match of the pattern of `extractURLs` start at the head of the text? -/
def urlStart : List Char → Bool
  | 'h' :: 't' :: 't' :: 'p' :: 's' :: ':' :: '/' :: '/' :: c :: _ => urlRune c
  | 'h' :: 't' :: 't' :: 'p' :: ':' :: '/' :: '/' :: c :: _ => urlRune c
  | _ => false

/-- Leftmost, non-overlapping, longest matches of the pattern of `extractURLs`.  The runes of
the scheme are themselves in the class, so a match is the whole run of class runes from
its first rune; `cur` holds the run being read, reversed. -/
def extractURLs.scan : List Char → Option (List Char) → List String
  | [], none => []
  | [], some cur => [⟨cur.reverse⟩]
  | c :: rest, some cur =>
    if urlRune c then extractURLs.scan rest (some (c :: cur))
    else ⟨cur.reverse⟩ :: extractURLs.scan rest none
  | c :: rest, none =>
    if urlStart (c :: rest) then extractURLs.scan rest (some [c])
    else extractURLs.scan rest none

/-- `extractURLs` (main.go 719-723). -/
def extractURLs (text : String) : List String :=
  uniqueStrings (extractURLs.scan text.data none)

/-- `emptyIf` (main.go 1168-1172). -/
def emptyIf (value fallback : String) : String :=
  if TrimSpace value = "" then fallback else value

/-- The category lines of `buildGeminiPrompt` (main.go 596-610). -/
def buildGeminiPrompt.lines (items : GoMap CategoryConfig) : List String → String
  | [] => ""
  | name :: rest =>
    match items.get? name with
    | none => buildGeminiPrompt.lines items rest
    | some category =>
      let description := TrimSpace category.Description
      let description := if description = "" then "No description provided" else description
      "- " ++ name ++ ": " ++ description ++ "\n" ++ buildGeminiPrompt.lines items rest

/-- `buildGeminiPrompt` (main.go 592-624). -/
def buildGeminiPrompt (tweet : Tweet) (categories : CategoriesConfig) : String :=
  let urlCount := (extractURLs (tweet.Raw ++ "\n" ++ tweet.Thread)).length
  "Categorize this tweet into ONE category:\n\n" ++
  buildGeminiPrompt.lines categories.Items categories.Order ++
  "\nTweet: " ++ emptyIf tweet.Text "(no tweet text)" ++
  "\nThread: " ++ emptyIf tweet.Thread "(no thread)" ++
  "\nURLs: " ++ toString urlCount ++
  "\n\nReturn JSON: \x7b\"category\": \"" ++ String.intercalate "|" categories.Order ++
  "\", \"needsUrlContent\": true/false\x7d\n"

/-- The scan of `extractFirstJSON` (main.go 1105-1138).  The bytes it tests are ASCII, so
the scan reads runes; `i` is the position of the head of the remaining text, `start` is
`-1` until an opening brace was seen at depth 0. -/
def extractFirstJSON.scan (input : List Char) :
    List Char → Nat → Int → Nat → Bool → Bool → String × Bool
  | [], _, _, _, _, _ => ("", false)
  | ch :: rest, i, start, depth, inString, escape =>
    if inString then
      if escape then extractFirstJSON.scan input rest (i + 1) start depth inString false
      else if ch = '\\' then extractFirstJSON.scan input rest (i + 1) start depth inString true
      else if ch = '"' then extractFirstJSON.scan input rest (i + 1) start depth false escape
      else extractFirstJSON.scan input rest (i + 1) start depth inString escape
    else if ch = '"' then extractFirstJSON.scan input rest (i + 1) start depth true escape
    else if ch = '\x7b' then
      extractFirstJSON.scan input rest (i + 1) (if depth = 0 then (i : Int) else start)
        (depth + 1) inString escape
    else if ch = '\x7d' ∧ depth > 0 then
      if depth - 1 = 0 ∧ start ≥ 0 then
        (⟨(input.drop start.toNat).take (i + 1 - start.toNat)⟩, true)
      else extractFirstJSON.scan input rest (i + 1) start (depth - 1) inString escape
    else extractFirstJSON.scan input rest (i + 1) start depth inString escape

/-- `extractFirstJSON` (main.go 1099-1141). -/
def extractFirstJSON (input : String) : String × Bool :=
  extractFirstJSON.scan input.data input.data 0 (-1) 0 false false


/-! ## The world outside the process -/

/-- What a call leaves behind: printed lines and changes outside the process. -/
inductive Event
  /-- Standard output: TELEGRAM: message. -/
  | telegram (message : List Nat)
  /-- Standard output: Quiet hours active; skipping Telegram notification. -/
  | quietSkip
  /-- Standard error: Failed to save to Obsidian: err. -/
  | saveFailed (err : String)
  /-- Standard error: Unknown routing action; defaulting to notify. -/
  | unknownAction (action category : String)
  /-- Standard error: No routing configured for category; defaulting to notify. -/
  | noRouting (category : String)
  | mkdir (path : String)
  | write (path content : String)
  | unbookmarked (tweetID : String)
  /-- Standard error: Failed to process id: err. -/
  | processFailed (tweetID err : String)
  /-- Standard output: a line printed by `runProcess`. -/
  | printed (line : String)
deriving DecidableEq

/-- The notifications among the events. -/
def telegrams : List Event → List (List Nat)
  | [] => []
  | Event.telegram message :: rest => message :: telegrams rest
  | _ :: rest => telegrams rest


/-- What a pass over the pending IDs leaves behind: the returned count, the state and the
set it updated in place, and the events. -/
structure Progress where
  processedCount : Nat
  state : State
  processedSet : GoMap Bool
  events : List Event
deriving DecidableEq

/-- Outcome of `os.ReadFile`. -/
inductive FileRead
  /-- The error is `os.ErrNotExist`. -/
  | notExist
  | failed (err : String)
  | data (text : String)

/-- One key of the state file as `json.Unmarshal` meets it, in the order of the file. -/
inductive StateField
  | lastProcessed (value : String)
  /-- An array, or null (which leaves no IDs). -/
  | processedIds (value : List String)
  /-- An object, with its entries in the order of the file, or null. -/
  | categories (value : Option (List (String × Int)))

/-- One reading of `time.Now()`: the fields and formats the program uses. -/
structure Clock where
  Hour : Nat
  Minute : Nat
  /-- The value of Format("2006-01-02"). -/
  date : String
  /-- The value of Format(time.RFC3339). -/
  rfc3339 : String

/-- Answers of everything outside the process, each a function of the arguments of the
call, and the shuffles of the runtime, numbered by `range` loop. -/
structure World where
  now : Clock
  range : Nat → List String → List String
  /-- Standard output of the command "bird read id", or its failure. -/
  birdRead : String → String → Except String String
  /-- Standard output of the command "bird thread id", or its failure. -/
  birdThread : String → String → Except String String
  /-- Failure of the command "bird unbookmark id": the error and the combined output. -/
  birdUnbookmark : String → String → Option (String × String)
  /-- Standard output of the gemini command on a prompt, or its failure. -/
  gemini : String → String → Except String String
  /-- Outcome of json.Unmarshal into an LLMAnalysis. -/
  unmarshal : String → Except String LLMAnalysis
  /-- Standard output of the summarize command on a URL, or its failure. -/
  summarize : String → String → Except String String
  MkdirAll : String → Option String
  WriteFile : String → String → Option String
  IsAbs : String → Bool
  Join : String → String → String
  FromSlash : String → String
  /-- The value of time.Now().UTC().Format(time.RFC3339). -/
  utcStamp : String
  /-- Outcome of creating the default configuration if absent, reading the file and parsing
  its YAML text. -/
  readConfig : String → Except String ConfigDocument
  /-- Outcome of fmt.Sscanf(value, "%02d:%02d", &hour, &minute): the two numbers. -/
  Sscanf : String → Except String (Int × Int)
  LookPath : String → Except String String
  ReadFile : String → FileRead
  /-- Outcome of json.Unmarshal on the text of the state file. -/
  unmarshalState : String → Except String (List StateField)
  /-- Standard output of the command "bird bookmarks -n limit", or its failure. -/
  birdBookmarks : String → Int → Except String String
  /-- The lines a bufio.Scanner yields for a text, or its error. -/
  scanLines : String → Except String (List String)
  /-- Outcome of json.MarshalIndent on a state. -/
  MarshalIndent : State → Except String String
  Dir : String → String
  /-- What the concurrent workers of `processBookmarksParallel` leave behind, for a number
  of workers, the pending IDs, the state and the set. -/
  parallel : Int → List String → State → GoMap Bool → Progress

/-- `analyzeWithLLM` (main.go 626-660). -/
def analyzeWithLLM (U : RuneCase) (w : World) (config : Config) (tweet : Tweet)
    (categories : CategoriesConfig) (range1 range2 : List String → List String) :
    Except String LLMAnalysis :=
  if config.GeminiBin = "" then .error "gemini CLI not available"
  else
    let prompt := buildGeminiPrompt tweet categories
    match w.gemini config.GeminiBin prompt with
    | .error err => .error ("gemini failed: " ++ err)
    | .ok output =>
      let raw := TrimSpace output
      if raw = "" then .error "empty gemini response"
      else
        let jsonText := if (extractFirstJSON raw).2 then (extractFirstJSON raw).1 else raw
        match w.unmarshal jsonText with
        | .error err => .error ("invalid gemini JSON: " ++ err)
        | .ok analysis =>
          .ok ⟨normalizeCategory U analysis.Category categories range1 range2,
            analysis.NeedsURLContent⟩

/-- `unbookmarkTweet` (main.go 505-516). -/
def unbookmarkTweet (w : World) (birdBin tweetID : String) : Option String :=
  match w.birdUnbookmark birdBin tweetID with
  | some (err, output) => some ("bird unbookmark failed: " ++ err ++ ": " ++ TrimSpace output)
  | none => none

/-- `readThread` (main.go 547-564). -/
def readThread (w : World) (birdBin tweetID : String) : Except String String :=
  match w.birdThread birdBin tweetID with
  | .error err => .error err
  | .ok output =>
    let thread := TrimSpace output
    if thread = "" then .ok "" else .ok thread

/-- `readTweet` (main.go 518-545). -/
def readTweet (w : World) (birdBin tweetID : String) : Except String Tweet :=
  match w.birdRead birdBin tweetID with
  | .error err => .error ("bird read failed: " ++ err)
  | .ok output =>
    let raw := TrimSpace output
    if raw = "" then .error "empty tweet output"
    else
      let text := TrimSpace ⟨raw.data.takeWhile (fun c => c ≠ '\n')⟩
      let thread := match readThread w birdBin tweetID with
        | .error _ => ""
        | .ok t => t
      .ok ⟨tweetID, raw, text, thread⟩

/-- `summarizeContent` (main.go 725-740). -/
def summarizeContent (w : World) (config : Config) (url : String) : String :=
  if config.SummarizeBin = "" then ""
  else
    match w.summarize config.SummarizeBin url with
    | .error _ => ""
    | .ok output => TrimSpace output

/-! ## Quiet hours and messages (main.go 816-823, 1048-1066) -/

/-- `isQuietHours` (main.go 1048-1059). -/
def isQuietHours (now : Clock) (quietStart quietEnd : Int) : Bool :=
  if quietStart = quietEnd then false
  else
    let nowMinutes : Int := (now.Hour : Int) * 60 + (now.Minute : Int)
    if quietStart < quietEnd then decide (nowMinutes ≥ quietStart) && decide (nowMinutes < quietEnd)
    else decide (nowMinutes ≥ quietStart) || decide (nowMinutes < quietEnd)

/-- `truncate` (main.go 1061-1066), for a budget that is not negative.  The cut is a byte
slice, so the result is a byte string. -/
def truncate (text : String) (max : Nat) : List Nat :=
  if len text ≤ max then utf8 text
  else (utf8 text).take max ++ utf8 "..."

/-- `sendTelegram` (main.go 816-823). -/
def sendTelegram (w : World) (message : List Nat) (quietStart quietEnd : Int) : List Event :=
  if isQuietHours w.now quietStart quietEnd then [Event.quietSkip]
  else [Event.telegram message]

/-- `containsAny` (main.go 1090-1097). -/
def containsAny (text : String) : List String → Bool
  | [] => false
  | kw :: rest => if Contains text kw then true else containsAny text rest


/-! ## Routing (main.go 742-993) -/

/-- `resolveObsidianPath` (main.go 805-814). -/
def resolveObsidianPath (w : World) (config : Config) (folderPath : String) : String :=
  let trimmed := TrimSpace folderPath
  if trimmed = "" then ""
  else if w.IsAbs trimmed then trimmed
  else w.Join config.ObsidianBase (w.FromSlash trimmed)

/-- The summary loop of `saveToObsidian` (main.go 758-768). -/
def saveToObsidian.summaries (w : World) (config : Config) : List String → String
  | [] => ""
  | url :: rest =>
    let summary := summarizeContent w config url
    if summary = "" then saveToObsidian.summaries w config rest
    else "### " ++ url ++ "\n\n" ++ summary ++ "\n\n" ++ saveToObsidian.summaries w config rest

/-- `saveToObsidian` (main.go 742-803): the events and the returned error, if any. -/
def saveToObsidian (w : World) (config : Config) (tweet : Tweet) (category : String)
    (allowSummaries : Bool) (folderPath : String) : List Event × Option String :=
  let folder := resolveObsidianPath w config folderPath
  if folder = "" then ([], some "obsidian path is required")
  else
    match w.MkdirAll folder with
    | some err => ([], some err)
    | none =>
      let filename := w.now.date ++ "-" ++ tweet.ID ++ ".md"
      let path := w.Join folder filename
      let urls := extractURLs (tweet.Raw ++ "\n" ++ tweet.Thread)
      let linkedContent := if allowSummaries then saveToObsidian.summaries w config urls else ""
      let linkedContent :=
        if linkedContent = "" then
          if allowSummaries then "(no links or summaries available)" else "(summaries skipped)"
        else linkedContent
      let content := "# Twitter Bookmark\n\n**ID:** " ++ tweet.ID ++ "\n**Saved:** " ++
        w.now.rfc3339 ++ "\n**Category:** " ++ category ++ "\n\n## Content\n\n" ++ tweet.Raw ++
        "\n\n## Thread\n\n" ++ emptyIf tweet.Thread "(no thread)" ++
        "\n\n## Linked Content\n\n" ++ linkedContent ++
        "\n\n---\n*Auto-saved via twitter-bookmarks*\n"
      match w.WriteFile path content with
      | some err => ([Event.mkdir folder], some err)
      | none => ([Event.mkdir folder, Event.write path content], none)

/-- Go `strings.Join` on byte strings. -/
def joinBytes (sep : List Nat) : List (List Nat) → List Nat
  | [] => []
  | [a] => a
  | a :: b :: rest => a ++ sep ++ joinBytes sep (b :: rest)

/-- The summary loop of `buildSummaryMessage` (main.go 894-903). -/
def buildSummaryMessage.loop (w : World) (config : Config) :
    List String → List (List Nat) → List (List Nat)
  | [], summaries => summaries
  | url :: rest, summaries =>
    if summaries.length ≥ 3 then summaries
    else
      let summary := summarizeContent w config url
      if summary = "" then buildSummaryMessage.loop w config rest summaries
      else
        buildSummaryMessage.loop w config rest
          (summaries ++ [utf8 url ++ utf8 "\n" ++ truncate summary 200])

/-- `buildSummaryMessage` (main.go 891-915). -/
def buildSummaryMessage (U : RuneCase) (w : World) (config : Config) (category : String)
    (tweet : Tweet) (urls : List String) (allowSummaries : Bool) : List Nat :=
  let summaries := if allowSummaries then buildSummaryMessage.loop w config urls [] else []
  let lead :=
    if normalizeCategoryKey U category ≠ normalizeCategoryKey U "readlater" then
      "Summary (" ++ category ++ ")"
    else "Read later"
  let message := utf8 lead ++ utf8 ": " ++ truncate tweet.Text 200
  if summaries.length > 0 then
    message ++ utf8 "\n\nSummaries:\n" ++ joinBytes (utf8 "\n\n") summaries
  else message

/-- `buildNotifyMessage` (main.go 917-924). -/
def buildNotifyMessage (U : RuneCase) (category : String) (tweet : Tweet)
    (categories : CategoriesConfig) (range1 : List String → List String) : List Nat :=
  let other := findCategoryByNormalizedKey U categories "other" range1
  if other ≠ "" ∧ category = other then
    utf8 "Unclear bookmark. Where should this go? Tweet: " ++ truncate tweet.Text 300
  else
    utf8 "Bookmark categorized as " ++ utf8 category ++ utf8 ". Tweet: " ++ truncate tweet.Text 300

/-- The summary loop of `createCodexPrompt` (main.go 929-939). -/
def createCodexPrompt.summaries (w : World) (config : Config) : List String → String
  | [] => ""
  | url :: rest =>
    let summary := summarizeContent w config url
    if summary = "" then createCodexPrompt.summaries w config rest
    else "Link: " ++ url ++ "\n" ++ summary ++ "\n\n" ++ createCodexPrompt.summaries w config rest

/-- `createCodexPrompt` (main.go 926-973). -/
def createCodexPrompt (w : World) (config : Config) (tweet : Tweet) (urls : List String)
    (allowSummaries : Bool) : String :=
  let linked := if allowSummaries then createCodexPrompt.summaries w config urls else ""
  let linked :=
    if linked = "" then
      if allowSummaries then "No links available"
      else if urls.length > 0 then "Summaries skipped"
      else "No links available"
    else linked
  "# Implementation Task from Twitter Bookmark\n\n## Context\n" ++ tweet.Raw ++
  "\n\n## Thread\n" ++ emptyIf tweet.Thread "(no thread)" ++
  "\n\n## Linked Resources\n" ++ linked ++
  "\n\n## Your Task\nImplement this based on the context above. Follow vibe coding principles:\n" ++
  "1. Read and understand the full context\n2. Implement the solution\n3. Test it works\n" ++
  "4. Provide usage examples\n\n" ++
  "Start by asking any clarifying questions, then proceed with implementation.\n"

/-- `implementRazorTask` (main.go 975-993); it returns nothing. -/
def implementRazorTask (U : RuneCase) (w : World) (config : Config) (tweet : Tweet)
    (quietStart quietEnd : Int) (allowSummaries : Bool) (folderPath : String) (notify : Bool) :
    List Event :=
  let saved := saveToObsidian w config tweet "razor" allowSummaries folderPath
  let events := match saved.2 with
    | some err => saved.1 ++ [Event.saveFailed err]
    | none => saved.1
  if !notify then events
  else
    let textLower := ToLower U (tweet.Raw ++ "\n" ++ tweet.Thread)
    if containsAny textLower ["skill", "cli", "tool", "workflow"] then
      events ++ sendTelegram w
        (utf8 "Razor task queued for implementation. Tweet: " ++ truncate tweet.Text 200)
        quietStart quietEnd
    else
      events ++ sendTelegram w (utf8 "Razor tip saved. Tweet: " ++ truncate tweet.Text 200)
        quietStart quietEnd

/-- `routeTweet` (main.go 825-889): the events and the returned error, if any.  `range1`
orders the keys for the loop inside `buildNotifyMessage`. -/
def routeTweet (U : RuneCase) (w : World) (config : Config) (bookmarksConfig : BookmarksConfig)
    (tweet : Tweet) (category : String) (route : RoutingConfig) (urls : List String)
    (quietStart quietEnd : Int) (allowSummaries : Bool) (range1 : List String → List String) :
    List Event × Option String :=
  let action := ToLower U (TrimSpace route.Action)
  let action := if action = "" then "notify" else action
  if action = "summarize" then
    if route.Notify then
      (sendTelegram w (buildSummaryMessage U w config category tweet urls allowSummaries)
        quietStart quietEnd, none)
    else ([], none)
  else if action = "razor_task" then
    (implementRazorTask U w config tweet quietStart quietEnd allowSummaries route.Path route.Notify,
      none)
  else if action = "codex_prompt" then
    let saved := saveToObsidian w config tweet category allowSummaries route.Path
    let events := match saved.2 with
      | some err => saved.1 ++ [Event.saveFailed err]
      | none => saved.1
    let prompt := createCodexPrompt w config tweet urls allowSummaries
    match w.MkdirAll config.PromptsDir with
    | some err => (events, some err)
    | none =>
      let promptPath := w.Join config.PromptsDir (tweet.ID ++ ".txt")
      match w.WriteFile promptPath prompt with
      | some err => (events ++ [Event.mkdir config.PromptsDir], some err)
      | none =>
        let events := events ++ [Event.mkdir config.PromptsDir, Event.write promptPath prompt]
        if route.Notify then
          let message := utf8 "Codex task ready. Prompt saved to " ++ utf8 promptPath ++
            utf8 ". Preview: " ++ truncate prompt 400
          (events ++ sendTelegram w message quietStart quietEnd, none)
        else (events, none)
  else if action = "save_obsidian" then
    let saved := saveToObsidian w config tweet category allowSummaries route.Path
    match saved.2 with
    | some err => (saved.1, some err)
    | none =>
      if route.Notify then
        let message := utf8 "Saved bookmark (" ++ utf8 category ++ utf8 ") to Obsidian. Tweet: " ++
          truncate tweet.Text 200
        (saved.1 ++ sendTelegram w message quietStart quietEnd, none)
      else (saved.1, none)
  else if action = "unbookmark" then
    match unbookmarkTweet w config.BirdBin tweet.ID with
    | some err => ([], some err)
    | none =>
      if route.Notify then
        let message := utf8 "Removed bookmark (" ++ utf8 category ++ utf8 "): " ++
          truncate tweet.Text 200
        (Event.unbookmarked tweet.ID :: sendTelegram w message quietStart quietEnd, none)
      else ([Event.unbookmarked tweet.ID], none)
  else if action = "notify" then
    if route.Notify then
      (sendTelegram w (buildNotifyMessage U category tweet bookmarksConfig.Categories range1)
        quietStart quietEnd, none)
    else ([], none)
  else
    if route.Notify then
      (Event.unknownAction route.Action category ::
        sendTelegram w (buildNotifyMessage U category tweet bookmarksConfig.Categories range1)
          quietStart quietEnd, none)
    else ([Event.unknownAction route.Action category], none)

/-! ## One bookmark (main.go 995-1030) -/

structure ProcessResult where
  Category : String
  Processed : Bool
deriving DecidableEq

/-- The classification steps of `processBookmark` (main.go 1001-1012): the category and
the `allowSummaries` flag that are handed to `routeTweet`.  The `range` loops met on the
way are numbered 0 to 4. -/
def classify (U : RuneCase) (w : World) (config : Config) (bookmarksConfig : BookmarksConfig)
    (tweet : Tweet) : String × Bool :=
  let answer : String × Bool :=
    match analyzeWithLLM U w config tweet bookmarksConfig.Categories (w.range 0) (w.range 1) with
    | .ok analysis =>
      (normalizeCategory U analysis.Category bookmarksConfig.Categories (w.range 2) (w.range 3),
        analysis.NeedsURLContent && !tweetHasEnoughContext tweet)
    | .error _ => ("", false)
  let category := answer.1
  let allowSummaries := answer.2
  let category := if category = "" then categorizeTweet U tweet bookmarksConfig.Categories
    else category
  let category := if category = "" then fallbackCategory U bookmarksConfig.Categories (w.range 4)
    else category
  (category, allowSummaries)

/-- `processBookmark` (main.go 995-1030): the events and the returned result or error. -/
def processBookmark (U : RuneCase) (w : World) (config : Config)
    (bookmarksConfig : BookmarksConfig) (tweetID : String) (quietStart quietEnd : Int) :
    List Event × Except String ProcessResult :=
  match readTweet w config.BirdBin tweetID with
  | .error err => ([], .error err)
  | .ok tweet =>
    let category := (classify U w config bookmarksConfig tweet).1
    let allowSummaries := (classify U w config bookmarksConfig tweet).2
    if category = "" then ([], .error "no categories configured")
    else
      let urls := extractURLs (tweet.Raw ++ "\n" ++ tweet.Thread)
      let warned : List Event × RoutingConfig :=
        match bookmarksConfig.Routing.get? category with
        | some route => ([], route)
        | none => ([Event.noRouting category], ⟨"notify", "", true⟩)
      let routed := routeTweet U w config bookmarksConfig tweet category warned.2 urls
        quietStart quietEnd allowSummaries (w.range 5)
      match routed.2 with
      | some err => (warned.1 ++ routed.1, .error err)
      | none => (warned.1 ++ routed.1, .ok ⟨category, true⟩)


/-! ## The run (main.go 201-344, 399-503, 1032-1046, 1081-1088) -/

/-- Go `int` arithmetic on a 64-bit platform: the result wraps around. -/
def wrapInt64 (x : Int) : Int := (x + 2 ^ 63) % 2 ^ 64 - 2 ^ 63

/-- The loop of `appendUnique` (main.go 1082-1086): does it return early? -/
def appendUnique.found (value : String) : List String → Bool
  | [] => false
  | existing :: rest => if existing = value then true else appendUnique.found value rest

/-- `appendUnique` (main.go 1081-1088). -/
def appendUnique (values : List String) (value : String) : List String :=
  if appendUnique.found value values then values else values ++ [value]

/-- The statement `state.Categories[category]++`: a missing entry counts as 0. -/
def incrementCategory (categories : GoMap Int) (category : String) : GoMap Int :=
  categories.set category
    (wrapInt64 ((match categories.get? category with | some n => n | none => 0) + 1))

/-- The body of the loop of `processBookmarksSequential` (main.go 282-292), for one ID. -/
def processBookmarksSequential.step (U : RuneCase) (w : World) (config : Config)
    (bookmarksConfig : BookmarksConfig) (quietStart quietEnd : Int) (acc : Progress)
    (id : String) : Progress :=
  let outcome := processBookmark U w config bookmarksConfig id quietStart quietEnd
  match outcome.2 with
  | .error err =>
    { acc with events := acc.events ++ outcome.1 ++ [Event.processFailed id err] }
  | .ok result =>
    if result.Processed then
      { processedCount := acc.processedCount + 1
        state :=
          { acc.state with
            ProcessedIDs := appendUnique acc.state.ProcessedIDs id
            Categories := incrementCategory acc.state.Categories result.Category }
        processedSet := acc.processedSet.set id true
        events := acc.events ++ outcome.1 }
    else { acc with events := acc.events ++ outcome.1 }

/-- The loop of `processBookmarksSequential` (main.go 281-293). -/
def processBookmarksSequential.loop (U : RuneCase) (w : World) (config : Config)
    (bookmarksConfig : BookmarksConfig) (quietStart quietEnd : Int) :
    List String → Progress → Progress
  | [], acc => acc
  | id :: rest, acc =>
    processBookmarksSequential.loop U w config bookmarksConfig quietStart quietEnd rest
      (processBookmarksSequential.step U w config bookmarksConfig quietStart quietEnd acc id)

/-- `processBookmarksSequential` (main.go 279-295): the returned count, with the state and
the set as the call leaves them. -/
def processBookmarksSequential (U : RuneCase) (w : World) (config : Config)
    (bookmarksConfig : BookmarksConfig) (ids : List String) (state : State)
    (quietStart quietEnd : Int) (processedSet : GoMap Bool) : Progress :=
  processBookmarksSequential.loop U w config bookmarksConfig quietStart quietEnd ids
    ⟨0, state, processedSet, []⟩

/-- The number of workers that `processBookmarksParallel` starts (main.go 298-316): none for
an empty list, otherwise `config.Workers` after the two clamps, one goroutine per turn of
the loop at line 315. -/
def processBookmarksParallel.workers (config : Config) (ids : List String) : Int :=
  if ids.length = 0 then 0
  else
    let workers := config.Workers
    let workers := if workers < 1 then 1 else workers
    let workers := if workers > (ids.length : Int) then (ids.length : Int) else workers
    workers

/-- `processBookmarksParallel` (main.go 297-344).  The empty case and the number of workers
are computed; what the concurrent workers leave behind is the answer of the world. -/
def processBookmarksParallel (w : World) (config : Config) (ids : List String) (state : State)
    (processedSet : GoMap Bool) : Progress :=
  if ids.length = 0 then ⟨0, state, processedSet, []⟩
  else w.parallel (processBookmarksParallel.workers config ids) ids state processedSet

/-- `formatCategoryCounts` (main.go 399-408). -/
def formatCategoryCounts (categories : List String) (counts : GoMap Int) : String :=
  if categories.length = 0 then ""
  else
    String.intercalate " "
      (categories.map fun category =>
        category ++ "=" ++ toString (match counts.get? category with | some n => n | none => 0))

/-- `ensureCategory` (main.go 465-469), on the category map of the state. -/
def ensureCategory (categories : GoMap Int) (key : String) : GoMap Int :=
  match categories.get? key with
  | some _ => categories
  | none => categories.set key 0

/-- The state while `json.Unmarshal` fills it; the category map may be nil. -/
structure DecodingState where
  LastProcessed : String
  ProcessedIDs : List String
  Categories : Option (GoMap Int)

/-- What `json.Unmarshal` does to the state for one key of the file: a string or an array
replaces the field, null makes the map nil, an object is stored entry by entry into the
map the field holds (a fresh one if it is nil). -/
def StateField.store (state : DecodingState) : StateField → DecodingState
  | StateField.lastProcessed value => { state with LastProcessed := value }
  | StateField.processedIds value => { state with ProcessedIDs := value }
  | StateField.categories none => { state with Categories := none }
  | StateField.categories (some entries) =>
    { state with
      Categories := some (entries.foldl (fun m e => m.set e.1 e.2)
        (match state.Categories with | some m => m | none => [])) }

/-- The category map of the fresh state of `loadState` (main.go 423-428): every known
category at 0. -/
def loadState.fresh (categories : List String) : GoMap Int :=
  categories.foldl (fun (m : GoMap Int) category => m.set category 0) []

/-- `loadState` (main.go 419-450).  The state returned next to an error is dropped. -/
def loadState (w : World) (path : String) (categories : List String) : Except String State :=
  let initial : GoMap Int := loadState.fresh categories
  match w.ReadFile path with
  | FileRead.notExist => .ok ⟨"", [], initial⟩
  | FileRead.failed err => .error err
  | FileRead.data text =>
    match w.unmarshalState text with
    | .error err => .error err
    | .ok fields =>
      let decoded := fields.foldl StateField.store ⟨"", [], some initial⟩
      let counts : GoMap Int := match decoded.Categories with
        | some m => m
        | none => []
      .ok ⟨decoded.LastProcessed, decoded.ProcessedIDs, categories.foldl ensureCategory counts⟩

/-- `saveState` (main.go 452-463): the events and the returned error, if any. -/
def saveState (w : World) (path : String) (state : State) : List Event × Option String :=
  match w.MarshalIndent state with
  | .error err => ([], some err)
  | .ok data =>
    match w.MkdirAll (w.Dir path) with
    | some err => ([], some err)
    | none =>
      match w.WriteFile path data with
      | some err => ([Event.mkdir (w.Dir path)], some err)
      | none => ([Event.mkdir (w.Dir path), Event.write path data], none)

/-- The digits that the pattern of `getBookmarks` captures when it matches at the head of
the text: "status/" and then the longest run of ASCII digits, at least one. -/
def getBookmarks.matchHere : List Char → Option String
  | 's' :: 't' :: 'a' :: 't' :: 'u' :: 's' :: '/' :: rest =>
    if (rest.takeWhile Char.isDigit).length = 0 then none
    else some ⟨rest.takeWhile Char.isDigit⟩
  | _ => none

/-- The first submatch of the pattern of `getBookmarks` in a line, if it matches. -/
def getBookmarks.submatch : List Char → Option String
  | [] => none
  | c :: rest =>
    match getBookmarks.matchHere (c :: rest) with
    | some id => some id
    | none => getBookmarks.submatch rest

/-- The loop of `getBookmarks` over the lines (main.go 486-497). -/
def getBookmarks.loop : List String → List String → List String
  | [], ids => ids
  | line :: rest, ids =>
    match getBookmarks.submatch line.data with
    | none => getBookmarks.loop rest ids
    | some id =>
      if id ∈ ids then getBookmarks.loop rest ids
      else getBookmarks.loop rest (ids ++ [id])

/-- `getBookmarks` (main.go 471-503). -/
def getBookmarks (w : World) (birdBin : String) (limit : Int) : Except String (List String) :=
  match w.birdBookmarks birdBin limit with
  | .error err => .error ("bird bookmarks failed: " ++ err)
  | .ok output =>
    match w.scanLines output with
    | .error err => .error err
    | .ok lines => .ok (getBookmarks.loop lines [])

/-- `parseClock` (main.go 1032-1046); `sscanf` answers the call of fmt.Sscanf. -/
def parseClock (sscanf : String → Except String (Int × Int)) (value : String) :
    Except String Int :=
  if value.data.count ':' + 1 ≠ 2 then .error "expected HH:MM"
  else
    match sscanf value with
    | .error err => .error err
    | .ok (hour, minute) =>
      if hour < 0 ∨ hour > 23 ∨ minute < 0 ∨ minute > 59 then .error "invalid time"
      else .ok (hour * 60 + minute)

/-- The set of processed IDs that `runProcess` builds (main.go 241-244). -/
def runProcess.processedSet : List String → GoMap Bool → GoMap Bool
  | [], processedSet => processedSet
  | id :: rest, processedSet => runProcess.processedSet rest (processedSet.set id true)

/-- The pending list that `runProcess` builds (main.go 246-252). -/
def runProcess.pending (force : Bool) (processedSet : GoMap Bool) : List String → List String
  | [] => []
  | id :: rest =>
    if !force && (match processedSet.get? id with | some b => b | none => false) then
      runProcess.pending force processedSet rest
    else id :: runProcess.pending force processedSet rest

/-- The end of `runProcess` (main.go 261-271), after the pending IDs were attempted. -/
def runProcess.finish (w : World) (config : Config) (bookmarksConfig : BookmarksConfig)
    (progress : Progress) : List Event × Option String :=
  let closing : State → List Event := fun state =>
    [Event.printed ("Processed " ++ toString progress.processedCount ++ " new bookmarks\n"),
      Event.printed ("Updated categories: " ++
        formatCategoryCounts bookmarksConfig.CategoryOrder state.Categories ++ "\n")]
  if progress.processedCount > 0 then
    let state := { progress.state with LastProcessed := w.utcStamp }
    let saved := saveState w config.StatePath state
    match saved.2 with
    | some err => (saved.1, some err)
    | none => (saved.1 ++ closing state, none)
  else (closing progress.state, none)

/-- The binaries as `runProcess` settles them (main.go 219-226): the resolved path of bird,
and no summarize or gemini binary when it is not found. -/
def runProcess.binaries (w : World) (config : Config) (birdPath : String) : Config :=
  let config := { config with BirdBin := birdPath }
  let config := match w.LookPath config.SummarizeBin with
    | .error _ => { config with SummarizeBin := "" }
    | .ok _ => config
  let config := match w.LookPath config.GeminiBin with
    | .error _ => { config with GeminiBin := "" }
    | .ok _ => config
  config

/-- The pass of `runProcess` over the fetched IDs (main.go 241-259). -/
def runProcess.attempt (U : RuneCase) (w : World) (config : Config)
    (bookmarksConfig : BookmarksConfig) (quietStart quietEnd : Int) (force : Bool)
    (state : State) (ids : List String) : Progress :=
  let processedSet := runProcess.processedSet state.ProcessedIDs []
  let pending := runProcess.pending force processedSet ids
  if config.Parallel then processBookmarksParallel w config pending state processedSet
  else
    processBookmarksSequential U w config bookmarksConfig pending state quietStart quietEnd
      processedSet

/-- The two lines that `runProcess` prints after loading the state (main.go 233-234). -/
def runProcess.opening (bookmarksConfig : BookmarksConfig) (state : State) : List Event :=
  [Event.printed ("Processed so far: " ++ toString state.ProcessedIDs.length ++ " bookmarks\n"),
    Event.printed ("Categories: " ++
      formatCategoryCounts bookmarksConfig.CategoryOrder state.Categories ++ "\n")]

/-- `runProcess` (main.go 201-272): the events and the returned error, if any. -/
def runProcess (U : RuneCase) (w : World) (config : Config) (force : Bool) :
    List Event × Option String :=
  match loadBookmarksConfig config.ConfigPath (w.readConfig config.ConfigPath) with
  | .error err => ([], some err)
  | .ok bookmarksConfig =>
    match parseClock w.Sscanf config.QuietStart with
    | .error err => ([], some ("invalid quiet-start: " ++ err))
    | .ok quietStart =>
      match parseClock w.Sscanf config.QuietEnd with
      | .error err => ([], some ("invalid quiet-end: " ++ err))
      | .ok quietEnd =>
        match w.LookPath config.BirdBin with
        | .error err => ([], some ("bird binary not found: " ++ err))
        | .ok birdPath =>
          let config := runProcess.binaries w config birdPath
          match loadState w config.StatePath bookmarksConfig.CategoryOrder with
          | .error err => ([], some err)
          | .ok state =>
            let opening := runProcess.opening bookmarksConfig state
            match getBookmarks w config.BirdBin config.Limit with
            | .error err => (opening, some err)
            | .ok ids =>
              let progress := runProcess.attempt U w config bookmarksConfig quietStart quietEnd
                force state ids
              let finished := runProcess.finish w config bookmarksConfig progress
              (opening ++ progress.events ++ finished.1, finished.2)

/-! ## Go runtime: the scanner of package fmt -/

/-- `SkipSpace` of the scanner of package fmt, as `Sscanf` runs it: white space is skipped
(the same runes as `unicode.IsSpace`), and a line break in the input is an error. -/
def Sscanf.skipSpace : List Char → Except String (List Char)
  | [] => .ok []
  | c :: rest =>
    if c = '\n' then .error "unexpected newline"
    else if isSpace c then Sscanf.skipSpace rest
    else .ok (c :: rest)

/-- The runes that the scanner accepts in a decimal number: the digits and, as in a Go
number literal, the underscore. -/
def Sscanf.isDigit (c : Char) : Bool := ('0' ≤ c && c ≤ '9') || c = '_'

/-- The digit runes at the head of the input, at most `width` of them, and what is left. -/
def Sscanf.digits : Nat → List Char → List Char × List Char
  | 0, input => ([], input)
  | _ + 1, [] => ([], [])
  | width + 1, c :: rest =>
    if Sscanf.isDigit c then (c :: (Sscanf.digits width rest).1, (Sscanf.digits width rest).2)
    else ([], c :: rest)

/-- The verb `%02d` on an input without leading white space: an optional sign and digit
runes, two runes in all at most, converted by `strconv.ParseInt(token, 10, 64)`, which
takes no underscore.  The result is the number and what is left of the input. -/
def Sscanf.field (input : List Char) : Except String (Int × List Char) :=
  match input with
  | [] => .error "EOF"
  | c :: rest =>
    let signed : Bool := c = '+' || c = '-'
    let width : Nat := if signed then 1 else 2
    let unsigned : List Char := if signed then rest else c :: rest
    match unsigned with
    | [] => .error "EOF"
    | d :: _ =>
      if !Sscanf.isDigit d then .error "expected integer"
      else
        let token := (Sscanf.digits width unsigned).1
        if '_' ∈ token then
          .error ("strconv.ParseInt: parsing \"" ++ String.mk (if signed then c :: token else token)
            ++ "\": invalid syntax")
        else
          let magnitude : Nat := token.foldl (fun acc r => acc * 10 + (r.toNat - 48)) 0
          .ok (if c = '-' then -(magnitude : Int) else (magnitude : Int),
            (Sscanf.digits width unsigned).2)

/-- The call `fmt.Sscanf(value, "%02d:%02d", &hour, &minute)` of `parseClock`
(main.go 1038), after the scanner of package fmt: white space before a number is skipped,
each number is read from at most two runes, the colon of the format must be the next rune
of the input, and what follows the second number is not looked at. -/
def Sscanf (value : String) : Except String (Int × Int) :=
  match Sscanf.skipSpace value.data with
  | .error err => .error err
  | .ok input =>
    match Sscanf.field input with
    | .error err => .error err
    | .ok (hour, input) =>
      match input with
      | [] => .error "unexpected EOF"
      | c :: input =>
        if c ≠ ':' then .error "input does not match format"
        else
          match Sscanf.skipSpace input with
          | .error err => .error err
          | .ok input =>
            match Sscanf.field input with
            | .error err => .error err
            | .ok (minute, _) => .ok (hour, minute)

/-! ## Specification predicates -/

/-- What `UnmarshalYAML` keeps true of the categories it builds. -/
def LoadedInv (c : CategoriesConfig) : Prop :=
  (∀ k ∈ c.Items.keys, k ≠ "") ∧ (∀ n ∈ c.Order, n ∈ c.Items.keys) ∧
    (c.Items ≠ [] → c.Order ≠ [])

/-- A category is hit by a tweet when one of its non-empty keywords, lowered, is a
substring of the lowered text `Raw + "\n" + Thread`. -/
def KeywordHit (U : RuneCase) (tweet : Tweet) (category : CategoryConfig) : Prop :=
  ∃ kw ∈ category.Keywords, kw ≠ "" ∧
    utf8 (ToLower U kw) <:+: utf8 (ToLower U (tweet.Raw ++ "\n" ++ tweet.Thread))

/-- A name selects a tweet when it has an entry in the map and that entry is hit. -/
def Selects (U : RuneCase) (tweet : Tweet) (categories : CategoriesConfig) (name : String) :
    Prop :=
  ∃ category, categories.Items.get? name = some category ∧ KeywordHit U tweet category

/-- The lowered and stripped form of a name or answer: lowercase, then without spaces,
underscores and hyphens. -/
def strippedForm (U : RuneCase) (name : String) : String :=
  normalizeCategoryKey U (ToLower U name)

/-- Does the processing of one ID succeed, so that the ID is marked as processed? -/
def succeeds (U : RuneCase) (w : World) (config : Config) (bookmarksConfig : BookmarksConfig)
    (quietStart quietEnd : Int) (id : String) : Bool :=
  match (processBookmark U w config bookmarksConfig id quietStart quietEnd).2 with
  | .ok result => result.Processed
  | .error _ => false

/-- The events of the attempt at one ID: those of `processBookmark`, then the failure line
if it returned an error. -/
def attemptEvents (U : RuneCase) (w : World) (config : Config)
    (bookmarksConfig : BookmarksConfig) (quietStart quietEnd : Int) (id : String) :
    List Event :=
  (processBookmark U w config bookmarksConfig id quietStart quietEnd).1 ++
    match (processBookmark U w config bookmarksConfig id quietStart quietEnd).2 with
    | .ok _ => []
    | .error err => [Event.processFailed id err]

/-- The category map that a state file holds by itself: what `json.Unmarshal` stores for
its keys into a state without a map; none when the key is missing or null. -/
def persistedCategories (fields : List StateField) : Option (GoMap Int) :=
  (fields.foldl StateField.store ⟨"", [], none⟩).Categories

/-- The map under decoding agrees with the map of the file where the file has an entry,
and holds nothing or a zero elsewhere. -/
def Tracks (decoding persisted : GoMap Int) : Prop :=
  ∀ x, match persisted.get? x with
    | some n => decoding.get? x = some n
    | none => decoding.get? x = none ∨ decoding.get? x = some 0

/-- The contents written to a path, in the order of the events. -/
def writesTo (path : String) : List Event → List String
  | [] => []
  | Event.write p content :: rest =>
    if p = path then content :: writesTo path rest else writesTo path rest
  | _ :: rest => writesTo path rest

/-- One step of reading a text for double-quoted string literals.  The state says whether
the reader is inside a literal and, inside, whether the last rune was an escaping
backslash. -/
def literalStep (s : Bool × Bool) (c : Char) : Bool × Bool :=
  if s.1 then
    if s.2 then (true, false)
    else if c = '\\' then (true, true)
    else if c = '"' then (false, false)
    else (true, false)
  else if c = '"' then (true, false)
  else (false, false)

/-- The literal state after a text that is read from outside any literal. -/
def literalState (text : List Char) : Bool × Bool := text.foldl literalStep (false, false)

/-- One step of counting braces: a brace outside string literals opens or closes a level,
everything inside a literal leaves the depth as it is. -/
def depthStep (s : (Bool × Bool) × Int) (c : Char) : (Bool × Bool) × Int :=
  (literalStep s.1 c,
    if s.1.1 then s.2
    else if c = '\x7b' then s.2 + 1
    else if c = '\x7d' then s.2 - 1
    else s.2)

/-- The nesting depth after a text: opening minus closing braces outside its string
literals. -/
def braceDepth (text : List Char) : Int := (text.foldl depthStep ((false, false), 0)).2

/-- A balanced object: the text starts with an opening brace, ends with a closing brace,
its braces outside string literals are balanced, and the opening brace is only closed by
the last rune (the depth stays positive in between). -/
def BalancedObject (text : List Char) : Prop :=
  text.head? = some '\x7b' ∧ text.getLast? = some '\x7d' ∧ braceDepth text = 0 ∧
    ∀ n, 0 < n → n < text.length → 0 < braceDepth (text.take n)

/-- The line of the prompt for one category: the name, and the description without the
white space around it, or "No description provided" when that leaves nothing. -/
def promptLine (name : String) (category : CategoryConfig) : String :=
  "- " ++ name ++ ": " ++
    (if TrimSpace category.Description = "" then "No description provided"
      else TrimSpace category.Description) ++ "\n"

/-- The lines for the names of the configured order that have an entry in the map, in
that order. -/
def promptLines (categories : CategoriesConfig) : List String :=
  categories.Order.filterMap
    (fun name => (categories.Items.get? name).map (fun category => promptLine name category))

/-- The keys of a mapping as they are declared: each key trimmed, blank keys left out. -/
def declaredKeys (content : List (String × Except String CategoryConfig)) : List String :=
  (content.map (fun kv => TrimSpace kv.1)).filter (fun k => decide (k ≠ ""))

/-- The count of a category in the map of the state; a missing entry counts as 0. -/
def countOf (categories : GoMap Int) (category : String) : Int :=
  match categories.get? category with
  | some n => n
  | none => 0

/-- The sum of all category counts. -/
def totalCount (categories : GoMap Int) : Int := (categories.map Prod.snd).sum

/-- The category that the processing of an ID resolves, when the processing succeeds. -/
def resolvedCategory (U : RuneCase) (w : World) (config : Config)
    (bookmarksConfig : BookmarksConfig) (quietStart quietEnd : Int) (id : String) :
    Option String :=
  match (processBookmark U w config bookmarksConfig id quietStart quietEnd).2 with
  | .ok result => if result.Processed then some result.Category else none
  | .error _ => none

/-- The number of IDs of a list whose processing succeeds with the given category. -/
def hits (U : RuneCase) (w : World) (config : Config) (bookmarksConfig : BookmarksConfig)
    (quietStart quietEnd : Int) (ids : List String) (category : String) : Nat :=
  (ids.filter (fun id =>
    decide (resolvedCategory U w config bookmarksConfig quietStart quietEnd id =
      some category))).length

/-- A number below 100 written with two decimal digits, zero-padded. -/
def twoDigits (n : Nat) : String := ⟨[Char.ofNat (48 + n / 10), Char.ofNat (48 + n % 10)]⟩

/-- The clock text "HH:MM" of an hour and a minute. -/
def clockText (h m : Nat) : String := twoDigits h ++ ":" ++ twoDigits m

/-! ## Concrete inputs -/

/-- The configuration of `TestCustomCategoryFromConfig` (config_test.go 12-28), parsed. -/
def potteryDocument : ConfigDocument :=
  ⟨some ⟨YamlKind.MappingNode,
      [("razor", .ok ⟨"AI agents", ["agent"]⟩),
       ("pottery", .ok ⟨"Ceramics, pottery business, kiln, glazes",
          ["ceramic", "pottery", "kiln", "glaze", "clay"]⟩)]⟩,
    some [("razor", ⟨"notify", "", false⟩),
      ("pottery", ⟨"save_obsidian", "Pottery/Twitter-Bookmarks", false⟩)]⟩

/-- The configuration that `loadBookmarksConfig` returns for `potteryDocument`. -/
def potteryConfig : BookmarksConfig :=
  ⟨⟨[("razor", ⟨"AI agents", ["agent"]⟩),
      ("pottery", ⟨"Ceramics, pottery business, kiln, glazes",
          ["ceramic", "pottery", "kiln", "glaze", "clay"]⟩)], ["razor", "pottery"]⟩,
    [("razor", ⟨"notify", "", false⟩),
      ("pottery", ⟨"save_obsidian", "Pottery/Twitter-Bookmarks", false⟩)]⟩

/-- The tweet of `TestCustomCategoryFromConfig` (config_test.go 38-42). -/
def potteryTweet : Tweet :=
  ⟨"123", "New kiln and glaze setup for the pottery studio",
    "New kiln and glaze setup for the pottery studio", ""⟩

/-- A world at noon in which every sub-process fails and every file operation succeeds;
maps are visited in insertion order. -/
def idleWorld : World where
  now := ⟨12, 0, "2024-01-01", "2024-01-01T12:00:00Z"⟩
  range := fun _ keys => keys
  birdRead := fun _ _ => .error "exit status 1"
  birdThread := fun _ _ => .error "exit status 1"
  birdUnbookmark := fun _ _ => some ("exit status 1", "")
  gemini := fun _ _ => .error "exit status 1"
  unmarshal := fun _ => .error "unexpected end of JSON input"
  summarize := fun _ _ => .error "exit status 1"
  MkdirAll := fun _ => none
  WriteFile := fun _ _ => none
  IsAbs := fun p => p.data.head? = some '/'
  Join := fun a b => a ++ "/" ++ b
  FromSlash := fun p => p
  utcStamp := "2024-01-01T11:00:00Z"
  readConfig := fun _ => .error "permission denied"
  Sscanf := fun _ => .error "unexpected EOF"
  LookPath := fun _ => .error "executable file not found in $PATH"
  ReadFile := fun _ => FileRead.notExist
  unmarshalState := fun _ => .error "unexpected end of JSON input"
  birdBookmarks := fun _ _ => .error "exit status 1"
  scanLines := fun _ => .ok []
  MarshalIndent := fun _ => .error "unsupported value"
  Dir := fun p => p
  parallel := fun _ _ state processedSet => ⟨0, state, processedSet, []⟩

/-- Command-line settings with every binary named. -/
def plainConfig : Config :=
  ⟨"/home/u/config.yaml", "/home/u/state.json", "/home/u/vault", "/home/u/prompts", "bird",
    "summarize", "gemini", "23:00", "08:00", 50, false, 5⟩


/-- A world in which the gemini command answers with a category that is not registered and
asks for the content behind the links. -/
def chattyWorld : World :=
  { idleWorld with
    gemini := fun _ _ => .ok "Here you go: \x7b\"category\": \"gardening\", \"needsUrlContent\": true\x7d"
    unmarshal := fun text =>
      if text = "\x7b\"category\": \"gardening\", \"needsUrlContent\": true\x7d" then
        .ok ⟨"gardening", true⟩
      else .error "invalid character" }

/-- Command-line settings without a gemini binary. -/
def noGeminiConfig : Config := { plainConfig with GeminiBin := "" }

/-- Categories whose catch-all name is spelled "Other". -/
def otherCategories : CategoriesConfig :=
  ⟨[("razor", ⟨"AI agents", ["agent"]⟩), ("Other", ⟨"Unclear", []⟩)], ["razor", "Other"]⟩

/-- A world in which the command "bird read" prints a tweet. -/
def readingWorld : World :=
  { idleWorld with birdRead := fun _ _ => .ok "Nice weather today\n" }

/-- A world in which no file can be written: the vault note fails. -/
def readOnlyWorld : World :=
  { idleWorld with WriteFile := fun _ _ => some "permission denied" }

/-- A world in which only the prompt folder can be created: the vault note fails, the task
prompt is written. -/
def lockedVaultWorld : World :=
  { idleWorld with
    MkdirAll := fun path => if path = "/home/u/prompts" then none else some "permission denied" }

/-- A world in which the command "bird unbookmark" succeeds. -/
def removingWorld : World :=
  { idleWorld with birdUnbookmark := fun _ _ => none }

/-- A world at 23:30. -/
def nightWorld : World :=
  { idleWorld with now := ⟨23, 30, "2024-01-01", "2024-01-01T23:30:00Z"⟩ }

/-- A world in which the command "bird read" prints a tweet about pottery for every ID
except "2", for which it fails. -/
def feedWorld : World :=
  { idleWorld with
    birdRead := fun _ id =>
      if id = "2" then .error "exit status 1" else .ok "New kiln and glaze setup\n" }

/-- A state that holds one processed ID. -/
def oneDoneState : State := ⟨"2024-01-01T10:00:00Z", ["1"], [("razor", 0), ("pottery", 1)]⟩

/-- A world with a state file written by an earlier version: one category of the file is
not configured any more, one configured category is not in the file. -/
def savedWorld : World :=
  { idleWorld with
    ReadFile := fun _ => FileRead.data "(state file)"
    unmarshalState := fun _ =>
      .ok [StateField.lastProcessed "2024-01-01T10:00:00Z", StateField.processedIds ["1", "7"],
        StateField.categories (some [("pottery", 4), ("old", 2)])] }

/-- A world in which a whole run goes through: the configuration of the test, no state
file yet, two bookmarks, and tweets about pottery. -/
def runWorld : World :=
  { idleWorld with
    readConfig := fun _ => .ok potteryDocument
    Sscanf := fun value =>
      if value = "23:00" then .ok (23, 0)
      else if value = "08:00" then .ok (8, 0)
      else .error "expected integer"
    LookPath := fun bin =>
      if bin = "bird" then .ok "/usr/local/bin/bird"
      else .error "executable file not found in $PATH"
    birdBookmarks := fun _ _ => .ok "https://x.com/a/status/1\nhttps://x.com/b/status/3\n"
    scanLines := fun _ => .ok ["https://x.com/a/status/1", "https://x.com/b/status/3"]
    birdRead := fun _ _ => .ok "New kiln and glaze setup\n"
    MarshalIndent := fun _ => .ok "(state as JSON)"
    Dir := fun _ => "/home/u" }

/-- A world like `runWorld` in which no tweet can be read. -/
def unreadableWorld : World :=
  { runWorld with birdRead := fun _ _ => .error "exit status 1" }

/-- The configuration of the test without its routing table. -/
def unroutedConfig : BookmarksConfig := ⟨potteryConfig.Categories, []⟩

/-- The categories of a sample mapping with a blank key and padded keys. -/
def paddedNode : YamlNode :=
  ⟨YamlKind.MappingNode,
    [(" razor", .ok ⟨"AI agents", ["agent"]⟩), ("  ", .error "cannot decode"),
      ("pottery ", .ok ⟨"Ceramics", ["kiln"]⟩)]⟩

/-- A state in which one count is the largest value of a Go int. -/
def fullState : State := ⟨"2024-01-01T10:00:00Z", [], [("pottery", 9223372036854775807)]⟩

end Bookmarks

namespace Tuya

/-! ## The Tuya configuration (src/tuya/internal/config/config.go) -/

structure HomeAssistant where
  URL : String
  Token : String
deriving DecidableEq

structure Cloud where
  AccessID : String
  AccessKey : String
  Endpoint : String
  Region : String
  Schema : String
  UserID : String
deriving DecidableEq

structure Config where
  Backend : String
  HomeAssistant : HomeAssistant
  Cloud : Cloud
deriving DecidableEq

/-- What `Load` and `Save` call outside the package, over a file system in state `Disk`:
the operating system and the YAML library.  `Unmarshal` is the decoding into a zero
`Config`. -/
structure System (Disk : Type) where
  UserHomeDir : Except String String
  Join : List String → String
  Dir : String → String
  MkdirAll : Disk → String → Except String Disk
  WriteFile : Disk → String → String → Except String Disk
  ReadFile : Disk → String → Except String String
  Marshal : Config → Except String String
  Unmarshal : String → Except String Config

/-- `DefaultPath` (config.go 32-38). -/
def DefaultPath {Disk : Type} (sys : System Disk) : Except String String :=
  match sys.UserHomeDir with
  | .error err => .error err
  | .ok home => .ok (sys.Join [home, ".config", "tuya-hub", "config.yaml"])

/-- `Load` (config.go 40-57): a file that cannot be read gives the zero configuration
without error. -/
def Load {Disk : Type} (sys : System Disk) (disk : Disk) (path : String) :
    Except String Config :=
  let resolved : Except String String := if path = "" then DefaultPath sys else .ok path
  match resolved with
  | .error err => .error err
  | .ok path =>
    match sys.ReadFile disk path with
    | .error _ => .ok ⟨"", ⟨"", ""⟩, ⟨"", "", "", "", "", ""⟩⟩
    | .ok data =>
      match sys.Unmarshal data with
      | .error err => .error err
      | .ok cfg => .ok cfg

/-- One statement of `Config.ApplyEnv`, of the form
`if v := strings.TrimSpace(os.Getenv(name)); v != "" { field = v }`, where `assign` stores
a value in the field.  `getenv` is `os.Getenv`, which gives the empty string for a
variable that is not set. -/
def ApplyEnv.statement (getenv : String → String) (name : String)
    (assign : Config → String → Config) (c : Config) : Config :=
  let v := Bookmarks.TrimSpace (getenv name)
  if v ≠ "" then assign c v else c

/-- `Config.ApplyEnv` (config.go 59-87): the nine statements in their order. -/
def ApplyEnv (getenv : String → String) (c : Config) : Config :=
  let c := ApplyEnv.statement getenv "TUYA_BACKEND" (fun c v => { c with Backend := v }) c
  let c := ApplyEnv.statement getenv "TUYA_HA_URL"
    (fun c v => { c with HomeAssistant.URL := v }) c
  let c := ApplyEnv.statement getenv "TUYA_HA_TOKEN"
    (fun c v => { c with HomeAssistant.Token := v }) c
  let c := ApplyEnv.statement getenv "TUYA_CLOUD_ACCESS_ID"
    (fun c v => { c with Cloud.AccessID := v }) c
  let c := ApplyEnv.statement getenv "TUYA_CLOUD_ACCESS_KEY"
    (fun c v => { c with Cloud.AccessKey := v }) c
  let c := ApplyEnv.statement getenv "TUYA_CLOUD_ENDPOINT"
    (fun c v => { c with Cloud.Endpoint := v }) c
  let c := ApplyEnv.statement getenv "TUYA_CLOUD_REGION"
    (fun c v => { c with Cloud.Region := v }) c
  let c := ApplyEnv.statement getenv "TUYA_CLOUD_SCHEMA"
    (fun c v => { c with Cloud.Schema := v }) c
  let c := ApplyEnv.statement getenv "TUYA_CLOUD_USER_ID"
    (fun c v => { c with Cloud.UserID := v }) c
  c

/-- `Save` (config.go 115-134): the returned path and the file system after the call. -/
def Save {Disk : Type} (sys : System Disk) (disk : Disk) (path : String) (cfg : Config) :
    Except String (String × Disk) :=
  let resolved : Except String String := if path = "" then DefaultPath sys else .ok path
  match resolved with
  | .error err => .error err
  | .ok path =>
    match sys.MkdirAll disk (sys.Dir path) with
    | .error err => .error err
    | .ok disk =>
      match sys.Marshal cfg with
      | .error err => .error err
      | .ok data =>
        match sys.WriteFile disk path data with
        | .error err => .error err
        | .ok disk => .ok (path, disk)

/-! ## Tuya: specification predicates -/

/-- The value of a field after `ApplyEnv`: the trimmed value of its variable when that is
not empty, the old value otherwise. -/
def envOr (getenv : String → String) (name old : String) : String :=
  if Bookmarks.TrimSpace (getenv name) = "" then old
  else Bookmarks.TrimSpace (getenv name)

/-! ## Tuya: concrete inputs -/

/-- The configuration of `TestSaveLoadConfig` (config_test.go 13-23). -/
def cloudConfig : Config :=
  ⟨"cloud", ⟨"", ""⟩, ⟨"id", "key", "https://openapi.tuyaus.com", "us", "smartlife", "uid"⟩⟩

/-- A system whose disk is the list of the files written so far, newest first, and whose
YAML library knows the text of `cloudConfig` only. -/
def listSystem : System (List (String × String)) where
  UserHomeDir := .ok "/home/u"
  Join := fun parts => String.intercalate "/" parts
  Dir := fun _ => "/home/u/.config/tuya-hub"
  MkdirAll := fun disk _ => .ok disk
  WriteFile := fun disk path data => .ok ((path, data) :: disk)
  ReadFile := fun disk path =>
    match disk.find? (fun file => file.1 = path) with
    | some file => .ok file.2
    | none => .error "no such file or directory"
  Marshal := fun cfg =>
    if cfg = cloudConfig then .ok "backend: cloud\n(and the other fields)\n"
    else .error "cannot marshal"
  Unmarshal := fun data =>
    if data = "backend: cloud\n(and the other fields)\n" then .ok cloudConfig
    else .error "cannot unmarshal"

/-- The environment of `TestApplyEnv` (config_test.go 46-48), with padding around one
value and one blank value. -/
def testEnv (name : String) : String :=
  if name = "TUYA_BACKEND" then " cloud "
  else if name = "TUYA_CLOUD_SCHEMA" then "smartlife"
  else if name = "TUYA_CLOUD_USER_ID" then "uid"
  else if name = "TUYA_HA_URL" then "   "
  else ""

/-- A configuration whose backend starts with a line break. -/
def newlineConfig : Config := ⟨"\na", ⟨"", ""⟩, ⟨"", "", "", "", "", ""⟩⟩

/-- A system like `listSystem` whose YAML library does not give back a line break at the
start of a string: the text it writes for `newlineConfig` decodes to the backend `a`. -/
def lossySystem : System (List (String × String)) :=
  { listSystem with
    Marshal := fun cfg =>
      if cfg = newlineConfig then .ok "(YAML text of the configuration)"
      else .error "cannot marshal"
    Unmarshal := fun data =>
      if data = "(YAML text of the configuration)" then
        .ok ⟨"a", ⟨"", ""⟩, ⟨"", "", "", "", "", ""⟩⟩
      else .error "cannot unmarshal" }

end Tuya

namespace Bookmarks

/-! # Theorems -/

/-! ## Runtime lemmas -/

theorem startsWith_iff (l p : List Nat) : startsWith l p = true ↔ p <+: l := by
  induction p generalizing l with
  | nil => simp [startsWith]
  | cons b p ih =>
    cases l with
    | nil => simp [startsWith]
    | cons a l =>
      simp only [startsWith, Bool.and_eq_true, beq_iff_eq, ih, List.cons_prefix_cons]
      constructor
      · rintro ⟨h1, h2⟩; exact ⟨h1.symm, h2⟩
      · rintro ⟨h1, h2⟩; exact ⟨h1.symm, h2⟩

theorem hasBlock_iff (l p : List Nat) : hasBlock l p = true ↔ p <:+: l := by
  induction l with
  | nil => cases p <;> simp [hasBlock]
  | cons a l ih =>
    simp only [hasBlock, Bool.or_eq_true, startsWith_iff, ih]
    exact List.infix_cons_iff.symm

theorem Contains_iff (s substr : String) : Contains s substr = true ↔ utf8 substr <:+: utf8 s :=
  hasBlock_iff _ _

theorem utf8_append (a b : String) : utf8 (a ++ b) = utf8 a ++ utf8 b := by
  simp [utf8, String.data_append]

theorem ToLower_append (U : RuneCase) (a b : String) :
    ToLower U (a ++ b) = ToLower U a ++ ToLower U b := by
  apply String.ext
  simp [ToLower, String.data_append]

theorem ToLower_ascii (U : RuneCase) (s : String) (h : ∀ c ∈ s.data, c.toNat < 128) :
    ToLower U s = ToLower asciiCase s := by
  apply String.ext
  simp only [ToLower]
  apply List.map_congr_left
  intro c hc
  rw [U.ascii c (h c hc)]
  rfl

theorem normalizeCategoryKey_ascii (U : RuneCase) (s : String) (h : ∀ c ∈ s.data, c.toNat < 128) :
    normalizeCategoryKey U s = normalizeCategoryKey asciiCase s := by
  have h2 : ∀ c ∈ (TrimSpace s).data, c.toNat < 128 := by
    intro c hc
    apply h
    simp only [TrimSpace, List.mem_reverse] at hc
    exact (List.dropWhile_sublist _).subset ((List.mem_reverse).1 ((List.dropWhile_sublist _).subset hc))
  simp only [normalizeCategoryKey, ToLower_ascii U _ h2]

theorem GoMap.get?_isSome_iff {V : Type} (m : GoMap V) (k : String) :
    (m.get? k).isSome = true ↔ k ∈ m.keys := by
  induction m with
  | nil => simp [GoMap.get?, GoMap.keys]
  | cons e rest ih =>
    obtain ⟨k', v⟩ := e
    simp only [GoMap.get?, GoMap.keys, List.map_cons, List.mem_cons]
    by_cases h : k' = k
    · simp [h]
    · simp only [h, if_false]
      rw [ih]
      simp only [GoMap.keys]
      constructor
      · intro hm; exact Or.inr hm
      · rintro (hm | hm)
        · exact absurd hm.symm h
        · exact hm

theorem GoMap.mem_keys_set {V : Type} (m : GoMap V) (k : String) (v : V) (x : String) :
    x ∈ (m.set k v).keys ↔ x = k ∨ x ∈ m.keys := by
  induction m with
  | nil => simp [GoMap.set, GoMap.keys]
  | cons e rest ih =>
    obtain ⟨k', v'⟩ := e
    simp only [GoMap.set]
    by_cases h : k' = k
    · subst h; simp [GoMap.keys]
    · simp only [h, if_false]
      simp only [GoMap.keys, List.map_cons, List.mem_cons] at ih ⊢
      rw [ih]
      tauto

theorem UnmarshalYAML.loop_inv (content : List (String × Except String CategoryConfig))
    (c c' : CategoriesConfig) (hc : LoadedInv c) (h : UnmarshalYAML.loop content c = .ok c') :
    LoadedInv c' := by
  induction content generalizing c with
  | nil =>
    simp only [UnmarshalYAML.loop, Except.ok.injEq] at h
    exact h ▸ hc
  | cons e rest ih =>
    obtain ⟨k, v⟩ := e
    simp only [UnmarshalYAML.loop] at h
    by_cases hk : TrimSpace k = ""
    · simp only [hk, if_true] at h
      exact ih c hc h
    · simp only [hk, if_false] at h
      cases v with
      | error err => simp at h
      | ok category =>
        simp only at h
        refine ih _ ?_ h
        refine ⟨?_, ?_, ?_⟩
        · intro x hx
          rcases (GoMap.mem_keys_set _ _ _ _).1 hx with rfl | hx
          · exact hk
          · exact hc.1 x hx
        · intro n hn
          simp only [List.mem_append, List.mem_singleton] at hn
          rcases hn with hn | rfl
          · exact (GoMap.mem_keys_set _ _ _ _).2 (Or.inr (hc.2.1 n hn))
          · exact (GoMap.mem_keys_set _ _ _ _).2 (Or.inl rfl)
        · intro _
          simp

theorem loadBookmarksConfig_inv (path : String) (file : Except String ConfigDocument)
    (cfg : BookmarksConfig) (h : loadBookmarksConfig path file = .ok cfg) :
    cfg.Categories.Items ≠ [] ∧ LoadedInv cfg.Categories := by
  unfold loadBookmarksConfig at h
  split at h
  · simp at h
  · split at h
    · simp at h
    · rename_i doc
      simp only at h
      split at h
      · simp at h
      · rename_i categories hdec
        split at h
        · simp at h
        · rename_i hlen
          simp only [Except.ok.injEq] at h
          have hinv : LoadedInv categories := by
            cases hd : doc.categories with
            | none =>
              rw [hd] at hdec
              simp only [Except.ok.injEq] at hdec
              subst hdec
              simp at hlen
            | some node =>
              rw [hd] at hdec
              simp only [UnmarshalYAML] at hdec
              split at hdec
              · simp at hdec
              · exact UnmarshalYAML.loop_inv _ _ _ ⟨by simp [GoMap.keys], by simp, by simp⟩ hdec
          have hne : categories.Items ≠ [] := by
            intro h0; apply hlen; simp [h0]
          subst h
          refine ⟨hne, hinv.1, ?_, ?_⟩
          · simp only
            split
            · intro n hn
              exact ((List.perm_insertionSort _ _).mem_iff).1 hn
            · exact hinv.2.1
          · intro _
            simp only
            split
            · rename_i h0
              exact absurd (List.length_eq_zero.1 h0) (hinv.2.2 hne)
            · exact hinv.2.2 hne


theorem normalizeCategory_mem (U : RuneCase) (value : String) (categories : CategoriesConfig)
    (range1 range2 : List String → List String)
    (h1 : RangeOrder range1) (h2 : RangeOrder range2) :
    normalizeCategory U value categories range1 range2 = "" ∨
      normalizeCategory U value categories range1 range2 ∈ categories.Items.keys := by
  unfold normalizeCategory
  simp only
  split
  · exact Or.inl rfl
  · split
    · rename_i name hf
      exact Or.inr (((h1 _).mem_iff).1 (List.mem_of_find?_eq_some hf))
    · split
      · rename_i name hf
        exact Or.inr (((h2 _).mem_iff).1 (List.mem_of_find?_eq_some hf))
      · exact Or.inl rfl

theorem categorizeTweet.loop_mem (U : RuneCase) (textLower : String) (items : GoMap CategoryConfig)
    (order : List String) :
    categorizeTweet.loop U textLower items order = "" ∨
      categorizeTweet.loop U textLower items order ∈ items.keys := by
  induction order with
  | nil => exact Or.inl rfl
  | cons name rest ih =>
    simp only [categorizeTweet.loop]
    split
    · exact ih
    · rename_i category hget
      split
      · refine Or.inr ((GoMap.get?_isSome_iff items name).1 ?_)
        simp [hget]
      · exact ih

theorem findCategoryByNormalizedKey_mem (U : RuneCase) (categories : CategoriesConfig)
    (target : String) (range1 : List String → List String) (h1 : RangeOrder range1) :
    findCategoryByNormalizedKey U categories target range1 = "" ∨
      findCategoryByNormalizedKey U categories target range1 ∈ categories.Items.keys := by
  unfold findCategoryByNormalizedKey
  simp only
  split
  · rename_i name hf
    exact Or.inr (((h1 _).mem_iff).1 (List.mem_of_find?_eq_some hf))
  · exact Or.inl rfl

/-- C1: for every configuration that `loadBookmarksConfig` returns (it has at least one
category and every name of `Order` is a key of `Items`), every tweet and every outcome of
the external classifier, the category resolved by the classification steps of
`processBookmark` is not empty and is a key of the category map; hence a result returned
by `processBookmark` carries such a category. -/
theorem classify_category_registered (U : RuneCase) (w : World) (config : Config)
    (path : String) (file : Except String ConfigDocument) (cfg : BookmarksConfig)
    (tweet : Tweet)
    (hload : loadBookmarksConfig path file = .ok cfg)
    (hrange : ∀ k, RangeOrder (w.range k)) :
    cfg.Categories.Items ≠ [] ∧
    (∀ name ∈ cfg.Categories.Order, (cfg.Categories.Items.get? name).isSome = true) ∧
    (classify U w config cfg tweet).1 ≠ "" ∧
    (cfg.Categories.Items.get? (classify U w config cfg tweet).1).isSome = true := by
  obtain ⟨hne, hk, hord, hnonempty⟩ := loadBookmarksConfig_inv path file cfg hload
  have key : ∀ c, c = "" ∨ c ∈ cfg.Categories.Items.keys →
      (if c = "" then fallbackCategory U cfg.Categories (w.range 4) else c) ≠ "" ∧
      (if c = "" then fallbackCategory U cfg.Categories (w.range 4) else c) ∈
        cfg.Categories.Items.keys := by
    intro c hc
    by_cases h0 : c = ""
    · simp only [h0, if_true]
      unfold fallbackCategory
      simp only
      split
      · rename_i hother
        rcases findCategoryByNormalizedKey_mem U cfg.Categories "other" (w.range 4) (hrange 4)
          with h | h
        · exact absurd h hother
        · exact ⟨hother, h⟩
      · cases hO : cfg.Categories.Order with
        | nil => exact absurd hO (hnonempty hne)
        | cons first rest =>
          have hmem : first ∈ cfg.Categories.Items.keys := hord first (by simp [hO])
          exact ⟨hk first hmem, hmem⟩
    · simp only [h0, if_false]
      rcases hc with h | h
      · exact absurd h h0
      · exact ⟨h0, h⟩
  have step : ∀ c, c = "" ∨ c ∈ cfg.Categories.Items.keys →
      (if c = "" then categorizeTweet U tweet cfg.Categories else c) = "" ∨
      (if c = "" then categorizeTweet U tweet cfg.Categories else c) ∈
        cfg.Categories.Items.keys := by
    intro c hc
    by_cases h0 : c = ""
    · simp only [h0, if_true]
      exact categorizeTweet.loop_mem U _ _ _
    · rw [if_neg h0]; exact hc
  have hfin : (classify U w config cfg tweet).1 ≠ "" ∧
      (classify U w config cfg tweet).1 ∈ cfg.Categories.Items.keys := by
    unfold classify
    simp only
    apply key
    apply step
    split
    · exact normalizeCategory_mem U _ _ _ _ (hrange 2) (hrange 3)
    · exact Or.inl rfl
  refine ⟨hne, ?_, hfin.1, (GoMap.get?_isSome_iff _ _).2 hfin.2⟩
  intro name hname
  exact (GoMap.get?_isSome_iff _ _).2 (hord name hname)

theorem classify_category_registered_witness :
    (classify asciiCase idleWorld plainConfig potteryConfig potteryTweet).1 ≠ "" ∧
    (potteryConfig.Categories.Items.get?
      (classify asciiCase idleWorld plainConfig potteryConfig potteryTweet).1).isSome = true :=
  (classify_category_registered asciiCase idleWorld plainConfig "config.yaml"
    (.ok potteryDocument) potteryConfig potteryTweet (by rfl)
    (fun _ keys => List.Perm.refl keys)).2.2

theorem categorizeTweet.keywords_iff (U : RuneCase) (textLower : String) (kws : List String) :
    categorizeTweet.keywords U textLower kws = true ↔
      ∃ kw ∈ kws, kw ≠ "" ∧ utf8 (ToLower U kw) <:+: utf8 textLower := by
  induction kws with
  | nil => simp [categorizeTweet.keywords]
  | cons kw rest ih =>
    simp only [categorizeTweet.keywords, List.mem_cons, exists_eq_or_imp]
    by_cases h0 : kw = ""
    · simp only [h0, if_true, ih, ne_eq, not_true_eq_false, false_and, false_or]
    · simp only [h0, if_false, ne_eq, not_false_eq_true, true_and]
      by_cases hc : Contains textLower (ToLower U kw) = true
      · simp only [hc, if_true, true_iff]
        exact Or.inl ((Contains_iff _ _).1 hc)
      · have hc2 : Contains textLower (ToLower U kw) = false := by simpa using hc
        simp only [hc2, Bool.false_eq_true, if_false, ih]
        constructor
        · intro h; exact Or.inr h
        · rintro (h | h)
          · exact absurd ((Contains_iff _ _).2 h) hc
          · exact h

theorem Selects_iff (U : RuneCase) (tweet : Tweet) (categories : CategoriesConfig)
    (name : String) :
    Selects U tweet categories name ↔
      (match categories.Items.get? name with
        | none => false
        | some category =>
          categorizeTweet.keywords U (ToLower U (tweet.Raw ++ "\n" ++ tweet.Thread))
            category.Keywords) = true := by
  unfold Selects KeywordHit
  cases h : categories.Items.get? name with
  | none => simp
  | some category => simp [categorizeTweet.keywords_iff]

theorem categorizeTweet.loop_first (U : RuneCase) (tweet : Tweet) (categories : CategoriesConfig)
    (pre : List String) (name : String) (post : List String)
    (hsel : Selects U tweet categories name)
    (hpre : ∀ n ∈ pre, ¬ Selects U tweet categories n) :
    categorizeTweet.loop U (ToLower U (tweet.Raw ++ "\n" ++ tweet.Thread)) categories.Items
      (pre ++ name :: post) = name := by
  induction pre with
  | nil =>
    have h := (Selects_iff U tweet categories name).1 hsel
    simp only [List.nil_append, categorizeTweet.loop]
    split
    · rename_i hget; rw [hget] at h; simp at h
    · rename_i category hget
      rw [hget] at h
      simp only at h
      simp [h]
  | cons n pre ih =>
    have hn : ¬ Selects U tweet categories n := hpre n (by simp)
    rw [Selects_iff] at hn
    simp only [List.cons_append, categorizeTweet.loop]
    have ih' := ih (fun m hm => hpre m (by simp [hm]))
    split
    · exact ih'
    · rename_i category hget
      rw [hget] at hn
      simp only at hn
      simp only [hn, if_false]
      exact ih'
      
theorem categorizeTweet.loop_none (U : RuneCase) (tweet : Tweet) (categories : CategoriesConfig)
    (order : List String)
    (hpre : ∀ n ∈ order, ¬ Selects U tweet categories n) :
    categorizeTweet.loop U (ToLower U (tweet.Raw ++ "\n" ++ tweet.Thread)) categories.Items
      order = "" := by
  induction order with
  | nil => rfl
  | cons n pre ih =>
    have hn : ¬ Selects U tweet categories n := hpre n (by simp)
    rw [Selects_iff] at hn
    simp only [categorizeTweet.loop]
    have ih' := ih (fun m hm => hpre m (by simp [hm]))
    split
    · exact ih'
    · rename_i category hget
      rw [hget] at hn
      simp only at hn
      simp only [hn, if_false]
      exact ih'

theorem utf8_mem_infix (s : String) (c : Char) (h : c ∈ s.data) : utf8Rune c <:+: utf8 s := by
  obtain ⟨a, b, hab⟩ := List.append_of_mem h
  refine ⟨a.flatMap utf8Rune, b.flatMap utf8Rune, ?_⟩
  simp [utf8, hab]

theorem utf8Rune_ascii_mem (c : Char) (b : Nat) (hb : b < 128) (h : b ∈ utf8Rune c) :
    c.toNat = b := by
  unfold utf8Rune at h
  simp only at h
  split at h
  · simp only [List.mem_singleton] at h
    exact h.symm
  · split at h
    · simp only [List.mem_cons, List.mem_singleton, List.not_mem_nil, or_false] at h
      omega
    · split at h
      · simp only [List.mem_cons, List.mem_singleton, List.not_mem_nil, or_false] at h
        omega
      · simp only [List.mem_cons, List.mem_singleton, List.not_mem_nil, or_false] at h
        omega

theorem mem_data_of_ascii_byte (s : String) (c : Char) (hc : c.toNat < 128)
    (h : utf8 (String.singleton c) <:+: utf8 s) : c ∈ s.data := by
  have h1 : utf8 (String.singleton c) = [c.toNat] := by
    simp [utf8, String.singleton, utf8Rune, hc]
  rw [h1] at h
  have hmem : c.toNat ∈ utf8 s := h.subset (by simp)
  simp only [utf8, List.mem_flatMap] at hmem
  obtain ⟨d, hd, hbd⟩ := hmem
  have hdc : d.toNat = c.toNat := utf8Rune_ascii_mem d c.toNat hc hbd
  have : d = c := by
    apply Char.ext
    apply UInt32.ext
    exact hdc
  exact this ▸ hd

/-- C2: `categorizeTweet` returns the first name of the configured order that has an entry
in the map with a non-empty keyword whose lowered form is a substring of the lowered text
`Raw + "\n" + Thread`, and the empty string when no name of the order has one.  With
A: ["x"], B: ["x", "y"] in that order every text containing "x" gives A, and a keyword found
in the thread text alone selects its category. -/
theorem categorizeTweet_first_match (U : RuneCase) (tweet : Tweet)
    (categories : CategoriesConfig) :
    (∀ pre name post, categories.Order = pre ++ name :: post →
      Selects U tweet categories name → (∀ n ∈ pre, ¬ Selects U tweet categories n) →
      categorizeTweet U tweet categories = name) ∧
    ((∀ n ∈ categories.Order, ¬ Selects U tweet categories n) →
      categorizeTweet U tweet categories = "") ∧
    (∀ a b : String, utf8 "x" <:+: utf8 (tweet.Raw ++ "\n" ++ tweet.Thread) →
      categorizeTweet U tweet ⟨[("A", ⟨a, ["x"]⟩), ("B", ⟨b, ["x", "y"]⟩)], ["A", "B"]⟩ = "A") ∧
    (∀ pre name post category kw, categories.Order = pre ++ name :: post →
      categories.Items.get? name = some category → kw ∈ category.Keywords → kw ≠ "" →
      utf8 (ToLower U kw) <:+: utf8 (ToLower U tweet.Thread) →
      (∀ n ∈ pre, ¬ Selects U tweet categories n) →
      categorizeTweet U tweet categories = name) := by
  refine ⟨?_, ?_, ?_, ?_⟩
  · intro pre name post hO hsel hpre
    unfold categorizeTweet
    simp only [hO]
    exact categorizeTweet.loop_first U tweet categories pre name post hsel hpre
  · intro hnone
    exact categorizeTweet.loop_none U tweet categories _ hnone
  · intro a b hx
    have hmem : 'x' ∈ (tweet.Raw ++ "\n" ++ tweet.Thread).data :=
      mem_data_of_ascii_byte _ 'x' (by decide) hx
    have hlow : 'x' ∈ (ToLower U (tweet.Raw ++ "\n" ++ tweet.Thread)).data := by
      simp only [ToLower, List.mem_map]
      exact ⟨'x', hmem, by rw [U.ascii 'x' (by decide)]; rfl⟩
    have hxl : ToLower U "x" = "x" := by
      rw [ToLower_ascii U "x" (by decide)]; rfl
    have hsel : Selects U tweet ⟨[("A", ⟨a, ["x"]⟩), ("B", ⟨b, ["x", "y"]⟩)], ["A", "B"]⟩ "A" := by
      refine ⟨⟨a, ["x"]⟩, by simp [GoMap.get?], "x", by simp, by decide, ?_⟩
      rw [hxl]
      exact utf8_mem_infix _ 'x' hlow
    exact categorizeTweet.loop_first U tweet _ [] "A" ["B"] hsel (by simp)
  · intro pre name post category kw hO hget hkw hne hin hpre
    have hsel : Selects U tweet categories name := by
      refine ⟨category, hget, kw, hkw, hne, ?_⟩
      rw [ToLower_append, utf8_append]
      obtain ⟨p, q, hpq⟩ := hin
      exact ⟨utf8 (ToLower U (tweet.Raw ++ "\n")) ++ p, q, by simp [← hpq, List.append_assoc]⟩
    unfold categorizeTweet
    simp only [hO]
    exact categorizeTweet.loop_first U tweet categories pre name post hsel hpre

theorem categorizeTweet_first_match_witness :
    categorizeTweet asciiCase potteryTweet potteryConfig.Categories = "pottery" :=
  (categorizeTweet_first_match asciiCase potteryTweet potteryConfig.Categories).1
    ["razor"] "pottery" [] rfl
    ((Selects_iff asciiCase potteryTweet potteryConfig.Categories "pottery").2 (by decide))
    (fun n hn h => by
      have hn2 : n = "razor" := by simpa using hn
      subst hn2
      exact absurd ((Selects_iff asciiCase potteryTweet potteryConfig.Categories "razor").1 h)
        (by decide))

theorem find?_of_unique {p : String → Bool} (l : List String) (name : String)
    (hmem : name ∈ l) (hp : p name = true) (huniq : ∀ n ∈ l, p n = true → n = name) :
    l.find? p = some name := by
  cases h : l.find? p with
  | none => exact absurd hp (by simpa using List.find?_eq_none.1 h name hmem)
  | some x =>
    have hx : p x = true := List.find?_some h
    rw [huniq x (List.mem_of_find?_eq_some h) hx]

theorem find?_of_none {p : String → Bool} (l : List String) (h : ∀ n ∈ l, p n = false) :
    l.find? p = none := by
  apply List.find?_eq_none.2
  intro x hx
  simp [h x hx]

theorem normalizeCategory_exact (U : RuneCase) (value : String) (categories : CategoriesConfig)
    (range1 range2 : List String → List String) (h1 : RangeOrder range1)
    (hdistinct : (categories.Items.keys.map (strippedForm U)).Nodup)
    (hvalue : TrimSpace value ≠ "") (name : String) (hname : name ∈ categories.Items.keys)
    (heq : ToLower U name = ToLower U (TrimSpace value)) :
    normalizeCategory U value categories range1 range2 = name := by
  unfold normalizeCategory
  simp only [if_neg hvalue]
  rw [find?_of_unique (range1 categories.Items.keys) name ((h1 _).mem_iff.2 hname)
    (by simpa using heq)]
  intro n hn hp
  have hn2 : n ∈ categories.Items.keys := (h1 _).mem_iff.1 hn
  have hp2 : ToLower U n = ToLower U (TrimSpace value) := by simpa using hp
  apply List.inj_on_of_nodup_map hdistinct hn2 hname
  simp only [strippedForm, hp2, heq]

theorem normalizeCategory_stripped (U : RuneCase) (value : String)
    (categories : CategoriesConfig)
    (range1 range2 : List String → List String) (h1 : RangeOrder range1)
    (h2 : RangeOrder range2)
    (hdistinct : (categories.Items.keys.map (strippedForm U)).Nodup)
    (hvalue : TrimSpace value ≠ "")
    (hno : ∀ n ∈ categories.Items.keys, ToLower U n ≠ ToLower U (TrimSpace value))
    (name : String) (hname : name ∈ categories.Items.keys)
    (heq : strippedForm U name = strippedForm U (TrimSpace value)) :
    normalizeCategory U value categories range1 range2 = name := by
  unfold normalizeCategory
  simp only [if_neg hvalue]
  rw [find?_of_none (range1 categories.Items.keys)
    (fun n hn => by simpa using hno n ((h1 _).mem_iff.1 hn))]
  simp only
  rw [find?_of_unique (range2 categories.Items.keys) name ((h2 _).mem_iff.2 hname)
    (by simpa [strippedForm] using heq)]
  intro n hn hp
  have hn2 : n ∈ categories.Items.keys := (h2 _).mem_iff.1 hn
  have hp2 : strippedForm U n = strippedForm U (TrimSpace value) := by
    simpa [strippedForm] using hp
  exact List.inj_on_of_nodup_map hdistinct hn2 hname (hp2.trans heq.symm)

theorem normalizeCategory_unmatched (U : RuneCase) (value : String)
    (categories : CategoriesConfig)
    (range1 range2 : List String → List String) (h1 : RangeOrder range1)
    (h2 : RangeOrder range2)
    (hno : ∀ n ∈ categories.Items.keys, ToLower U n ≠ ToLower U (TrimSpace value) ∧
      strippedForm U n ≠ strippedForm U (TrimSpace value)) :
    normalizeCategory U value categories range1 range2 = "" := by
  unfold normalizeCategory
  simp only
  split
  · rfl
  · rw [find?_of_none (range1 categories.Items.keys)
      (fun n hn => by simpa using (hno n ((h1 _).mem_iff.1 hn)).1)]
    simp only
    rw [find?_of_none (range2 categories.Items.keys)
      (fun n hn => by simpa [strippedForm] using (hno n ((h2 _).mem_iff.1 hn)).2)]

/-- C3: for a category map whose names are pairwise distinct in lowered and stripped
form, and an answer that is not empty after trimming, `normalizeCategory` returns the
registered name equal to the trimmed answer ignoring case if there is one, otherwise the
registered name with the same lowered and stripped form, otherwise the empty string,
whatever the order in which the map is visited; an answer that is empty after trimming
gives the empty string.  With "pottery" registered, the answers "Pottery", "pottery ",
"POTTERY" and "pot-tery" all give "pottery". -/
theorem normalizeCategory_spec (U : RuneCase) (value : String) (categories : CategoriesConfig)
    (range1 range2 : List String → List String)
    (h1 : RangeOrder range1) (h2 : RangeOrder range2)
    (hdistinct : (categories.Items.keys.map (strippedForm U)).Nodup) :
    (TrimSpace value = "" → normalizeCategory U value categories range1 range2 = "") ∧
    (TrimSpace value ≠ "" →
      (∀ name ∈ categories.Items.keys, ToLower U name = ToLower U (TrimSpace value) →
        normalizeCategory U value categories range1 range2 = name) ∧
      ((∀ n ∈ categories.Items.keys, ToLower U n ≠ ToLower U (TrimSpace value)) →
        ∀ name ∈ categories.Items.keys,
          strippedForm U name = strippedForm U (TrimSpace value) →
          normalizeCategory U value categories range1 range2 = name) ∧
      ((∀ n ∈ categories.Items.keys, ToLower U n ≠ ToLower U (TrimSpace value) ∧
          strippedForm U n ≠ strippedForm U (TrimSpace value)) →
        normalizeCategory U value categories range1 range2 = "")) ∧
    ("pottery" ∈ categories.Items.keys →
      ∀ answer ∈ ["Pottery", "pottery ", "POTTERY", "pot-tery"],
        normalizeCategory U answer categories range1 range2 = "pottery") := by
  refine ⟨?_, ?_, ?_⟩
  · intro h0
    simp [normalizeCategory, h0]
  · intro hvalue
    exact ⟨fun name hname heq =>
        normalizeCategory_exact U value categories range1 range2 h1 hdistinct hvalue name hname heq,
      fun hno name hname heq =>
        normalizeCategory_stripped U value categories range1 range2 h1 h2 hdistinct hvalue hno
          name hname heq,
      normalizeCategory_unmatched U value categories range1 range2 h1 h2⟩
  · intro hreg answer hans
    have hp : ToLower U "pottery" = "pottery" := by
      rw [ToLower_ascii U _ (by decide)]; decide
    have hsp : strippedForm U "pottery" = "pottery" := by
      unfold strippedForm
      rw [hp, normalizeCategoryKey_ascii U _ (by decide)]; decide
    simp only [List.mem_cons, List.mem_singleton, List.not_mem_nil, or_false] at hans
    rcases hans with rfl | rfl | rfl | rfl
    · refine normalizeCategory_exact U _ categories range1 range2 h1 hdistinct (by decide)
        "pottery" hreg ?_
      rw [hp, show TrimSpace "Pottery" = "Pottery" by decide, ToLower_ascii U _ (by decide)]
      decide
    · refine normalizeCategory_exact U _ categories range1 range2 h1 hdistinct (by decide)
        "pottery" hreg ?_
      rw [hp, show TrimSpace "pottery " = "pottery" by decide, hp]
    · refine normalizeCategory_exact U _ categories range1 range2 h1 hdistinct (by decide)
        "pottery" hreg ?_
      rw [hp, show TrimSpace "POTTERY" = "POTTERY" by decide, ToLower_ascii U _ (by decide)]
      decide
    · have ht : TrimSpace "pot-tery" = "pot-tery" := by decide
      have hl : ToLower U "pot-tery" = "pot-tery" := by
        rw [ToLower_ascii U _ (by decide)]; decide
      have hs : strippedForm U "pot-tery" = "pottery" := by
        unfold strippedForm
        rw [hl, normalizeCategoryKey_ascii U _ (by decide)]; decide
      refine normalizeCategory_stripped U _ categories range1 range2 h1 h2 hdistinct (by decide)
        ?_ "pottery" hreg ?_
      · intro n hn hcontra
        rw [ht, hl] at hcontra
        have hsn : strippedForm U n = strippedForm U "pottery" := by
          rw [hsp]
          unfold strippedForm
          rw [hcontra, normalizeCategoryKey_ascii U _ (by decide)]; decide
        have : n = "pottery" := List.inj_on_of_nodup_map hdistinct hn hreg hsn
        rw [this, hp] at hcontra
        exact absurd hcontra (by decide)
      · rw [ht, hsp, hs]

theorem normalizeCategory_spec_witness :
    normalizeCategory asciiCase " Pot_Tery\n" potteryConfig.Categories id List.reverse =
      "pottery" :=
  ((normalizeCategory_spec asciiCase " Pot_Tery\n" potteryConfig.Categories id List.reverse
    (fun keys => List.Perm.refl keys) (fun keys => List.reverse_perm keys)
    (by decide)).2.1 (by decide)).2.1
    (by decide) "pottery" (by decide) (by decide)

theorem classify_snd (U : RuneCase) (w : World) (config : Config)
    (bookmarksConfig : BookmarksConfig) (tweet : Tweet) :
    (classify U w config bookmarksConfig tweet).2 =
      match analyzeWithLLM U w config tweet bookmarksConfig.Categories (w.range 0) (w.range 1) with
      | .ok analysis => analysis.NeedsURLContent && !tweetHasEnoughContext tweet
      | .error _ => false := by
  cases h : analyzeWithLLM U w config tweet bookmarksConfig.Categories (w.range 0) (w.range 1)
    <;> simp only [classify, h]

theorem classify_fst (U : RuneCase) (w : World) (config : Config)
    (bookmarksConfig : BookmarksConfig) (tweet : Tweet)
    (hA : ∀ analysis,
      analyzeWithLLM U w config tweet bookmarksConfig.Categories (w.range 0) (w.range 1) =
        .ok analysis →
      normalizeCategory U analysis.Category bookmarksConfig.Categories (w.range 2) (w.range 3) =
        "") :
    (classify U w config bookmarksConfig tweet).1 =
      if categorizeTweet U tweet bookmarksConfig.Categories = "" then
        fallbackCategory U bookmarksConfig.Categories (w.range 4)
      else categorizeTweet U tweet bookmarksConfig.Categories := by
  cases h : analyzeWithLLM U w config tweet bookmarksConfig.Categories (w.range 0) (w.range 1)
    with
  | error e => simp only [classify, h, if_true]
  | ok analysis => simp only [classify, h, hA analysis h, if_true]

/-- C4 fails as stated: the gemini answer names the unknown category "gardening" and asks
for link content; the category falls back to the keyword match, as without an answer, but
the flag handed to the router is true, while without an answer it is false. -/
theorem classify_unmatched_flag_counterexample :
    analyzeWithLLM asciiCase chattyWorld plainConfig potteryTweet potteryConfig.Categories
      (chattyWorld.range 0) (chattyWorld.range 1) = .ok ⟨"", true⟩ ∧
    normalizeCategory asciiCase "" potteryConfig.Categories (chattyWorld.range 2)
      (chattyWorld.range 3) = "" ∧
    analyzeWithLLM asciiCase chattyWorld noGeminiConfig potteryTweet potteryConfig.Categories
      (chattyWorld.range 0) (chattyWorld.range 1) = .error "gemini CLI not available" ∧
    classify asciiCase chattyWorld plainConfig potteryConfig potteryTweet = ("pottery", true) ∧
    classify asciiCase chattyWorld noGeminiConfig potteryConfig potteryTweet =
      ("pottery", false) :=
  ⟨by rfl, by decide, by rfl, by decide, by decide⟩

/-- C4, amended: when the answer of the external classifier matches no known category, the
category handed to the router is the one computed without any answer (keyword match, then
fallback, for the same visiting order of the map); the flag is not discarded with it: it
stays `needsUrlContent` and not `tweetHasEnoughContext`, while a run without an answer
passes false. -/
theorem classify_unmatched_answer (U : RuneCase) (w w2 : World) (config config2 : Config)
    (bookmarksConfig : BookmarksConfig) (tweet : Tweet) (analysis : LLMAnalysis) (err : String)
    (hok : analyzeWithLLM U w config tweet bookmarksConfig.Categories (w.range 0) (w.range 1) =
      .ok analysis)
    (hun : normalizeCategory U analysis.Category bookmarksConfig.Categories (w.range 2)
      (w.range 3) = "")
    (hfail : analyzeWithLLM U w2 config2 tweet bookmarksConfig.Categories (w2.range 0)
      (w2.range 1) = .error err)
    (hsame : w2.range 4 = w.range 4) :
    (classify U w config bookmarksConfig tweet).1 =
      (classify U w2 config2 bookmarksConfig tweet).1 ∧
    (classify U w config bookmarksConfig tweet).2 =
      (analysis.NeedsURLContent && !tweetHasEnoughContext tweet) ∧
    (classify U w2 config2 bookmarksConfig tweet).2 = false := by
  refine ⟨?_, ?_, ?_⟩
  · rw [classify_fst U w config bookmarksConfig tweet, classify_fst U w2 config2 bookmarksConfig tweet,
      hsame]
    · intro a ha
      rw [hfail] at ha
      cases ha
    · intro a ha
      rw [hok] at ha
      cases ha
      exact hun
  · rw [classify_snd, hok]
  · rw [classify_snd, hfail]

theorem classify_unmatched_answer_witness :
    (classify asciiCase chattyWorld plainConfig potteryConfig potteryTweet).1 =
      (classify asciiCase idleWorld noGeminiConfig potteryConfig potteryTweet).1 ∧
    (classify asciiCase chattyWorld plainConfig potteryConfig potteryTweet).2 =
      (true && !tweetHasEnoughContext potteryTweet) ∧
    (classify asciiCase idleWorld noGeminiConfig potteryConfig potteryTweet).2 = false :=
  classify_unmatched_answer asciiCase chattyWorld idleWorld plainConfig noGeminiConfig
    potteryConfig potteryTweet ⟨"", true⟩ "gemini CLI not available"
    (by rfl) (by decide) (by rfl) rfl

/-- C5: the flag computed by the classification steps of `processBookmark` equals
`needsUrlContent` and len(trim(Text)) < 200 and len(trim(Thread)) < 200 when an external
answer was parsed (the `needsUrlContent` of the record is the parsed one), and is false
when there is no answer; so it can only be true when both trimmed texts are shorter than
200 bytes. -/
theorem classify_flag_gate (U : RuneCase) (w : World) (config : Config)
    (bookmarksConfig : BookmarksConfig) (tweet : Tweet) :
    (∀ analysis,
      analyzeWithLLM U w config tweet bookmarksConfig.Categories (w.range 0) (w.range 1) =
        .ok analysis →
      (∃ text parsed, w.unmarshal text = .ok parsed ∧
        analysis.NeedsURLContent = parsed.NeedsURLContent) ∧
      (classify U w config bookmarksConfig tweet).2 =
        (analysis.NeedsURLContent && decide (len (TrimSpace tweet.Text) < 200) &&
          decide (len (TrimSpace tweet.Thread) < 200))) ∧
    (∀ err,
      analyzeWithLLM U w config tweet bookmarksConfig.Categories (w.range 0) (w.range 1) =
        .error err →
      (classify U w config bookmarksConfig tweet).2 = false) ∧
    ((classify U w config bookmarksConfig tweet).2 = true →
      len (TrimSpace tweet.Text) < 200 ∧ len (TrimSpace tweet.Thread) < 200) := by
  have hgate : ∀ b : Bool, (b && !tweetHasEnoughContext tweet) =
      (b && decide (len (TrimSpace tweet.Text) < 200) &&
        decide (len (TrimSpace tweet.Thread) < 200)) := by
    intro b
    have hlt : ∀ n : Nat, (!decide (n ≥ 200)) = decide (n < 200) := by
      intro n
      by_cases h : n ≥ 200
      · simp [h]
      · simp [h]; omega
    unfold tweetHasEnoughContext
    simp only [Bool.not_or, hlt, Bool.and_assoc]
  refine ⟨?_, ?_, ?_⟩
  · intro analysis hok
    refine ⟨?_, ?_⟩
    · unfold analyzeWithLLM at hok
      split at hok
      · cases hok
      · simp only at hok
        split at hok
        · cases hok
        · split at hok
          · cases hok
          · split at hok
            · cases hok
            · rename_i parsed hparsed
              simp only [Except.ok.injEq] at hok
              exact ⟨_, parsed, hparsed, by rw [← hok]⟩
    · rw [classify_snd, hok]
      exact hgate _
  · intro err hfail
    rw [classify_snd, hfail]
  · intro htrue
    rw [classify_snd] at htrue
    split at htrue
    · rw [hgate] at htrue
      simp only [Bool.and_eq_true, decide_eq_true_eq] at htrue
      exact ⟨htrue.1.2, htrue.2⟩
    · cases htrue

theorem classify_flag_gate_witness :
    (classify asciiCase chattyWorld plainConfig potteryConfig potteryTweet).2 =
      (true && decide (len (TrimSpace potteryTweet.Text) < 200) &&
        decide (len (TrimSpace potteryTweet.Thread) < 200)) ∧
    (classify asciiCase idleWorld plainConfig potteryConfig potteryTweet).2 = false :=
  ⟨((classify_flag_gate asciiCase chattyWorld plainConfig potteryConfig potteryTweet).1
      ⟨"", true⟩ (by rfl)).2,
    (classify_flag_gate asciiCase idleWorld plainConfig potteryConfig potteryTweet).2.1
      "gemini failed: exit status 1" (by rfl)⟩

theorem normalizeCategoryKey_other (U : RuneCase) : normalizeCategoryKey U "other" = "other" := by
  rw [normalizeCategoryKey_ascii U _ (by decide)]; decide

theorem normalizeCategoryKey_empty (U : RuneCase) : normalizeCategoryKey U "" = "" := by
  rw [normalizeCategoryKey_ascii U _ (by decide)]; decide

theorem normalizeCategory_no_categories (U : RuneCase) (value : String)
    (categories : CategoriesConfig) (range1 range2 : List String → List String)
    (h1 : RangeOrder range1) (h2 : RangeOrder range2) (hitems : categories.Items = []) :
    normalizeCategory U value categories range1 range2 = "" := by
  apply normalizeCategory_unmatched U value categories range1 range2 h1 h2
  intro n hn
  simp [hitems, GoMap.keys] at hn

/-- C6: when neither the external answer nor the keyword match yields a category, the
classification steps use `fallbackCategory`.  If exactly one category name normalizes to
"other", `fallbackCategory` returns that name; if none does, it returns the first name of
the configured order; with no categories at all it returns the empty string and
`processBookmark` returns an error (the configuration error, once the tweet was read)
and no result. -/
theorem fallbackCategory_spec (U : RuneCase) (categories : CategoriesConfig)
    (range1 : List String → List String) (h1 : RangeOrder range1) :
    (∀ (w : World) (config : Config) (routing : GoMap RoutingConfig) (tweet : Tweet),
      w.range 4 = range1 →
      (∀ analysis,
        analyzeWithLLM U w config tweet categories (w.range 0) (w.range 1) = .ok analysis →
        normalizeCategory U analysis.Category categories (w.range 2) (w.range 3) = "") →
      categorizeTweet U tweet categories = "" →
      (classify U w config ⟨categories, routing⟩ tweet).1 =
        fallbackCategory U categories range1) ∧
    (∀ name ∈ categories.Items.keys, normalizeCategoryKey U name = "other" →
      (∀ n ∈ categories.Items.keys, normalizeCategoryKey U n = "other" → n = name) →
      fallbackCategory U categories range1 = name) ∧
    ((∀ n ∈ categories.Items.keys, normalizeCategoryKey U n ≠ "other") →
      ∀ first rest, categories.Order = first :: rest →
      fallbackCategory U categories range1 = first) ∧
    (categories.Items = [] → categories.Order = [] →
      fallbackCategory U categories range1 = "" ∧
      ∀ (w : World) (config : Config) (routing : GoMap RoutingConfig) (tweetID : String)
        (quietStart quietEnd : Int), (∀ k, RangeOrder (w.range k)) →
        (∃ err, (processBookmark U w config ⟨categories, routing⟩ tweetID quietStart
          quietEnd).2 = .error err) ∧
        ∀ tweet, readTweet w config.BirdBin tweetID = .ok tweet →
          processBookmark U w config ⟨categories, routing⟩ tweetID quietStart quietEnd =
            ([], .error "no categories configured")) := by
  refine ⟨?_, ?_, ?_, ?_⟩
  · intro w config routing tweet hr hA hK
    rw [classify_fst U w config ⟨categories, routing⟩ tweet hA]
    simp only [hK, if_true, hr]
  · intro name hname hother huniq
    have hfind : findCategoryByNormalizedKey U categories "other" range1 = name := by
      unfold findCategoryByNormalizedKey
      simp only [normalizeCategoryKey_other]
      rw [find?_of_unique (range1 categories.Items.keys) name ((h1 _).mem_iff.2 hname)
        (by simpa using hother)
        (fun n hn hp => huniq n ((h1 _).mem_iff.1 hn) (by simpa using hp))]
    have hne : name ≠ "" := by
      intro h0
      rw [h0, normalizeCategoryKey_empty] at hother
      exact absurd hother (by decide)
    unfold fallbackCategory
    simp only [hfind, ne_eq, hne, not_false_eq_true, if_true]
  · intro hnone first rest hO
    have hfind : findCategoryByNormalizedKey U categories "other" range1 = "" := by
      unfold findCategoryByNormalizedKey
      simp only [normalizeCategoryKey_other]
      rw [find?_of_none (range1 categories.Items.keys)
        (fun n hn => by simpa using hnone n ((h1 _).mem_iff.1 hn))]
    unfold fallbackCategory
    simp only [hfind, ne_eq, not_true_eq_false, if_false, hO]
  · intro hitems hO
    have hfb : ∀ r : List String → List String, RangeOrder r →
        fallbackCategory U categories r = "" := by
      intro r hr
      have hnil : r categories.Items.keys = [] := by
        have := hr categories.Items.keys
        simp only [hitems, GoMap.keys, List.map_nil] at this
        simpa [hitems, GoMap.keys] using this.eq_nil
      unfold fallbackCategory findCategoryByNormalizedKey
      simp only [hnil, List.find?_nil, ne_eq, not_true_eq_false, if_false, hO]
    refine ⟨hfb range1 h1, ?_⟩
    intro w config routing tweetID quietStart quietEnd hw
    have hcls : ∀ tweet, (classify U w config ⟨categories, routing⟩ tweet).1 = "" := by
      intro tweet
      rw [classify_fst U w config ⟨categories, routing⟩ tweet
        (fun a _ => normalizeCategory_no_categories U _ categories _ _ (hw 2) (hw 3) hitems)]
      have hcat : categorizeTweet U tweet categories = "" := by
        simp [categorizeTweet, hO, categorizeTweet.loop]
      simp only [hcat, if_true]
      exact hfb _ (hw 4)
    have hpb : ∀ tweet, readTweet w config.BirdBin tweetID = .ok tweet →
        processBookmark U w config ⟨categories, routing⟩ tweetID quietStart quietEnd =
          ([], .error "no categories configured") := by
      intro tweet hread
      unfold processBookmark
      simp only [hread, hcls tweet, if_true]
    refine ⟨?_, hpb⟩
    cases hread : readTweet w config.BirdBin tweetID with
    | error err =>
      refine ⟨err, ?_⟩
      unfold processBookmark
      simp only [hread]
    | ok tweet =>
      exact ⟨"no categories configured", by rw [hpb tweet hread]⟩

theorem fallbackCategory_spec_witness :
    fallbackCategory asciiCase otherCategories List.reverse = "Other" ∧
    fallbackCategory asciiCase potteryConfig.Categories List.reverse = "razor" ∧
    processBookmark asciiCase readingWorld plainConfig ⟨⟨[], []⟩, []⟩ "42" 1380 480 =
      ([], .error "no categories configured") :=
  ⟨(fallbackCategory_spec asciiCase otherCategories List.reverse
      (fun keys => List.reverse_perm keys)).2.1 "Other" (by decide) (by decide) (by decide),
    (fallbackCategory_spec asciiCase potteryConfig.Categories List.reverse
      (fun keys => List.reverse_perm keys)).2.2.1 (by decide) "razor" ["pottery"] rfl,
    ((fallbackCategory_spec asciiCase ⟨[], []⟩ List.reverse
      (fun keys => List.reverse_perm keys)).2.2.2 rfl rfl).2 readingWorld plainConfig [] "42"
      1380 480 (fun _ keys => List.Perm.refl keys) |>.2
      ⟨"42", "Nice weather today", "Nice weather today", ""⟩ (by rfl)⟩

theorem routeTweet_action_cases (U : RuneCase) (w : World) (config : Config)
    (bookmarksConfig : BookmarksConfig) (tweet : Tweet) (category : String)
    (route : RoutingConfig) (urls : List String) (quietStart quietEnd : Int)
    (allowSummaries : Bool) (range1 : List String → List String) :
    (ToLower U (TrimSpace route.Action) = "save_obsidian" →
      (routeTweet U w config bookmarksConfig tweet category route urls quietStart quietEnd
        allowSummaries range1).2 =
        (saveToObsidian w config tweet category allowSummaries route.Path).2) ∧
    (ToLower U (TrimSpace route.Action) = "codex_prompt" →
      (routeTweet U w config bookmarksConfig tweet category route urls quietStart quietEnd
        allowSummaries range1).2 =
        match w.MkdirAll config.PromptsDir with
        | some err => some err
        | none => w.WriteFile (w.Join config.PromptsDir (tweet.ID ++ ".txt"))
            (createCodexPrompt w config tweet urls allowSummaries)) ∧
    (ToLower U (TrimSpace route.Action) = "unbookmark" →
      (routeTweet U w config bookmarksConfig tweet category route urls quietStart quietEnd
        allowSummaries range1).2 = unbookmarkTweet w config.BirdBin tweet.ID) ∧
    (ToLower U (TrimSpace route.Action) ≠ "save_obsidian" →
      ToLower U (TrimSpace route.Action) ≠ "codex_prompt" →
      ToLower U (TrimSpace route.Action) ≠ "unbookmark" →
      (routeTweet U w config bookmarksConfig tweet category route urls quietStart quietEnd
        allowSummaries range1).2 = none) := by
  refine ⟨?_, ?_, ?_, ?_⟩
  · intro h
    unfold routeTweet
    simp only [h]
    simp only [show ("save_obsidian" : String) ≠ "" by decide,
      show ("save_obsidian" : String) ≠ "summarize" by decide,
      show ("save_obsidian" : String) ≠ "razor_task" by decide,
      show ("save_obsidian" : String) ≠ "codex_prompt" by decide, if_false, if_true]
    split
    · rename_i err herr; simp only [herr]
    · rename_i herr
      simp only [herr]
      split <;> rfl
  · intro h
    unfold routeTweet
    simp only [h]
    simp only [show ("codex_prompt" : String) ≠ "" by decide,
      show ("codex_prompt" : String) ≠ "summarize" by decide,
      show ("codex_prompt" : String) ≠ "razor_task" by decide, if_false, if_true]
    cases hm : w.MkdirAll config.PromptsDir with
    | some err => simp only
    | none =>
      simp only
      split
      · rename_i err herr; simp only [herr]
      · rename_i herr
        simp only [herr]
        split <;> rfl
  · intro h
    unfold routeTweet
    simp only [h]
    simp only [show ("unbookmark" : String) ≠ "" by decide,
      show ("unbookmark" : String) ≠ "summarize" by decide,
      show ("unbookmark" : String) ≠ "razor_task" by decide,
      show ("unbookmark" : String) ≠ "codex_prompt" by decide,
      show ("unbookmark" : String) ≠ "save_obsidian" by decide, if_false, if_true]
    split
    · rename_i err herr; simp only [herr]
    · rename_i herr
      simp only [herr]
      split <;> rfl
  · intro h1 h2 h3
    unfold routeTweet
    simp only
    by_cases h0 : ToLower U (TrimSpace route.Action) = ""
    · simp only [h0, if_true, show ("notify" : String) ≠ "summarize" by decide,
        show ("notify" : String) ≠ "razor_task" by decide,
        show ("notify" : String) ≠ "codex_prompt" by decide,
        show ("notify" : String) ≠ "save_obsidian" by decide,
        show ("notify" : String) ≠ "unbookmark" by decide, if_false]
      split <;> rfl
    · simp only [h0, if_false, h1, h2, h3]
      split
      · split <;> rfl
      · split
        · rfl
        · split
          · split <;> rfl
          · split <;> rfl

theorem saveToObsidian_ok (w : World) (config : Config) (tweet : Tweet) (category : String)
    (allowSummaries : Bool) (folderPath : String)
    (hdir : ∀ path, w.MkdirAll path = none) (hfile : ∀ path content, w.WriteFile path content = none)
    (hpath : resolveObsidianPath w config folderPath ≠ "") :
    (saveToObsidian w config tweet category allowSummaries folderPath).2 = none := by
  unfold saveToObsidian
  simp only [if_neg hpath, hdir, hfile]

theorem implementRazorTask_events (U : RuneCase) (w : World) (config : Config) (tweet : Tweet)
    (quietStart quietEnd : Int) (allowSummaries : Bool) (folderPath : String) (notify : Bool) :
    ∃ tail, implementRazorTask U w config tweet quietStart quietEnd allowSummaries folderPath
        notify =
      (saveToObsidian w config tweet "razor" allowSummaries folderPath).1 ++
        (match (saveToObsidian w config tweet "razor" allowSummaries folderPath).2 with
          | some err => [Event.saveFailed err]
          | none => []) ++ tail ∧
      ∀ e ∈ tail, e = Event.quietSkip ∨ ∃ message, e = Event.telegram message := by
  have htele : ∀ message, ∀ e ∈ sendTelegram w message quietStart quietEnd,
      e = Event.quietSkip ∨ ∃ message, e = Event.telegram message := by
    intro message e he
    unfold sendTelegram at he
    split at he
    · left; simpa using he
    · right; exact ⟨message, by simpa using he⟩
  unfold implementRazorTask
  generalize saveToObsidian w config tweet "razor" allowSummaries folderPath = saved
  obtain ⟨events, result⟩ := saved
  cases notify with
  | false => cases result <;> exact ⟨[], by simp, by simp⟩
  | true =>
    simp only [Bool.not_true, Bool.false_eq_true, if_false]
    split
    · cases result <;>
        exact ⟨sendTelegram w
          (utf8 "Razor task queued for implementation. Tweet: " ++ truncate tweet.Text 200)
          quietStart quietEnd, by simp, htele _⟩
    · cases result <;>
        exact ⟨sendTelegram w (utf8 "Razor tip saved. Tweet: " ++ truncate tweet.Text 200)
          quietStart quietEnd, by simp, htele _⟩

theorem routeTweet_razor_task (U : RuneCase) (w : World) (config : Config)
    (bookmarksConfig : BookmarksConfig) (tweet : Tweet) (category : String)
    (route : RoutingConfig) (urls : List String) (quietStart quietEnd : Int)
    (allowSummaries : Bool) (range1 : List String → List String)
    (h : ToLower U (TrimSpace route.Action) = "razor_task") :
    routeTweet U w config bookmarksConfig tweet category route urls quietStart quietEnd
        allowSummaries range1 =
      (implementRazorTask U w config tweet quietStart quietEnd allowSummaries route.Path
        route.Notify, none) := by
  unfold routeTweet
  simp only [h]
  simp only [show ("razor_task" : String) ≠ "" by decide,
    show ("razor_task" : String) ≠ "summarize" by decide, if_false, if_true]

theorem routeTweet_codex_logged (U : RuneCase) (w : World) (config : Config)
    (bookmarksConfig : BookmarksConfig) (tweet : Tweet) (category : String)
    (route : RoutingConfig) (urls : List String) (quietStart quietEnd : Int)
    (allowSummaries : Bool) (range1 : List String → List String)
    (h : ToLower U (TrimSpace route.Action) = "codex_prompt") (err : String)
    (hsave : (saveToObsidian w config tweet category allowSummaries route.Path).2 = some err) :
    (saveToObsidian w config tweet category allowSummaries route.Path).1 ++
        [Event.saveFailed err] <+:
      (routeTweet U w config bookmarksConfig tweet category route urls quietStart quietEnd
        allowSummaries range1).1 := by
  unfold routeTweet
  simp only [h]
  simp only [show ("codex_prompt" : String) ≠ "" by decide,
    show ("codex_prompt" : String) ≠ "summarize" by decide,
    show ("codex_prompt" : String) ≠ "razor_task" by decide, if_false, if_true, hsave]
  cases hm : w.MkdirAll config.PromptsDir with
  | some e => exact List.prefix_refl _
  | none =>
    simp only
    split
    · exact List.prefix_append _ _
    · split
      · simp only [List.append_assoc]
        rw [← List.append_assoc]
        exact List.prefix_append _ _
      · exact List.prefix_append _ _

set_option maxRecDepth 8000 in
/-- C7 fails as stated: under razor_task, and under codex_prompt, the vault note cannot be
written (`saveToObsidian` returns an error), the failure is printed on standard error, and
`routeTweet` still returns no error; under codex_prompt it goes on to write the task
prompt. -/
theorem routeTweet_vault_failure_counterexample :
    (saveToObsidian readOnlyWorld plainConfig potteryTweet "razor" false "Razor/Notes").2 =
      some "permission denied" ∧
    routeTweet asciiCase readOnlyWorld plainConfig potteryConfig potteryTweet "razor"
      ⟨"razor_task", "Razor/Notes", false⟩ [] 1380 480 false id =
      ([Event.mkdir "/home/u/vault/Razor/Notes", Event.saveFailed "permission denied"], none) ∧
    (saveToObsidian lockedVaultWorld plainConfig potteryTweet "codex" false "Codex/Notes").2 =
      some "permission denied" ∧
    routeTweet asciiCase lockedVaultWorld plainConfig potteryConfig potteryTweet "codex"
      ⟨"codex_prompt", "Codex/Notes", false⟩ [] 1380 480 false id =
      ([Event.saveFailed "permission denied", Event.mkdir "/home/u/prompts",
        Event.write "/home/u/prompts/123.txt"
          (createCodexPrompt lockedVaultWorld plainConfig potteryTweet [] false)], none) :=
  ⟨by decide, by decide, by decide, by rfl⟩

/-- C7, amended: `routeTweet` returns the error of the vault-note write under
save_obsidian, the error of creating the prompt directory or of writing the task prompt
under codex_prompt, and the error of the bookmark removal under unbookmark; under every
other action (razor_task, summarize, notify, unknown) it returns no error, and a failed
vault note under codex_prompt does not enter the result.  When every directory creation,
file write and bookmark removal succeeds (and the vault path is not empty), it returns no
error, whatever the summarizer answers and whatever the clock says.  A failed vault note
is logged: under codex_prompt the events start with those of the attempt at the note
followed by the line Failed to save to Obsidian with the error, and under razor_task the
events are those of the attempt at the note for the category razor, that line when the
attempt failed, and then nothing but the notification or the quiet-hours line.  So
razor_task writes no file but the vault note, in particular no task prompt, and creates no
directory but that of the note. -/
theorem routeTweet_error_spec (U : RuneCase) (w : World) (config : Config)
    (bookmarksConfig : BookmarksConfig) (tweet : Tweet) (category : String)
    (route : RoutingConfig) (urls : List String) (quietStart quietEnd : Int)
    (allowSummaries : Bool) (range1 : List String → List String) :
    (ToLower U (TrimSpace route.Action) = "save_obsidian" →
      (routeTweet U w config bookmarksConfig tweet category route urls quietStart quietEnd
        allowSummaries range1).2 =
        (saveToObsidian w config tweet category allowSummaries route.Path).2) ∧
    (ToLower U (TrimSpace route.Action) = "codex_prompt" →
      (routeTweet U w config bookmarksConfig tweet category route urls quietStart quietEnd
        allowSummaries range1).2 =
        match w.MkdirAll config.PromptsDir with
        | some err => some err
        | none => w.WriteFile (w.Join config.PromptsDir (tweet.ID ++ ".txt"))
            (createCodexPrompt w config tweet urls allowSummaries)) ∧
    (ToLower U (TrimSpace route.Action) = "unbookmark" →
      (routeTweet U w config bookmarksConfig tweet category route urls quietStart quietEnd
        allowSummaries range1).2 = unbookmarkTweet w config.BirdBin tweet.ID) ∧
    (ToLower U (TrimSpace route.Action) ≠ "save_obsidian" →
      ToLower U (TrimSpace route.Action) ≠ "codex_prompt" →
      ToLower U (TrimSpace route.Action) ≠ "unbookmark" →
      (routeTweet U w config bookmarksConfig tweet category route urls quietStart quietEnd
        allowSummaries range1).2 = none) ∧
    ((∀ path, w.MkdirAll path = none) → (∀ path content, w.WriteFile path content = none) →
      w.birdUnbookmark config.BirdBin tweet.ID = none →
      (ToLower U (TrimSpace route.Action) = "save_obsidian" →
        resolveObsidianPath w config route.Path ≠ "") →
      (routeTweet U w config bookmarksConfig tweet category route urls quietStart quietEnd
        allowSummaries range1).2 = none) ∧
    (ToLower U (TrimSpace route.Action) = "codex_prompt" → ∀ err,
      (saveToObsidian w config tweet category allowSummaries route.Path).2 = some err →
      (saveToObsidian w config tweet category allowSummaries route.Path).1 ++
          [Event.saveFailed err] <+:
        (routeTweet U w config bookmarksConfig tweet category route urls quietStart quietEnd
          allowSummaries range1).1) ∧
    (ToLower U (TrimSpace route.Action) = "razor_task" →
      (∃ tail,
        routeTweet U w config bookmarksConfig tweet category route urls quietStart quietEnd
            allowSummaries range1 =
          ((saveToObsidian w config tweet "razor" allowSummaries route.Path).1 ++
            (match (saveToObsidian w config tweet "razor" allowSummaries route.Path).2 with
              | some err => [Event.saveFailed err]
              | none => []) ++ tail, none) ∧
        ∀ e ∈ tail, e = Event.quietSkip ∨ ∃ message, e = Event.telegram message) ∧
      (∀ path content,
        Event.write path content ∈
          (routeTweet U w config bookmarksConfig tweet category route urls quietStart quietEnd
            allowSummaries range1).1 →
        Event.write path content ∈
          (saveToObsidian w config tweet "razor" allowSummaries route.Path).1) ∧
      (∀ path,
        Event.mkdir path ∈
          (routeTweet U w config bookmarksConfig tweet category route urls quietStart quietEnd
            allowSummaries range1).1 →
        Event.mkdir path ∈
          (saveToObsidian w config tweet "razor" allowSummaries route.Path).1)) := by
  obtain ⟨hsave, hcodex, hunb, hrest⟩ := routeTweet_action_cases U w config bookmarksConfig tweet
    category route urls quietStart quietEnd allowSummaries range1
  refine ⟨hsave, hcodex, hunb, hrest, ?_, ?_, ?_⟩
  · intro hdir hfile hbird hpath
    by_cases h1 : ToLower U (TrimSpace route.Action) = "save_obsidian"
    · rw [hsave h1]
      exact saveToObsidian_ok w config tweet category allowSummaries route.Path hdir hfile
        (hpath h1)
    · by_cases h2 : ToLower U (TrimSpace route.Action) = "codex_prompt"
      · rw [hcodex h2]
        simp only [hdir, hfile]
      · by_cases h3 : ToLower U (TrimSpace route.Action) = "unbookmark"
        · rw [hunb h3]
          simp only [unbookmarkTweet, hbird]
        · exact hrest h1 h2 h3
  · intro h err herr
    exact routeTweet_codex_logged U w config bookmarksConfig tweet category route urls
      quietStart quietEnd allowSummaries range1 h err herr
  · intro h
    obtain ⟨tail, htail, honly⟩ := implementRazorTask_events U w config tweet quietStart
      quietEnd allowSummaries route.Path route.Notify
    have hroute := routeTweet_razor_task U w config bookmarksConfig tweet category route urls
      quietStart quietEnd allowSummaries range1 h
    have hmem : ∀ e, e ∈ (routeTweet U w config bookmarksConfig tweet category route urls
        quietStart quietEnd allowSummaries range1).1 →
        e ∈ (saveToObsidian w config tweet "razor" allowSummaries route.Path).1 ∨
        (∃ err, e = Event.saveFailed err) ∨ e = Event.quietSkip ∨
        ∃ message, e = Event.telegram message := by
      intro e he
      rw [hroute, htail] at he
      simp only [List.mem_append] at he
      rcases he with (he | he) | he
      · exact Or.inl he
      · right; left
        cases hs : (saveToObsidian w config tweet "razor" allowSummaries route.Path).2 with
        | none => rw [hs] at he; simp at he
        | some err => rw [hs] at he; exact ⟨err, by simpa using he⟩
      · exact Or.inr (Or.inr (honly e he))
    refine ⟨⟨tail, by rw [hroute, htail], honly⟩, fun path content he => ?_, fun path he => ?_⟩
    · rcases hmem _ he with h1 | ⟨err, h1⟩ | h1 | ⟨m, h1⟩
      · exact h1
      · cases h1
      · cases h1
      · cases h1
    · rcases hmem _ he with h1 | ⟨err, h1⟩ | h1 | ⟨m, h1⟩
      · exact h1
      · cases h1
      · cases h1
      · cases h1

theorem routeTweet_error_spec_witness :
    (routeTweet asciiCase readOnlyWorld plainConfig potteryConfig potteryTweet "pottery"
      ⟨" Save_Obsidian", "Pottery/Twitter-Bookmarks", true⟩ [] 1380 480 false id).2 =
      (saveToObsidian readOnlyWorld plainConfig potteryTweet "pottery" false
        "Pottery/Twitter-Bookmarks").2 ∧
    (routeTweet asciiCase readOnlyWorld plainConfig potteryConfig potteryTweet "razor"
      ⟨"razor_task", "Razor/Notes", true⟩ [] 1380 480 false id).2 = none ∧
    (routeTweet asciiCase removingWorld plainConfig potteryConfig potteryTweet "pottery"
      ⟨"codex_prompt", "Pottery/Twitter-Bookmarks", true⟩ ["https://example.org/a"] 1380 480
      true id).2 = none ∧
    [Event.saveFailed "permission denied"] <+:
      (routeTweet asciiCase lockedVaultWorld plainConfig potteryConfig potteryTweet "codex"
        ⟨"codex_prompt", "Codex/Notes", false⟩ [] 1380 480 false id).1 ∧
    (∀ path content,
      Event.write path content ∈
        (routeTweet asciiCase readOnlyWorld plainConfig potteryConfig potteryTweet "razor"
          ⟨"razor_task", "Razor/Notes", true⟩ [] 1380 480 false id).1 →
      Event.write path content ∈
        (saveToObsidian readOnlyWorld plainConfig potteryTweet "razor" false "Razor/Notes").1) :=
  ⟨(routeTweet_error_spec asciiCase readOnlyWorld plainConfig potteryConfig potteryTweet
      "pottery" ⟨" Save_Obsidian", "Pottery/Twitter-Bookmarks", true⟩ [] 1380 480 false id).1
      (by decide),
    (routeTweet_error_spec asciiCase readOnlyWorld plainConfig potteryConfig potteryTweet
      "razor" ⟨"razor_task", "Razor/Notes", true⟩ [] 1380 480 false id).2.2.2.1
      (by decide) (by decide) (by decide),
    (routeTweet_error_spec asciiCase removingWorld plainConfig potteryConfig potteryTweet
      "pottery" ⟨"codex_prompt", "Pottery/Twitter-Bookmarks", true⟩ ["https://example.org/a"]
      1380 480 true id).2.2.2.2.1
      (fun _ => rfl) (fun _ _ => rfl) rfl (fun h => absurd h (by decide)),
    (routeTweet_error_spec asciiCase lockedVaultWorld plainConfig potteryConfig potteryTweet
      "codex" ⟨"codex_prompt", "Codex/Notes", false⟩ [] 1380 480 false id).2.2.2.2.2.1
      (by decide) "permission denied" (by decide),
    ((routeTweet_error_spec asciiCase readOnlyWorld plainConfig potteryConfig potteryTweet
      "razor" ⟨"razor_task", "Razor/Notes", true⟩ [] 1380 480 false id).2.2.2.2.2.2
      (by decide)).2.1⟩

theorem routeTweet_notify_events (U : RuneCase) (w : World) (config : Config)
    (bookmarksConfig : BookmarksConfig) (tweet : Tweet) (category : String)
    (route : RoutingConfig) (urls : List String) (quietStart quietEnd : Int)
    (allowSummaries : Bool) (range1 : List String → List String)
    (h : ToLower U (TrimSpace route.Action) = "notify" ∨
      ToLower U (TrimSpace route.Action) = "") :
    routeTweet U w config bookmarksConfig tweet category route urls quietStart quietEnd
        allowSummaries range1 =
      (if route.Notify then
        sendTelegram w (buildNotifyMessage U category tweet bookmarksConfig.Categories range1)
          quietStart quietEnd
      else [], none) := by
  have hn : (if ToLower U (TrimSpace route.Action) = "" then "notify"
      else ToLower U (TrimSpace route.Action)) = "notify" := by
    rcases h with h | h
    · simp only [h]; decide
    · simp only [h, if_true]
  unfold routeTweet
  simp only [hn, show ("notify" : String) ≠ "summarize" by decide,
    show ("notify" : String) ≠ "razor_task" by decide,
    show ("notify" : String) ≠ "codex_prompt" by decide,
    show ("notify" : String) ≠ "save_obsidian" by decide,
    show ("notify" : String) ≠ "unbookmark" by decide, if_false, if_true]
  split <;> rfl

theorem routeTweet_unknown_events (U : RuneCase) (w : World) (config : Config)
    (bookmarksConfig : BookmarksConfig) (tweet : Tweet) (category : String)
    (route : RoutingConfig) (urls : List String) (quietStart quietEnd : Int)
    (allowSummaries : Bool) (range1 : List String → List String)
    (h0 : ToLower U (TrimSpace route.Action) ≠ "")
    (h : ToLower U (TrimSpace route.Action) ∉
      ["summarize", "razor_task", "codex_prompt", "save_obsidian", "unbookmark", "notify"]) :
    routeTweet U w config bookmarksConfig tweet category route urls quietStart quietEnd
        allowSummaries range1 =
      (Event.unknownAction route.Action category ::
        (if route.Notify then
          sendTelegram w (buildNotifyMessage U category tweet bookmarksConfig.Categories range1)
            quietStart quietEnd
        else []), none) := by
  simp only [List.mem_cons, List.mem_singleton, List.not_mem_nil, or_false, not_or] at h
  obtain ⟨h1, h2, h3, h4, h5, h6⟩ := h
  unfold routeTweet
  simp only [h0, h1, h2, h3, h4, h5, h6, if_false]
  split <;> rfl

theorem telegrams_sendTelegram (w : World) (message : List Nat) (quietStart quietEnd : Int) :
    telegrams (sendTelegram w message quietStart quietEnd) =
      if isQuietHours w.now quietStart quietEnd then [] else [message] := by
  unfold sendTelegram
  split <;> simp [telegrams]

theorem ToLower_TrimSpace_notify (U : RuneCase) : ToLower U (TrimSpace "notify") = "notify" := by
  rw [show TrimSpace "notify" = "notify" by decide, ToLower_ascii U _ (by decide)]; decide

/-- C8: a route whose action, trimmed and lowered, is empty or none of the recognised
kinds makes `routeTweet` return no error and emit exactly the notifications of the notify
action for the same category, tweet and notify flag; the events differ from those of the
notify action only by the warning printed for a non-empty unknown action. -/
theorem routeTweet_unknown_action (U : RuneCase) (w : World) (config : Config)
    (bookmarksConfig : BookmarksConfig) (tweet : Tweet) (category : String)
    (route : RoutingConfig) (urls : List String) (quietStart quietEnd : Int)
    (allowSummaries : Bool) (range1 : List String → List String)
    (h : ToLower U (TrimSpace route.Action) = "" ∨
      ToLower U (TrimSpace route.Action) ∉
        ["summarize", "razor_task", "codex_prompt", "save_obsidian", "unbookmark", "notify"]) :
    (routeTweet U w config bookmarksConfig tweet category route urls quietStart quietEnd
      allowSummaries range1).2 = none ∧
    telegrams (routeTweet U w config bookmarksConfig tweet category route urls quietStart
      quietEnd allowSummaries range1).1 =
      telegrams (routeTweet U w config bookmarksConfig tweet category
        ⟨"notify", route.Path, route.Notify⟩ urls quietStart quietEnd allowSummaries range1).1 ∧
    (routeTweet U w config bookmarksConfig tweet category route urls quietStart quietEnd
      allowSummaries range1).1 =
      (if ToLower U (TrimSpace route.Action) = "" then []
        else [Event.unknownAction route.Action category]) ++
      (routeTweet U w config bookmarksConfig tweet category
        ⟨"notify", route.Path, route.Notify⟩ urls quietStart quietEnd allowSummaries range1).1 := by
  have hnotify := routeTweet_notify_events U w config bookmarksConfig tweet category
    ⟨"notify", route.Path, route.Notify⟩ urls quietStart quietEnd allowSummaries range1
    (Or.inl (ToLower_TrimSpace_notify U))
  by_cases h0 : ToLower U (TrimSpace route.Action) = ""
  · have hr := routeTweet_notify_events U w config bookmarksConfig tweet category route urls
      quietStart quietEnd allowSummaries range1 (Or.inr h0)
    rw [hr, hnotify]
    simp only [h0, if_true, List.nil_append, and_self]
  · have hmem := h.resolve_left h0
    have hr := routeTweet_unknown_events U w config bookmarksConfig tweet category route urls
      quietStart quietEnd allowSummaries range1 h0 hmem
    rw [hr, hnotify]
    simp only [h0, if_false, List.singleton_append, telegrams, and_self]

theorem routeTweet_unknown_action_witness :
    (routeTweet asciiCase idleWorld plainConfig potteryConfig potteryTweet "pottery"
      ⟨"Archive", "", true⟩ [] 1380 480 false id).2 = none ∧
    telegrams (routeTweet asciiCase idleWorld plainConfig potteryConfig potteryTweet "pottery"
      ⟨"Archive", "", true⟩ [] 1380 480 false id).1 =
      telegrams (routeTweet asciiCase idleWorld plainConfig potteryConfig potteryTweet "pottery"
        ⟨"notify", "", true⟩ [] 1380 480 false id).1 :=
  ⟨(routeTweet_unknown_action asciiCase idleWorld plainConfig potteryConfig potteryTweet
      "pottery" ⟨"Archive", "", true⟩ [] 1380 480 false id (Or.inr (by decide))).1,
    (routeTweet_unknown_action asciiCase idleWorld plainConfig potteryConfig potteryTweet
      "pottery" ⟨"Archive", "", true⟩ [] 1380 480 false id (Or.inr (by decide))).2.1⟩

/-- C9: under the notify action `routeTweet` returns no error; it emits the notification
built by `buildNotifyMessage` exactly when the notify flag of the route is set and the
clock is outside quiet hours, and nothing else; in quiet hours no message is emitted and
the route still succeeds; never more than one message is emitted. -/
theorem routeTweet_notify (U : RuneCase) (w : World) (config : Config)
    (bookmarksConfig : BookmarksConfig) (tweet : Tweet) (category : String)
    (route : RoutingConfig) (urls : List String) (quietStart quietEnd : Int)
    (allowSummaries : Bool) (range1 : List String → List String)
    (h : ToLower U (TrimSpace route.Action) = "notify") :
    (routeTweet U w config bookmarksConfig tweet category route urls quietStart quietEnd
      allowSummaries range1).2 = none ∧
    telegrams (routeTweet U w config bookmarksConfig tweet category route urls quietStart
      quietEnd allowSummaries range1).1 =
      (if route.Notify = true ∧ isQuietHours w.now quietStart quietEnd = false then
        [buildNotifyMessage U category tweet bookmarksConfig.Categories range1]
      else []) ∧
    (telegrams (routeTweet U w config bookmarksConfig tweet category route urls quietStart
      quietEnd allowSummaries range1).1 ≠ [] ↔
      route.Notify = true ∧ isQuietHours w.now quietStart quietEnd = false) ∧
    (isQuietHours w.now quietStart quietEnd = true →
      telegrams (routeTweet U w config bookmarksConfig tweet category route urls quietStart
        quietEnd allowSummaries range1).1 = []) ∧
    (telegrams (routeTweet U w config bookmarksConfig tweet category route urls quietStart
      quietEnd allowSummaries range1).1).length ≤ 1 := by
  rw [routeTweet_notify_events U w config bookmarksConfig tweet category route urls quietStart
    quietEnd allowSummaries range1 (Or.inl h)]
  cases hN : route.Notify <;> cases hQ : isQuietHours w.now quietStart quietEnd <;>
    simp [telegrams_sendTelegram, telegrams, hQ]

theorem routeTweet_notify_witness :
    (routeTweet asciiCase nightWorld plainConfig potteryConfig potteryTweet "razor"
      ⟨"Notify ", "", true⟩ [] 1380 480 false id).2 = none ∧
    telegrams (routeTweet asciiCase nightWorld plainConfig potteryConfig potteryTweet "razor"
      ⟨"Notify ", "", true⟩ [] 1380 480 false id).1 = [] ∧
    (telegrams (routeTweet asciiCase idleWorld plainConfig potteryConfig potteryTweet "razor"
      ⟨"Notify ", "", true⟩ [] 1380 480 false id).1).length ≤ 1 :=
  ⟨(routeTweet_notify asciiCase nightWorld plainConfig potteryConfig potteryTweet "razor"
      ⟨"Notify ", "", true⟩ [] 1380 480 false id (by decide)).1,
    (routeTweet_notify asciiCase nightWorld plainConfig potteryConfig potteryTweet "razor"
      ⟨"Notify ", "", true⟩ [] 1380 480 false id (by decide)).2.2.2.1 (by decide),
    (routeTweet_notify asciiCase idleWorld plainConfig potteryConfig potteryTweet "razor"
      ⟨"Notify ", "", true⟩ [] 1380 480 false id (by decide)).2.2.2.2⟩

/-- C10: `isQuietHours` is true exactly when start and end differ and either start < end
and start <= now < end, or start > end and (now >= start or now < end), where now is the
minute of the day; so the start minute is inside, the end minute outside, a window across
midnight wraps, and equal bounds switch quiet hours off.  With the window 23:00-08:00,
23:30 is quiet and 09:00 is not. -/
theorem isQuietHours_spec (now : Clock) (quietStart quietEnd : Int) :
    (isQuietHours now quietStart quietEnd = true ↔
      quietStart ≠ quietEnd ∧
      ((quietStart < quietEnd ∧ quietStart ≤ (now.Hour : Int) * 60 + now.Minute ∧
          (now.Hour : Int) * 60 + now.Minute < quietEnd) ∨
        (quietStart > quietEnd ∧ ((now.Hour : Int) * 60 + now.Minute ≥ quietStart ∨
          (now.Hour : Int) * 60 + now.Minute < quietEnd)))) ∧
    (∀ n : Nat, isQuietHours ⟨n / 60, n % 60, now.date, now.rfc3339⟩ quietStart quietEnd = true ↔
      quietStart ≠ quietEnd ∧
      ((quietStart < quietEnd ∧ quietStart ≤ (n : Int) ∧ (n : Int) < quietEnd) ∨
        (quietStart > quietEnd ∧ ((n : Int) ≥ quietStart ∨ (n : Int) < quietEnd)))) ∧
    isQuietHours now quietStart quietStart = false ∧
    isQuietHours ⟨23, 30, now.date, now.rfc3339⟩ 1380 480 = true ∧
    isQuietHours ⟨9, 0, now.date, now.rfc3339⟩ 1380 480 = false := by
  have main : ∀ (c : Clock) (s e : Int), isQuietHours c s e = true ↔
      s ≠ e ∧ ((s < e ∧ s ≤ (c.Hour : Int) * 60 + c.Minute ∧ (c.Hour : Int) * 60 + c.Minute < e) ∨
        (s > e ∧ ((c.Hour : Int) * 60 + c.Minute ≥ s ∨ (c.Hour : Int) * 60 + c.Minute < e))) := by
    intro c s e
    unfold isQuietHours
    by_cases h1 : s = e
    · simp [h1]
    · by_cases h2 : s < e
      · simp only [h1, if_false, h2, if_true, Bool.and_eq_true, decide_eq_true_eq]
        constructor
        · intro h; exact ⟨fun h => h1 h, Or.inl ⟨trivial, h.1, h.2⟩⟩
        · rintro ⟨_, (h | h)⟩
          · exact ⟨h.2.1, h.2.2⟩
          · omega
      · simp only [h1, if_false, h2, Bool.or_eq_true, decide_eq_true_eq]
        constructor
        · intro h; exact ⟨fun h => h1 h, Or.inr ⟨by omega, h⟩⟩
        · rintro ⟨_, (h | h)⟩
          · omega
          · exact h.2
  refine ⟨main now quietStart quietEnd, ?_, ?_, ?_, ?_⟩
  · intro n
    rw [main]
    have hn : ((n / 60 : Nat) : Int) * 60 + ((n % 60 : Nat) : Int) = (n : Int) := by omega
    simp only [hn]
  · simp [isQuietHours]
  · simp [isQuietHours]
  · simp [isQuietHours]

theorem appendUnique.found_iff (value : String) (values : List String) :
    appendUnique.found value values = true ↔ value ∈ values := by
  induction values with
  | nil => simp [appendUnique.found]
  | cons existing rest ih =>
    simp only [appendUnique.found, List.mem_cons]
    by_cases h : existing = value
    · simp [h]
    · simp only [h, if_false, ih]
      constructor
      · intro hm; exact Or.inr hm
      · rintro (hm | hm)
        · exact absurd hm.symm h
        · exact hm

theorem appendUnique_of_mem (xs : List String) (v : String) (h : v ∈ xs) :
    appendUnique xs v = xs := by
  simp [appendUnique, (appendUnique.found_iff v xs).2 h]

theorem appendUnique_of_not_mem (xs : List String) (v : String) (h : v ∉ xs) :
    appendUnique xs v = xs ++ [v] := by
  have hf : appendUnique.found v xs = false := by
    cases hb : appendUnique.found v xs with
    | false => rfl
    | true => exact absurd ((appendUnique.found_iff v xs).1 hb) h
  simp [appendUnique, hf]

theorem mem_appendUnique (xs : List String) (v x : String) :
    x ∈ appendUnique xs v ↔ x ∈ xs ∨ x = v := by
  by_cases h : v ∈ xs
  · rw [appendUnique_of_mem xs v h]
    constructor
    · intro hx; exact Or.inl hx
    · rintro (hx | hx)
      · exact hx
      · exact hx ▸ h
  · rw [appendUnique_of_not_mem xs v h]
    simp

theorem appendUnique_nodup (xs : List String) (v : String) (h : xs.Nodup) :
    (appendUnique xs v).Nodup := by
  by_cases hv : v ∈ xs
  · rw [appendUnique_of_mem xs v hv]; exact h
  · rw [appendUnique_of_not_mem xs v hv]
    exact List.Nodup.append h (List.nodup_singleton v) (by simpa using hv)

/-- C11: `appendUnique` adds an ID only if it is absent: the list is returned as it is when
the ID occurs in it and with the ID appended otherwise; so adding the same ID twice is the
same as adding it once, and the IDs already in the list keep their positions. -/
theorem appendUnique_spec (xs : List String) (v : String) :
    (v ∈ xs → appendUnique xs v = xs) ∧
    (v ∉ xs → appendUnique xs v = xs ++ [v]) ∧
    appendUnique (appendUnique xs v) v = appendUnique xs v ∧
    xs <+: appendUnique xs v ∧
    (∀ i, i < xs.length → (appendUnique xs v)[i]? = xs[i]?) := by
  have hpre : xs <+: appendUnique xs v := by
    by_cases h : v ∈ xs
    · rw [appendUnique_of_mem xs v h]
    · rw [appendUnique_of_not_mem xs v h]; exact List.prefix_append xs [v]
  refine ⟨appendUnique_of_mem xs v, appendUnique_of_not_mem xs v, ?_, hpre, ?_⟩
  · exact appendUnique_of_mem _ v ((mem_appendUnique xs v v).2 (Or.inr rfl))
  · intro i hi
    obtain ⟨t, ht⟩ := hpre
    rw [← ht, List.getElem?_append_left hi]

theorem appendUnique_spec_witness :
    appendUnique ["101", "102"] "102" = ["101", "102"] ∧
    appendUnique ["101", "102"] "103" = ["101", "102"] ++ ["103"] ∧
    (appendUnique ["101", "102"] "103")[1]? = ["101", "102"][1]? :=
  ⟨(appendUnique_spec ["101", "102"] "102").1 (by decide),
    (appendUnique_spec ["101", "102"] "103").2.1 (by decide),
    (appendUnique_spec ["101", "102"] "103").2.2.2.2 1 (by decide)⟩

theorem GoMap.get?_set_self {V : Type} (m : GoMap V) (k : String) (v : V) :
    (m.set k v).get? k = some v := by
  induction m with
  | nil => simp [GoMap.set, GoMap.get?]
  | cons e rest ih =>
    obtain ⟨k2, v2⟩ := e
    simp only [GoMap.set]
    by_cases h : k2 = k
    · simp [h, GoMap.get?]
    · simp [h, GoMap.get?, ih]

theorem GoMap.get?_set_other {V : Type} (m : GoMap V) (k x : String) (v : V) (hx : x ≠ k) :
    (m.set k v).get? x = m.get? x := by
  induction m with
  | nil => simp [GoMap.set, GoMap.get?, Ne.symm hx]
  | cons e rest ih =>
    obtain ⟨k2, v2⟩ := e
    simp only [GoMap.set]
    by_cases h : k2 = k
    · subst h
      simp [GoMap.get?, Ne.symm hx]
    · simp only [h, if_false, GoMap.get?, ih]

theorem runProcess.processedSet_get? (processed : List String) (acc : GoMap Bool) (x : String) :
    (runProcess.processedSet processed acc).get? x =
      if x ∈ processed then some true else acc.get? x := by
  induction processed generalizing acc with
  | nil => simp [runProcess.processedSet]
  | cons id rest ih =>
    simp only [runProcess.processedSet, ih, List.mem_cons]
    by_cases hr : x ∈ rest
    · simp [hr]
    · by_cases hx : x = id
      · subst hx
        simp [hr, GoMap.get?_set_self]
      · simp [hr, hx, GoMap.get?_set_other _ _ _ _ hx]

theorem runProcess.pending_eq_filter (force : Bool) (processedSet : GoMap Bool)
    (ids : List String) :
    runProcess.pending force processedSet ids =
      ids.filter (fun id =>
        !(!force && (match processedSet.get? id with | some b => b | none => false))) := by
  induction ids with
  | nil => rfl
  | cons id rest ih =>
    simp only [runProcess.pending, ih, List.filter_cons]
    cases hg : processedSet.get? id with
    | none => cases force <;> simp
    | some b => cases force <;> cases b <;> simp

theorem runProcess.pending_unforced (ids processed : List String) :
    runProcess.pending false (runProcess.processedSet processed []) ids =
      ids.filter (fun id => decide (id ∉ processed)) := by
  rw [runProcess.pending_eq_filter]
  apply List.filter_congr
  intro x _
  rw [runProcess.processedSet_get?]
  by_cases h : x ∈ processed <;> simp [h, GoMap.get?]

/-- C13: the pending list that `runProcess` computes from the fetched IDs and the state is,
without the force flag, the fetched IDs that do not occur in `State.ProcessedIDs`, in the
order they were fetched, and with the force flag the whole fetched list, IDs already
processed included; this is the list that the pass of `runProcess` hands to the
processing. -/
theorem runProcess_pending_spec (ids processed : List String) :
    runProcess.pending false (runProcess.processedSet processed []) ids =
      ids.filter (fun id => decide (id ∉ processed)) ∧
    runProcess.pending true (runProcess.processedSet processed []) ids = ids ∧
    (∀ (U : RuneCase) (w : World) (config : Config) (bookmarksConfig : BookmarksConfig)
      (quietStart quietEnd : Int) (force : Bool) (state : State),
      state.ProcessedIDs = processed →
      runProcess.attempt U w config bookmarksConfig quietStart quietEnd force state ids =
        if config.Parallel then
          processBookmarksParallel w config
            (if force then ids else ids.filter (fun id => decide (id ∉ processed))) state
            (runProcess.processedSet processed [])
        else
          processBookmarksSequential U w config bookmarksConfig
            (if force then ids else ids.filter (fun id => decide (id ∉ processed))) state
            quietStart quietEnd (runProcess.processedSet processed [])) := by
  have hforce : runProcess.pending true (runProcess.processedSet processed []) ids = ids := by
    rw [runProcess.pending_eq_filter]
    simp
  refine ⟨runProcess.pending_unforced ids processed, hforce, ?_⟩
  intro U w config bookmarksConfig quietStart quietEnd force state hstate
  unfold runProcess.attempt
  cases force
  · simp only [hstate, runProcess.pending_unforced, Bool.false_eq_true, if_false]
  · simp only [hstate, hforce, if_true]

theorem runProcess_pending_spec_witness :
    runProcess.attempt asciiCase idleWorld plainConfig potteryConfig 1380 480 false
        ⟨"", ["1", "2"], []⟩ ["3", "1", "4"] =
      if plainConfig.Parallel then
        processBookmarksParallel idleWorld plainConfig
          (if false then ["3", "1", "4"]
            else ["3", "1", "4"].filter (fun id => decide (id ∉ ["1", "2"])))
          ⟨"", ["1", "2"], []⟩ (runProcess.processedSet ["1", "2"] [])
      else
        processBookmarksSequential asciiCase idleWorld plainConfig potteryConfig
          (if false then ["3", "1", "4"]
            else ["3", "1", "4"].filter (fun id => decide (id ∉ ["1", "2"])))
          ⟨"", ["1", "2"], []⟩ 1380 480 (runProcess.processedSet ["1", "2"] []) :=
  (runProcess_pending_spec ["3", "1", "4"] ["1", "2"]).2.2 asciiCase idleWorld plainConfig
    potteryConfig 1380 480 false ⟨"", ["1", "2"], []⟩ rfl

theorem processBookmarksSequential.step_failed (U : RuneCase) (w : World) (config : Config)
    (bookmarksConfig : BookmarksConfig) (quietStart quietEnd : Int) (acc : Progress) (id : String)
    (h : succeeds U w config bookmarksConfig quietStart quietEnd id = false) :
    (processBookmarksSequential.step U w config bookmarksConfig quietStart quietEnd acc id) =
      { acc with
        events := acc.events ++ attemptEvents U w config bookmarksConfig quietStart quietEnd id } := by
  unfold succeeds at h
  unfold processBookmarksSequential.step attemptEvents
  cases hr : (processBookmark U w config bookmarksConfig id quietStart quietEnd).2 with
  | error err => simp only [hr, List.append_assoc]
  | ok result =>
    rw [hr] at h
    simp only at h
    simp [hr, h]

theorem processBookmarksSequential.step_succeeded (U : RuneCase) (w : World) (config : Config)
    (bookmarksConfig : BookmarksConfig) (quietStart quietEnd : Int) (acc : Progress) (id : String)
    (h : succeeds U w config bookmarksConfig quietStart quietEnd id = true) :
    ∃ result, (processBookmark U w config bookmarksConfig id quietStart quietEnd).2 = .ok result ∧
      (processBookmarksSequential.step U w config bookmarksConfig quietStart quietEnd acc id) =
        { processedCount := acc.processedCount + 1
          state :=
            { acc.state with
              ProcessedIDs := appendUnique acc.state.ProcessedIDs id
              Categories := incrementCategory acc.state.Categories result.Category }
          processedSet := acc.processedSet.set id true
          events :=
            acc.events ++ attemptEvents U w config bookmarksConfig quietStart quietEnd id } := by
  unfold succeeds at h
  unfold processBookmarksSequential.step attemptEvents
  cases hr : (processBookmark U w config bookmarksConfig id quietStart quietEnd).2 with
  | error err => rw [hr] at h; simp at h
  | ok result =>
    rw [hr] at h
    simp only at h
    exact ⟨result, rfl, by simp [hr, h]⟩

theorem processBookmarksSequential.loop_append (U : RuneCase) (w : World) (config : Config)
    (bookmarksConfig : BookmarksConfig) (quietStart quietEnd : Int) (ids1 ids2 : List String) (acc : Progress) :
    processBookmarksSequential.loop U w config bookmarksConfig quietStart quietEnd
        (ids1 ++ ids2) acc =
      processBookmarksSequential.loop U w config bookmarksConfig quietStart quietEnd ids2
        (processBookmarksSequential.loop U w config bookmarksConfig quietStart quietEnd ids1
          acc) := by
  induction ids1 generalizing acc with
  | nil => rfl
  | cons id rest ih => exact ih _

theorem processBookmarksSequential.step_cases (U : RuneCase) (w : World) (config : Config)
    (bookmarksConfig : BookmarksConfig) (quietStart quietEnd : Int) (acc : Progress) (id : String) :
    (succeeds U w config bookmarksConfig quietStart quietEnd id = false ∧
      (processBookmarksSequential.step U w config bookmarksConfig quietStart quietEnd acc
        id).processedCount = acc.processedCount ∧
      (processBookmarksSequential.step U w config bookmarksConfig quietStart quietEnd acc
        id).state = acc.state ∧
      (processBookmarksSequential.step U w config bookmarksConfig quietStart quietEnd acc
        id).processedSet = acc.processedSet) ∨
    (succeeds U w config bookmarksConfig quietStart quietEnd id = true ∧
      (processBookmarksSequential.step U w config bookmarksConfig quietStart quietEnd acc
        id).processedCount = acc.processedCount + 1 ∧
      (processBookmarksSequential.step U w config bookmarksConfig quietStart quietEnd acc
        id).state.ProcessedIDs = appendUnique acc.state.ProcessedIDs id ∧
      (processBookmarksSequential.step U w config bookmarksConfig quietStart quietEnd acc
        id).state.LastProcessed = acc.state.LastProcessed) := by
  cases h : succeeds U w config bookmarksConfig quietStart quietEnd id with
  | false =>
    left
    rw [processBookmarksSequential.step_failed U w config bookmarksConfig quietStart quietEnd
      acc id h]
    exact ⟨rfl, rfl, rfl, rfl⟩
  | true =>
    right
    obtain ⟨result, _, hs⟩ := processBookmarksSequential.step_succeeded U w config
      bookmarksConfig quietStart quietEnd acc id h
    rw [hs]
    exact ⟨rfl, rfl, rfl, rfl⟩

theorem processBookmarksSequential.loop_events (U : RuneCase) (w : World) (config : Config)
    (bookmarksConfig : BookmarksConfig) (quietStart quietEnd : Int) (ids : List String) (acc : Progress) :
    (processBookmarksSequential.loop U w config bookmarksConfig quietStart quietEnd ids
        acc).events =
      acc.events ++
        ids.flatMap (attemptEvents U w config bookmarksConfig quietStart quietEnd) := by
  induction ids generalizing acc with
  | nil => simp [processBookmarksSequential.loop]
  | cons id rest ih =>
    simp only [processBookmarksSequential.loop, ih, List.flatMap_cons]
    cases h : succeeds U w config bookmarksConfig quietStart quietEnd id with
    | false =>
      rw [processBookmarksSequential.step_failed U w config bookmarksConfig quietStart quietEnd
        acc id h]
      simp [List.append_assoc]
    | true =>
      obtain ⟨result, _, hs⟩ := processBookmarksSequential.step_succeeded U w config
        bookmarksConfig quietStart quietEnd acc id h
      rw [hs]
      simp [List.append_assoc]

theorem processBookmarksSequential.loop_count (U : RuneCase) (w : World) (config : Config)
    (bookmarksConfig : BookmarksConfig) (quietStart quietEnd : Int) (ids : List String) (acc : Progress) :
    (processBookmarksSequential.loop U w config bookmarksConfig quietStart quietEnd ids
        acc).processedCount =
      acc.processedCount +
        (ids.filter (succeeds U w config bookmarksConfig quietStart quietEnd)).length := by
  induction ids generalizing acc with
  | nil => simp [processBookmarksSequential.loop]
  | cons id rest ih =>
    simp only [processBookmarksSequential.loop, ih, List.filter_cons]
    rcases processBookmarksSequential.step_cases U w config bookmarksConfig quietStart quietEnd
      acc id with ⟨h, hc, _, _⟩ | ⟨h, hc, _, _⟩
    · simp [h, hc]
    · simp [h, hc]; omega

theorem processBookmarksSequential.loop_processed (U : RuneCase) (w : World) (config : Config)
    (bookmarksConfig : BookmarksConfig) (quietStart quietEnd : Int) (ids : List String) (acc : Progress) (x : String) :
    x ∈ (processBookmarksSequential.loop U w config bookmarksConfig quietStart quietEnd ids
        acc).state.ProcessedIDs ↔
      x ∈ acc.state.ProcessedIDs ∨
        (x ∈ ids ∧ succeeds U w config bookmarksConfig quietStart quietEnd x = true) := by
  induction ids generalizing acc with
  | nil => simp [processBookmarksSequential.loop]
  | cons id rest ih =>
    simp only [processBookmarksSequential.loop, ih, List.mem_cons]
    rcases processBookmarksSequential.step_cases U w config bookmarksConfig quietStart quietEnd
      acc id with ⟨h, _, hs, _⟩ | ⟨h, _, hs, _⟩
    · rw [hs]
      constructor
      · rintro (hx | ⟨hx, hsx⟩)
        · exact Or.inl hx
        · exact Or.inr ⟨Or.inr hx, hsx⟩
      · rintro (hx | ⟨hx | hx, hsx⟩)
        · exact Or.inl hx
        · rw [hx, h] at hsx; cases hsx
        · exact Or.inr ⟨hx, hsx⟩
    · rw [hs, mem_appendUnique]
      constructor
      · rintro ((hx | hx) | ⟨hx, hsx⟩)
        · exact Or.inl hx
        · exact Or.inr ⟨Or.inl hx, hx ▸ h⟩
        · exact Or.inr ⟨Or.inr hx, hsx⟩
      · rintro (hx | ⟨hx | hx, hsx⟩)
        · exact Or.inl (Or.inl hx)
        · exact Or.inl (Or.inr hx)
        · exact Or.inr ⟨hx, hsx⟩

theorem processBookmarksSequential.loop_nodup (U : RuneCase) (w : World) (config : Config)
    (bookmarksConfig : BookmarksConfig) (quietStart quietEnd : Int) (ids : List String) (acc : Progress)
    (h : acc.state.ProcessedIDs.Nodup) :
    (processBookmarksSequential.loop U w config bookmarksConfig quietStart quietEnd ids
        acc).state.ProcessedIDs.Nodup := by
  induction ids generalizing acc with
  | nil => exact h
  | cons id rest ih =>
    simp only [processBookmarksSequential.loop]
    apply ih
    rcases processBookmarksSequential.step_cases U w config bookmarksConfig quietStart quietEnd
      acc id with ⟨_, _, hs, _⟩ | ⟨_, _, hs, _⟩
    · rw [hs]; exact h
    · rw [hs]; exact appendUnique_nodup _ _ h

theorem processBookmark_ok_processed (U : RuneCase) (w : World) (config : Config)
    (bookmarksConfig : BookmarksConfig) (quietStart quietEnd : Int) (id : String)
    (result : ProcessResult)
    (h : (processBookmark U w config bookmarksConfig id quietStart quietEnd).2 = .ok result) :
    result.Processed = true := by
  unfold processBookmark at h
  split at h
  · cases h
  · simp only at h
    split at h
    · cases h
    · split at h
      · cases h
      · simp only [Except.ok.injEq] at h
        rw [← h]

theorem succeeds_iff (U : RuneCase) (w : World) (config : Config)
    (bookmarksConfig : BookmarksConfig) (quietStart quietEnd : Int) (id : String) :
    succeeds U w config bookmarksConfig quietStart quietEnd id = true ↔
      ∃ result,
        (processBookmark U w config bookmarksConfig id quietStart quietEnd).2 = .ok result := by
  unfold succeeds
  cases hr : (processBookmark U w config bookmarksConfig id quietStart quietEnd).2 with
  | error err => simp
  | ok result =>
    simp [processBookmark_ok_processed U w config bookmarksConfig quietStart quietEnd id result hr]

/-- C12: `processBookmarksSequential` keeps the processed-ID list free of duplicates, for
every pending list (IDs already in the list and repeated IDs included) and every outcome
of the processing; an ID that is already in the list is processed and counted like any
other, its presence changes neither the outcome nor the list, and the returned count does
not depend on the list the run starts from. -/
theorem processBookmarksSequential_nodup (U : RuneCase) (w : World) (config : Config)
    (bookmarksConfig : BookmarksConfig) (ids : List String) (state : State)
    (quietStart quietEnd : Int) (processedSet : GoMap Bool)
    (h : state.ProcessedIDs.Nodup) :
    (processBookmarksSequential U w config bookmarksConfig ids state quietStart quietEnd
      processedSet).state.ProcessedIDs.Nodup ∧
    (∀ (acc : Progress) (id : String), id ∈ acc.state.ProcessedIDs →
      succeeds U w config bookmarksConfig quietStart quietEnd id = true →
      (processBookmarksSequential.step U w config bookmarksConfig quietStart quietEnd acc
        id).processedCount = acc.processedCount + 1 ∧
      (processBookmarksSequential.step U w config bookmarksConfig quietStart quietEnd acc
        id).state.ProcessedIDs = acc.state.ProcessedIDs) ∧
    (∀ (state2 : State) (processedSet2 : GoMap Bool),
      (processBookmarksSequential U w config bookmarksConfig ids state2 quietStart quietEnd
        processedSet2).processedCount =
      (processBookmarksSequential U w config bookmarksConfig ids state quietStart quietEnd
        processedSet).processedCount) := by
  refine ⟨?_, ?_, ?_⟩
  · exact processBookmarksSequential.loop_nodup U w config bookmarksConfig quietStart quietEnd
      ids ⟨0, state, processedSet, []⟩ h
  · intro acc id hmem hs
    rcases processBookmarksSequential.step_cases U w config bookmarksConfig quietStart quietEnd
      acc id with ⟨hf, _, _, _⟩ | ⟨_, hc, hp, _⟩
    · rw [hs] at hf; cases hf
    · exact ⟨hc, by rw [hp, appendUnique_of_mem _ _ hmem]⟩
  · intro state2 processedSet2
    unfold processBookmarksSequential
    rw [processBookmarksSequential.loop_count, processBookmarksSequential.loop_count]

theorem processBookmarksSequential_nodup_witness :
    (processBookmarksSequential asciiCase feedWorld plainConfig potteryConfig ["1", "3", "3", "2"]
      oneDoneState 1380 480 [("1", true)]).state.ProcessedIDs.Nodup :=
  (processBookmarksSequential_nodup asciiCase feedWorld plainConfig potteryConfig
    ["1", "3", "3", "2"] oneDoneState 1380 480 [("1", true)] (by decide)).1

/-- C16: `processBookmarksSequential` attempts every pending ID in order: the pass over a
list is the pass over what follows an ID, started from the attempt at that ID after the
pass over what precedes it, and the events are those of the attempts in order.  An ID
whose processing returns an error leaves the count, the processed-ID list, the category
counts and the set as they were; the returned count is the number of pending IDs whose
processing succeeded. -/
theorem processBookmarksSequential_continues (U : RuneCase) (w : World) (config : Config)
    (bookmarksConfig : BookmarksConfig) (ids : List String) (state : State)
    (quietStart quietEnd : Int) (processedSet : GoMap Bool) :
    (∀ ids1 id ids2, ids = ids1 ++ id :: ids2 →
      processBookmarksSequential U w config bookmarksConfig ids state quietStart quietEnd
        processedSet =
      processBookmarksSequential.loop U w config bookmarksConfig quietStart quietEnd ids2
        (processBookmarksSequential.step U w config bookmarksConfig quietStart quietEnd
          (processBookmarksSequential U w config bookmarksConfig ids1 state quietStart quietEnd
            processedSet) id)) ∧
    (∀ (acc : Progress) (id err : String),
      (processBookmark U w config bookmarksConfig id quietStart quietEnd).2 = .error err →
      processBookmarksSequential.step U w config bookmarksConfig quietStart quietEnd acc id =
        { acc with
          events := acc.events ++
            (processBookmark U w config bookmarksConfig id quietStart quietEnd).1 ++
            [Event.processFailed id err] }) ∧
    (processBookmarksSequential U w config bookmarksConfig ids state quietStart quietEnd
      processedSet).processedCount =
      (ids.filter (succeeds U w config bookmarksConfig quietStart quietEnd)).length ∧
    (∀ id, succeeds U w config bookmarksConfig quietStart quietEnd id = true ↔
      ∃ result,
        (processBookmark U w config bookmarksConfig id quietStart quietEnd).2 = .ok result) ∧
    (processBookmarksSequential U w config bookmarksConfig ids state quietStart quietEnd
      processedSet).events =
      ids.flatMap (attemptEvents U w config bookmarksConfig quietStart quietEnd) := by
  refine ⟨?_, ?_, ?_, ?_, ?_⟩
  · intro ids1 id ids2 hids
    unfold processBookmarksSequential
    rw [hids, processBookmarksSequential.loop_append]
    rfl
  · intro acc id err herr
    unfold processBookmarksSequential.step
    simp only [herr]
  · unfold processBookmarksSequential
    rw [processBookmarksSequential.loop_count]
    simp
  · exact succeeds_iff U w config bookmarksConfig quietStart quietEnd
  · unfold processBookmarksSequential
    rw [processBookmarksSequential.loop_events]
    simp

theorem processBookmarksSequential_continues_witness :
    processBookmarksSequential.step asciiCase feedWorld plainConfig potteryConfig 1380 480
        ⟨1, oneDoneState, [("1", true)], []⟩ "2" =
      { (⟨1, oneDoneState, [("1", true)], []⟩ : Progress) with
        events := [] ++
          (processBookmark asciiCase feedWorld plainConfig potteryConfig "2" 1380 480).1 ++
          [Event.processFailed "2" "bird read failed: exit status 1"] } ∧
    processBookmarksSequential asciiCase feedWorld plainConfig potteryConfig ["2", "3"]
        oneDoneState 1380 480 [("1", true)] =
      processBookmarksSequential.loop asciiCase feedWorld plainConfig potteryConfig 1380 480
        ["3"]
        (processBookmarksSequential.step asciiCase feedWorld plainConfig potteryConfig 1380 480
          (processBookmarksSequential asciiCase feedWorld plainConfig potteryConfig []
            oneDoneState 1380 480 [("1", true)]) "2") :=
  ⟨(processBookmarksSequential_continues asciiCase feedWorld plainConfig potteryConfig
      ["2", "3"] oneDoneState 1380 480 [("1", true)]).2.1
      ⟨1, oneDoneState, [("1", true)], []⟩ "2" "bird read failed: exit status 1" (by rfl),
    (processBookmarksSequential_continues asciiCase feedWorld plainConfig potteryConfig
      ["2", "3"] oneDoneState 1380 480 [("1", true)]).1 [] "2" ["3"] rfl⟩

theorem runProcess.attempt_sequential (U : RuneCase) (w : World) (config : Config)
    (bookmarksConfig : BookmarksConfig) (quietStart quietEnd : Int) (force : Bool)
    (state : State) (ids : List String) (hseq : config.Parallel = false) :
    runProcess.attempt U w config bookmarksConfig quietStart quietEnd force state ids =
      processBookmarksSequential U w config bookmarksConfig
        (runProcess.pending force (runProcess.processedSet state.ProcessedIDs []) ids) state
        quietStart quietEnd (runProcess.processedSet state.ProcessedIDs []) := by
  unfold runProcess.attempt
  simp [hseq]

theorem runProcess.attempt_nothing_pending (U : RuneCase) (w : World) (config : Config)
    (bookmarksConfig : BookmarksConfig) (quietStart quietEnd : Int) (force : Bool)
    (state : State) (ids : List String)
    (h : runProcess.pending force (runProcess.processedSet state.ProcessedIDs []) ids = []) :
    runProcess.attempt U w config bookmarksConfig quietStart quietEnd force state ids =
      ⟨0, state, runProcess.processedSet state.ProcessedIDs [], []⟩ := by
  unfold runProcess.attempt
  simp only [h]
  split
  · simp [processBookmarksParallel]
  · rfl

/-- C14: after a sequential run without the force flag, the pending list recomputed from
the resulting state and the same fetched IDs holds exactly the pending IDs of the first
run whose processing did not succeed.  So when every pending item was processed
successfully it is empty, and a second run over the same fetched IDs processes zero items
and leaves the processed-ID list and the category counts as they are. -/
theorem runProcess_idempotent (U : RuneCase) (w : World) (config : Config)
    (bookmarksConfig : BookmarksConfig) (quietStart quietEnd : Int) (state : State)
    (ids : List String) (hseq : config.Parallel = false) :
    runProcess.pending false
        (runProcess.processedSet
          (runProcess.attempt U w config bookmarksConfig quietStart quietEnd false state
            ids).state.ProcessedIDs []) ids =
      (runProcess.pending false (runProcess.processedSet state.ProcessedIDs []) ids).filter
        (fun id => !succeeds U w config bookmarksConfig quietStart quietEnd id) ∧
    ((∀ id ∈ runProcess.pending false (runProcess.processedSet state.ProcessedIDs []) ids,
        succeeds U w config bookmarksConfig quietStart quietEnd id = true) →
      runProcess.pending false
        (runProcess.processedSet
          (runProcess.attempt U w config bookmarksConfig quietStart quietEnd false state
            ids).state.ProcessedIDs []) ids = [] ∧
      ∀ (w2 : World) (config2 : Config),
        (runProcess.attempt U w2 config2 bookmarksConfig quietStart quietEnd false
          (runProcess.attempt U w config bookmarksConfig quietStart quietEnd false state
            ids).state ids).processedCount = 0 ∧
        (runProcess.attempt U w2 config2 bookmarksConfig quietStart quietEnd false
          (runProcess.attempt U w config bookmarksConfig quietStart quietEnd false state
            ids).state ids).state =
          (runProcess.attempt U w config bookmarksConfig quietStart quietEnd false state
            ids).state) := by
  have hfirst : runProcess.pending false
        (runProcess.processedSet
          (runProcess.attempt U w config bookmarksConfig quietStart quietEnd false state
            ids).state.ProcessedIDs []) ids =
      (runProcess.pending false (runProcess.processedSet state.ProcessedIDs []) ids).filter
        (fun id => !succeeds U w config bookmarksConfig quietStart quietEnd id) := by
    rw [runProcess.pending_unforced, runProcess.pending_unforced, List.filter_filter]
    apply List.filter_congr
    intro x hx
    rw [runProcess.attempt_sequential U w config bookmarksConfig quietStart quietEnd false state
      ids hseq]
    unfold processBookmarksSequential
    rw [runProcess.pending_unforced]
    have hmem := processBookmarksSequential.loop_processed U w config bookmarksConfig quietStart
      quietEnd (ids.filter (fun id => decide (id ∉ state.ProcessedIDs)))
      ⟨0, state, runProcess.processedSet state.ProcessedIDs [], []⟩ x
    by_cases h1 : x ∈ state.ProcessedIDs
    · have hin := hmem.2 (Or.inl h1)
      rw [decide_eq_false (not_not.2 hin), decide_eq_false (not_not.2 h1)]
      simp
    · cases hs : succeeds U w config bookmarksConfig quietStart quietEnd x with
      | false =>
        have hout : x ∉ (processBookmarksSequential.loop U w config bookmarksConfig quietStart
            quietEnd (ids.filter (fun id => decide (id ∉ state.ProcessedIDs)))
            ⟨0, state, runProcess.processedSet state.ProcessedIDs [], []⟩).state.ProcessedIDs := by
          intro hc
          rcases hmem.1 hc with h | ⟨_, h⟩
          · exact h1 h
          · rw [hs] at h; cases h
        rw [decide_eq_true hout, decide_eq_true h1]
        rfl
      | true =>
        have hin := hmem.2 (Or.inr ⟨List.mem_filter.2 ⟨hx, decide_eq_true h1⟩, hs⟩)
        rw [decide_eq_false (not_not.2 hin), decide_eq_true h1]
        rfl
  refine ⟨hfirst, ?_⟩
  intro hall
  have hnil : runProcess.pending false
        (runProcess.processedSet
          (runProcess.attempt U w config bookmarksConfig quietStart quietEnd false state
            ids).state.ProcessedIDs []) ids = [] := by
    rw [hfirst, List.filter_eq_nil_iff]
    intro id hid
    simp [hall id hid]
  refine ⟨hnil, ?_⟩
  intro w2 config2
  rw [runProcess.attempt_nothing_pending U w2 config2 bookmarksConfig quietStart quietEnd false
    _ ids hnil]
  exact ⟨rfl, rfl⟩

theorem runProcess_idempotent_witness :
    runProcess.pending false
        (runProcess.processedSet
          (runProcess.attempt asciiCase feedWorld plainConfig potteryConfig 1380 480 false
            oneDoneState ["1", "3", "4"]).state.ProcessedIDs []) ["1", "3", "4"] = [] ∧
    (runProcess.attempt asciiCase idleWorld plainConfig potteryConfig 1380 480 false
        (runProcess.attempt asciiCase feedWorld plainConfig potteryConfig 1380 480 false
          oneDoneState ["1", "3", "4"]).state ["1", "3", "4"]).processedCount = 0 :=
  ⟨((runProcess_idempotent asciiCase feedWorld plainConfig potteryConfig 1380 480 oneDoneState
      ["1", "3", "4"] rfl).2 (by decide)).1,
    (((runProcess_idempotent asciiCase feedWorld plainConfig potteryConfig 1380 480 oneDoneState
      ["1", "3", "4"] rfl).2 (by decide)).2 idleWorld plainConfig).1⟩

theorem freshCounts_get? (categories : List String) (acc : GoMap Int) (x : String) :
    (categories.foldl (fun (m : GoMap Int) category => m.set category 0) acc).get? x =
      if x ∈ categories then some 0 else acc.get? x := by
  induction categories generalizing acc with
  | nil => simp
  | cons c rest ih =>
    simp only [List.foldl_cons, ih, List.mem_cons]
    by_cases hr : x ∈ rest
    · simp [hr]
    · by_cases hx : x = c
      · subst hx; simp [hr, GoMap.get?_set_self]
      · simp [hr, hx, GoMap.get?_set_other _ _ _ _ hx]

theorem ensureCategory_get? (counts : GoMap Int) (key x : String) :
    (ensureCategory counts key).get? x =
      match counts.get? x with
      | some n => some n
      | none => if x = key then some 0 else none := by
  unfold ensureCategory
  cases hk : counts.get? key with
  | some n =>
    simp only
    cases hx : counts.get? x with
    | some m => rfl
    | none =>
      have hne : x ≠ key := by
        intro h; rw [h, hk] at hx; cases hx
      simp [hne]
  | none =>
    simp only
    by_cases hxk : x = key
    · subst hxk; simp [GoMap.get?_set_self, hk]
    · rw [GoMap.get?_set_other _ _ _ _ hxk]
      cases counts.get? x <;> simp [hxk]

theorem ensureCategories_get? (categories : List String) (counts : GoMap Int) (x : String) :
    (categories.foldl ensureCategory counts).get? x =
      match counts.get? x with
      | some n => some n
      | none => if x ∈ categories then some 0 else none := by
  induction categories generalizing counts with
  | nil => cases h : counts.get? x <;> simp [h]
  | cons c rest ih =>
    simp only [List.foldl_cons, ih, ensureCategory_get?, List.mem_cons]
    cases h : counts.get? x with
    | some n => rfl
    | none =>
      by_cases hxc : x = c
      · simp [hxc]
      · simp [hxc]

theorem Tracks.entries (entries : List (String × Int)) (decoding persisted : GoMap Int)
    (h : Tracks decoding persisted) :
    Tracks (entries.foldl (fun m e => m.set e.1 e.2) decoding)
      (entries.foldl (fun m e => m.set e.1 e.2) persisted) := by
  induction entries generalizing decoding persisted with
  | nil => exact h
  | cons e rest ih =>
    simp only [List.foldl_cons]
    apply ih
    intro x
    by_cases hx : x = e.1
    · subst hx
      simp [GoMap.get?_set_self]
    · rw [GoMap.get?_set_other _ _ _ _ hx, GoMap.get?_set_other _ _ _ _ hx]
      exact h x

theorem StateField.store_tracks (fields : List StateField) (a b : DecodingState)
    (h : Tracks (match a.Categories with | some m => m | none => [])
      (match b.Categories with | some m => m | none => [])) :
    Tracks (match (fields.foldl StateField.store a).Categories with | some m => m | none => [])
      (match (fields.foldl StateField.store b).Categories with | some m => m | none => []) := by
  induction fields generalizing a b with
  | nil => exact h
  | cons f rest ih =>
    simp only [List.foldl_cons]
    apply ih
    cases f with
    | lastProcessed value => exact h
    | processedIds value => exact h
    | categories value =>
      cases value with
      | none =>
        intro x
        simp [StateField.store, GoMap.get?]
      | some entries =>
        simp only [StateField.store]
        exact Tracks.entries entries _ _ h

/-- C15: the state returned by `loadState` has a count for every known category: the
count of the state file when the file has one for it, and 0 when the category is not in
the file or the file has no category map or a null one.  When there is no state file,
`loadState` returns without error the fresh state: empty timestamp, no processed IDs and
every known category at 0. -/
theorem loadState_spec (w : World) (path : String) (categories : List String) :
    (w.ReadFile path = FileRead.notExist →
      loadState w path categories =
        .ok ⟨"", [], loadState.fresh categories⟩ ∧
      ∀ x, (loadState.fresh categories).get? x = if x ∈ categories then some 0 else none) ∧
    (∀ text fields, w.ReadFile path = FileRead.data text →
      w.unmarshalState text = .ok fields →
      ∃ state, loadState w path categories = .ok state ∧
        ∀ c ∈ categories, state.Categories.get? c =
          some (match persistedCategories fields with
            | some m => (match m.get? c with | some n => n | none => 0)
            | none => 0)) ∧
    (∀ state, loadState w path categories = .ok state →
      ∀ c ∈ categories, (state.Categories.get? c).isSome = true) := by
  have hfresh : ∀ x, (loadState.fresh categories).get? x =
      if x ∈ categories then some 0 else none := by
    intro x
    unfold loadState.fresh
    rw [freshCounts_get?]
    simp [GoMap.get?]
  have hdata : ∀ text fields, w.ReadFile path = FileRead.data text →
      w.unmarshalState text = .ok fields →
      ∃ state, loadState w path categories = .ok state ∧
        ∀ c ∈ categories, state.Categories.get? c =
          some (match persistedCategories fields with
            | some m => (match m.get? c with | some n => n | none => 0)
            | none => 0) := by
    intro text fields hread hjson
    refine ⟨⟨(fields.foldl StateField.store ⟨"", [], some (loadState.fresh categories)⟩).LastProcessed,
      (fields.foldl StateField.store ⟨"", [], some (loadState.fresh categories)⟩).ProcessedIDs,
      categories.foldl ensureCategory
        (match (fields.foldl StateField.store
            ⟨"", [], some (loadState.fresh categories)⟩).Categories with
          | some m => m
          | none => [])⟩, ?_, ?_⟩
    · simp only [loadState, hread, hjson]
    intro c hc
    simp only [ensureCategories_get?]
    have htr := StateField.store_tracks fields
      ⟨"", [], some (loadState.fresh categories)⟩ ⟨"", [], none⟩
      (by
        intro x
        simp only [GoMap.get?]
        rw [hfresh x]
        by_cases hx : x ∈ categories <;> simp [hx]) c
    unfold persistedCategories
    cases hp : (fields.foldl StateField.store ⟨"", [], none⟩).Categories with
    | none =>
      rw [hp] at htr
      simp only [GoMap.get?] at htr
      rcases htr with h | h <;> simp [h, hc]
    | some m =>
      rw [hp] at htr
      simp only at htr ⊢
      cases hm : m.get? c with
      | none =>
        rw [hm] at htr
        rcases htr with h | h <;> simp [h, hc]
      | some n =>
        rw [hm] at htr
        simp [htr]
  refine ⟨?_, hdata, ?_⟩
  · intro hread
    exact ⟨by simp only [loadState, hread], hfresh⟩
  · intro state hload c hc
    cases hread : w.ReadFile path with
    | notExist =>
      simp only [loadState, hread, Except.ok.injEq] at hload
      rw [← hload]
      simp [hfresh c, hc]
    | failed err => simp [loadState, hread] at hload
    | data text =>
      cases hjson : w.unmarshalState text with
      | error err => simp [loadState, hread, hjson] at hload
      | ok fields =>
        obtain ⟨state2, hs2, hval⟩ := hdata text fields hread hjson
        rw [hload] at hs2
        cases hs2
        rw [hval c hc]
        rfl

theorem loadState_spec_witness :
    (∃ state, loadState savedWorld "/home/u/state.json" ["razor", "pottery"] = .ok state ∧
      ∀ c ∈ ["razor", "pottery"], state.Categories.get? c =
        some (match persistedCategories
            [StateField.lastProcessed "2024-01-01T10:00:00Z", StateField.processedIds ["1", "7"],
              StateField.categories (some [("pottery", 4), ("old", 2)])] with
          | some m => (match m.get? c with | some n => n | none => 0)
          | none => 0)) ∧
    loadState idleWorld "/home/u/state.json" ["razor", "pottery"] =
      .ok ⟨"", [], [("razor", 0), ("pottery", 0)]⟩ :=
  ⟨(loadState_spec savedWorld "/home/u/state.json" ["razor", "pottery"]).2.1 "(state file)"
      [StateField.lastProcessed "2024-01-01T10:00:00Z", StateField.processedIds ["1", "7"],
        StateField.categories (some [("pottery", 4), ("old", 2)])] rfl rfl,
    ((loadState_spec idleWorld "/home/u/state.json" ["razor", "pottery"]).1 rfl).1⟩

theorem saveState_events (w : World) (path : String) (state : State) :
    (writesTo path (saveState w path state).1).length ≤ 1 ∧
    ((saveState w path state).2 = none →
      ∃ data, w.MarshalIndent state = .ok data ∧
        (saveState w path state).1 = [Event.mkdir (w.Dir path), Event.write path data]) ∧
    (∀ err, (saveState w path state).2 = some err →
      writesTo path (saveState w path state).1 = []) := by
  cases hm : w.MarshalIndent state with
  | error e => simp [saveState, hm, writesTo]
  | ok data =>
    cases hd : w.MkdirAll (w.Dir path) with
    | some e => simp [saveState, hm, hd, writesTo]
    | none =>
      cases hw : w.WriteFile path data with
      | some e => simp [saveState, hm, hd, hw, writesTo]
      | none => simp [saveState, hm, hd, hw, writesTo]

theorem runProcess_reaches_finish (U : RuneCase) (w : World) (config : Config) (force : Bool)
    (bookmarksConfig : BookmarksConfig) (quietStart quietEnd : Int) (birdPath : String)
    (state : State) (ids : List String)
    (hcfg : loadBookmarksConfig config.ConfigPath (w.readConfig config.ConfigPath) =
      .ok bookmarksConfig)
    (hqs : parseClock w.Sscanf config.QuietStart = .ok quietStart)
    (hqe : parseClock w.Sscanf config.QuietEnd = .ok quietEnd)
    (hbird : w.LookPath config.BirdBin = .ok birdPath)
    (hstate : loadState w (runProcess.binaries w config birdPath).StatePath
      bookmarksConfig.CategoryOrder = .ok state)
    (hids : getBookmarks w (runProcess.binaries w config birdPath).BirdBin
      (runProcess.binaries w config birdPath).Limit = .ok ids) :
    runProcess U w config force =
      (runProcess.opening bookmarksConfig state ++
        (runProcess.attempt U w (runProcess.binaries w config birdPath) bookmarksConfig
          quietStart quietEnd force state ids).events ++
        (runProcess.finish w (runProcess.binaries w config birdPath) bookmarksConfig
          (runProcess.attempt U w (runProcess.binaries w config birdPath) bookmarksConfig
            quietStart quietEnd force state ids)).1,
       (runProcess.finish w (runProcess.binaries w config birdPath) bookmarksConfig
          (runProcess.attempt U w (runProcess.binaries w config birdPath) bookmarksConfig
            quietStart quietEnd force state ids)).2) := by
  unfold runProcess
  simp only [hcfg, hqs, hqe, hbird, hstate, hids]

/-- C17: once the pending items were attempted, `runProcess` stamps `LastProcessed` and
calls `saveState` exactly when the returned count is positive, after the events of all
attempts; `saveState` writes the state file at most once, and once when it returns no
error.  When zero items were processed, nothing is saved or stamped: the run only prints
its two closing lines for the state as the pass left it, and returns no error. -/
theorem runProcess_saves_once (U : RuneCase) (w : World) (config : Config) (force : Bool)
    (bookmarksConfig : BookmarksConfig) (quietStart quietEnd : Int) (birdPath : String)
    (state : State) (ids : List String) (progress : Progress)
    (hcfg : loadBookmarksConfig config.ConfigPath (w.readConfig config.ConfigPath) =
      .ok bookmarksConfig)
    (hqs : parseClock w.Sscanf config.QuietStart = .ok quietStart)
    (hqe : parseClock w.Sscanf config.QuietEnd = .ok quietEnd)
    (hbird : w.LookPath config.BirdBin = .ok birdPath)
    (hstate : loadState w (runProcess.binaries w config birdPath).StatePath
      bookmarksConfig.CategoryOrder = .ok state)
    (hids : getBookmarks w (runProcess.binaries w config birdPath).BirdBin
      (runProcess.binaries w config birdPath).Limit = .ok ids)
    (hprogress : progress =
      runProcess.attempt U w (runProcess.binaries w config birdPath) bookmarksConfig quietStart
        quietEnd force state ids) :
    (progress.processedCount = 0 →
      runProcess U w config force =
        (runProcess.opening bookmarksConfig state ++ progress.events ++
          [Event.printed "Processed 0 new bookmarks\n",
            Event.printed ("Updated categories: " ++
              formatCategoryCounts bookmarksConfig.CategoryOrder progress.state.Categories ++
              "\n")],
          none)) ∧
    (progress.processedCount > 0 →
      (runProcess U w config force).2 =
        (saveState w config.StatePath { progress.state with LastProcessed := w.utcStamp }).2 ∧
      (runProcess U w config force).1 =
        runProcess.opening bookmarksConfig state ++ progress.events ++
          (saveState w config.StatePath { progress.state with LastProcessed := w.utcStamp }).1 ++
          (match (saveState w config.StatePath
              { progress.state with LastProcessed := w.utcStamp }).2 with
            | some _ => []
            | none =>
              [Event.printed ("Processed " ++ toString progress.processedCount ++
                  " new bookmarks\n"),
                Event.printed ("Updated categories: " ++
                  formatCategoryCounts bookmarksConfig.CategoryOrder progress.state.Categories ++
                  "\n")])) ∧
    (∀ (saved : State),
      (writesTo config.StatePath (saveState w config.StatePath saved).1).length ≤ 1 ∧
      ((saveState w config.StatePath saved).2 = none →
        ∃ data, w.MarshalIndent saved = .ok data ∧
          (saveState w config.StatePath saved).1 =
            [Event.mkdir (w.Dir config.StatePath), Event.write config.StatePath data]) ∧
      (∀ err, (saveState w config.StatePath saved).2 = some err →
        writesTo config.StatePath (saveState w config.StatePath saved).1 = [])) := by
  have hrun := runProcess_reaches_finish U w config force bookmarksConfig quietStart quietEnd
    birdPath state ids hcfg hqs hqe hbird hstate hids
  rw [← hprogress] at hrun
  have hpath : (runProcess.binaries w config birdPath).StatePath = config.StatePath := by
    unfold runProcess.binaries
    simp only
    split <;> split <;> rfl
  refine ⟨?_, ?_, ?_⟩
  · intro h0
    rw [hrun]
    simp [runProcess.finish, h0]
    decide
  · intro hpos
    rw [hrun]
    simp only [runProcess.finish, hpos, if_true, hpath]
    cases hs : (saveState w config.StatePath
        { progress.state with LastProcessed := w.utcStamp }).2 with
    | some err => simp
    | none => simp [List.append_assoc]
  · intro saved
    exact saveState_events w config.StatePath saved

theorem runProcess_saves_once_witness :
    writesTo plainConfig.StatePath (runProcess asciiCase runWorld plainConfig false).1 =
      ["(state as JSON)"] ∧
    runProcess asciiCase unreadableWorld plainConfig false =
      (runProcess.opening potteryConfig ⟨"", [], [("razor", 0), ("pottery", 0)]⟩ ++
        (runProcess.attempt asciiCase unreadableWorld
          (runProcess.binaries unreadableWorld plainConfig "/usr/local/bin/bird") potteryConfig
          1380 480 false ⟨"", [], [("razor", 0), ("pottery", 0)]⟩ ["1", "3"]).events ++
        [Event.printed "Processed 0 new bookmarks\n",
          Event.printed ("Updated categories: " ++
            formatCategoryCounts potteryConfig.CategoryOrder
              (runProcess.attempt asciiCase unreadableWorld
                (runProcess.binaries unreadableWorld plainConfig "/usr/local/bin/bird")
                potteryConfig 1380 480 false ⟨"", [], [("razor", 0), ("pottery", 0)]⟩
                ["1", "3"]).state.Categories ++ "\n")],
        none) :=
  ⟨by
      have h := ((runProcess_saves_once asciiCase runWorld plainConfig false potteryConfig 1380
        480 "/usr/local/bin/bird" ⟨"", [], [("razor", 0), ("pottery", 0)]⟩ ["1", "3"] _
        (by rfl) (by rfl) (by rfl) (by rfl) (by rfl) (by rfl) rfl).2.1 (by decide)).2
      rw [h]
      decide,
    (runProcess_saves_once asciiCase unreadableWorld plainConfig false potteryConfig 1380 480
      "/usr/local/bin/bird" ⟨"", [], [("razor", 0), ("pottery", 0)]⟩ ["1", "3"] _
      (by rfl) (by rfl) (by rfl) (by rfl) (by rfl) (by rfl) rfl).1 (by decide)⟩

/-- C19: for a non-empty pending list of length m, `processBookmarksParallel` starts
min(max(w, 1), m) workers, where w is the configured number (any integer), hence between 1
and m; for an empty pending list it starts none and returns 0, leaving the state and the
set as they are. -/
theorem processBookmarksParallel_workers (config : Config) (ids : List String) :
    (ids ≠ [] →
      processBookmarksParallel.workers config ids =
        min (max config.Workers 1) (ids.length : Int) ∧
      1 ≤ processBookmarksParallel.workers config ids ∧
      processBookmarksParallel.workers config ids ≤ (ids.length : Int) ∧
      ∀ (w : World) (state : State) (processedSet : GoMap Bool),
        processBookmarksParallel w config ids state processedSet =
          w.parallel (min (max config.Workers 1) (ids.length : Int)) ids state processedSet) ∧
    (ids = [] →
      processBookmarksParallel.workers config ids = 0 ∧
      ∀ (w : World) (state : State) (processedSet : GoMap Bool),
        processBookmarksParallel w config ids state processedSet =
          ⟨0, state, processedSet, []⟩) := by
  refine ⟨?_, ?_⟩
  · intro hne
    have hlen : ids.length ≠ 0 := fun h => hne (List.length_eq_zero.1 h)
    have hpos : (1 : Int) ≤ (ids.length : Int) := by omega
    have hw : processBookmarksParallel.workers config ids =
        min (max config.Workers 1) (ids.length : Int) := by
      unfold processBookmarksParallel.workers
      simp only [hlen, if_false]
      by_cases h1 : config.Workers < 1
      · simp only [h1, if_true]
        rw [max_eq_right (le_of_lt h1)]
        by_cases h2 : (1 : Int) > (ids.length : Int)
        · omega
        · simp only [h2, if_false]
          rw [min_eq_left hpos]
      · simp only [h1, if_false]
        rw [max_eq_left (not_lt.1 h1)]
        by_cases h2 : config.Workers > (ids.length : Int)
        · simp only [h2, if_true]
          rw [min_eq_right (le_of_lt h2)]
        · simp only [h2, if_false]
          rw [min_eq_left (not_lt.1 h2)]
    refine ⟨hw, ?_, ?_, ?_⟩
    · rw [hw]; exact le_min (le_max_right _ _) hpos
    · rw [hw]; exact min_le_right _ _
    · intro w state processedSet
      unfold processBookmarksParallel
      simp only [hlen, if_false, hw]
  · intro hnil
    subst hnil
    exact ⟨rfl, fun _ _ _ => rfl⟩

theorem processBookmarksParallel_workers_witness :
    processBookmarksParallel.workers { plainConfig with Workers := -3 } ["1", "3"] =
      min (max (-3) 1) 2 ∧
    processBookmarksParallel.workers plainConfig ["1", "3"] ≤ 2 ∧
    processBookmarksParallel.workers plainConfig [] = 0 :=
  ⟨((processBookmarksParallel_workers { plainConfig with Workers := -3 } ["1", "3"]).1
      (by decide)).1,
    ((processBookmarksParallel_workers plainConfig ["1", "3"]).1 (by decide)).2.2.1,
    ((processBookmarksParallel_workers plainConfig []).2 rfl).1⟩

theorem literalStep_settled (s : Bool × Bool) (c : Char) :
    (literalStep s c).1 = false → (literalStep s c).2 = false := by
  unfold literalStep
  split
  · split
    · simp
    · split
      · simp
      · split <;> simp
  · split <;> simp

theorem literalState_fold_settled (text : List Char) (s : Bool × Bool)
    (hs : s.1 = false → s.2 = false) :
    (text.foldl literalStep s).1 = false → (text.foldl literalStep s).2 = false := by
  induction text generalizing s with
  | nil => exact hs
  | cons c rest ih => exact ih _ (literalStep_settled s c)

theorem extractFirstJSON.scan_commentary_step (input rest : List Char) (c : Char) (i : Nat)
    (s : Bool × Bool) (hs : s.1 = false → s.2 = false) (hc : c ≠ '\x7b') :
    extractFirstJSON.scan input (c :: rest) i (-1) 0 s.1 s.2 =
      extractFirstJSON.scan input rest (i + 1) (-1) 0 (literalStep s c).1
        (literalStep s c).2 := by
  obtain ⟨b, e⟩ := s
  cases b with
  | true =>
    cases e with
    | true => simp [extractFirstJSON.scan, literalStep]
    | false =>
      by_cases h1 : c = '\\'
      · simp [extractFirstJSON.scan, literalStep, h1]
      · by_cases h2 : c = '"'
        · simp [extractFirstJSON.scan, literalStep, h2]
        · simp [extractFirstJSON.scan, literalStep, h1, h2]
  | false =>
    have he : e = false := hs rfl
    subst he
    by_cases h2 : c = '"'
    · simp [extractFirstJSON.scan, literalStep, h2]
    · simp [extractFirstJSON.scan, literalStep, h2, hc]

theorem extractFirstJSON.scan_commentary (input pre rest : List Char) (i : Nat)
    (s : Bool × Bool) (hs : s.1 = false → s.2 = false) (hpre : ∀ c ∈ pre, c ≠ '\x7b') :
    extractFirstJSON.scan input (pre ++ rest) i (-1) 0 s.1 s.2 =
      extractFirstJSON.scan input rest (i + pre.length) (-1) 0 (pre.foldl literalStep s).1
        (pre.foldl literalStep s).2 := by
  induction pre generalizing i s with
  | nil => rfl
  | cons c pre ih =>
    rw [List.cons_append, extractFirstJSON.scan_commentary_step input _ c i s hs
      (hpre c (by simp)), ih (i + 1) _ (literalStep_settled s c)
      (fun d hd => hpre d (by simp [hd]))]
    simp only [List.foldl_cons, List.length_cons]
    congr 1
    omega

theorem depthStep_fst (s : (Bool × Bool) × Int) (c : Char) :
    (depthStep s c).1 = literalStep s.1 c := rfl

theorem extractFirstJSON.scan_object (input tail : List Char) (start : Nat) (todo : List Char) :
    ∀ (done : List Char) (depth : Nat) (s : Bool × Bool),
      done.foldl depthStep ((false, false), 0) = (s, (depth : Int)) → 0 < depth →
      (∀ n, 0 < n → n < todo.length →
        0 < ((done ++ todo.take n).foldl depthStep ((false, false), 0)).2) →
      ((done ++ todo).foldl depthStep ((false, false), 0)).2 = 0 →
      extractFirstJSON.scan input (todo ++ tail) (start + done.length) (start : Int) depth s.1
          s.2 =
        (⟨(input.drop start).take (done.length + todo.length)⟩, true) := by
  induction todo with
  | nil =>
    intro done depth s hdone hpos _ hfinal
    rw [List.append_nil, hdone] at hfinal
    simp only at hfinal
    omega
  | cons c todo ih =>
    intro done depth s hdone hpos hmid hfinal
    have hnext : (done ++ [c]).foldl depthStep ((false, false), 0) =
        depthStep (s, (depth : Int)) c := by
      rw [List.foldl_append, hdone]; rfl
    have hmid2 : ∀ n, 0 < n → n < todo.length →
        0 < (((done ++ [c]) ++ todo.take n).foldl depthStep ((false, false), 0)).2 := by
      intro n hn hlt
      have := hmid (n + 1) (by omega) (by simp only [List.length_cons]; omega)
      simpa [List.take_succ_cons, List.append_assoc] using this
    have hfinal2 : (((done ++ [c]) ++ todo).foldl depthStep ((false, false), 0)).2 = 0 := by
      simpa [List.append_assoc] using hfinal
    have hlen : start + (done ++ [c]).length = start + done.length + 1 := by
      simp only [List.length_append, List.length_cons, List.length_nil]; omega
    have hres : (done ++ [c]).length + todo.length = done.length + (c :: todo).length := by
      simp only [List.length_append, List.length_cons, List.length_nil]; omega
    -- the scan goes on with the state after `c`, at the same or another positive depth
    have go : ∀ (depth2 : Nat) (s2 : Bool × Bool),
        depthStep (s, (depth : Int)) c = (s2, (depth2 : Int)) → 0 < depth2 →
        extractFirstJSON.scan input (todo ++ tail) (start + done.length + 1) (start : Int)
            depth2 s2.1 s2.2 =
          (⟨(input.drop start).take (done.length + (c :: todo).length)⟩, true) := by
      intro depth2 s2 h2 hpos2
      have := ih (done ++ [c]) depth2 s2 (by rw [hnext, h2]) hpos2 hmid2 hfinal2
      rw [hlen, hres] at this
      exact this
    obtain ⟨b, e⟩ := s
    rw [List.cons_append]
    cases b with
    | true =>
      cases e with
      | true =>
        simp only [extractFirstJSON.scan, if_true]
        exact go depth (true, false) (by simp [depthStep, literalStep]) hpos
      | false =>
        by_cases h1 : c = '\\'
        · simp only [extractFirstJSON.scan, if_true, h1, Bool.false_eq_true, if_false]
          exact go depth (true, true) (by simp [depthStep, literalStep, h1]) hpos
        · by_cases h2 : c = '"'
          · simp only [extractFirstJSON.scan, if_true, h1, h2, Bool.false_eq_true, if_false]
            exact go depth (false, false) (by simp [depthStep, literalStep, h2]) hpos
          · simp only [extractFirstJSON.scan, if_true, h1, h2, Bool.false_eq_true, if_false]
            exact go depth (true, false) (by simp [depthStep, literalStep, h1, h2]) hpos
    | false =>
      have he : e = false := by
        have := literalState_fold_settled done (false, false) (fun _ => rfl)
        have h1 : done.foldl literalStep (false, false) = (false, e) := by
          have hfst : ∀ (l : List Char) (t : (Bool × Bool) × Int),
              (l.foldl depthStep t).1 = l.foldl literalStep t.1 := by
            intro l
            induction l with
            | nil => intro t; rfl
            | cons a l ihl => intro t; simp only [List.foldl_cons, ihl, depthStep_fst]
          have := hfst done ((false, false), 0)
          rw [hdone] at this
          exact this.symm
        rw [h1] at this
        exact this rfl
      subst he
      by_cases h2 : c = '"'
      · simp only [extractFirstJSON.scan, Bool.false_eq_true, if_false, h2, if_true]
        exact go depth (true, false) (by simp [depthStep, literalStep, h2]) hpos
      · by_cases h3 : c = '\x7b'
        · have hd0 : depth ≠ 0 := by omega
          simp only [extractFirstJSON.scan, Bool.false_eq_true, if_false, h2, h3, if_true, hd0]
          exact go (depth + 1) (false, false)
            (by simp [depthStep, literalStep, h3]) (by omega)
        · by_cases h4 : c = '\x7d'
          · by_cases h5 : depth = 1
            · -- the closing brace of the object: it must be the last rune
              have hlast : todo = [] := by
                by_contra hne
                have hl : 0 < todo.length := List.length_pos.2 hne
                have := hmid 1 (by omega) (by simp only [List.length_cons]; omega)
                rw [List.take_succ_cons, List.take_zero, hnext] at this
                simp [depthStep, h4, h5] at this
              subst hlast
              simp only [extractFirstJSON.scan, Bool.false_eq_true, if_false, h2, h3, h4, h5]
              simp only [List.length_cons, List.length_nil, List.nil_append]
              simp
              have harith : start + done.length + 1 - start = done.length + 1 := by omega
              rw [harith]
            · have hd1 : ¬ (depth - 1 = 0) := by omega
              simp only [extractFirstJSON.scan, Bool.false_eq_true, if_false, h2, h3, h4,
                if_true, hpos, hd1, gt_iff_lt, true_and, false_and]
              exact go (depth - 1) (false, false)
                (by
                  simp only [depthStep, literalStep, h4, Bool.false_eq_true, if_false]
                  simp
                  omega) (by omega)
          · simp only [extractFirstJSON.scan, Bool.false_eq_true, if_false, h2, h3, h4,
              false_and]
            exact go depth (false, false) (by simp [depthStep, literalStep, h2, h3, h4]) hpos

theorem extractFirstJSON_of_balanced (pre object suf : List Char)
    (hpre : ∀ c ∈ pre, c ≠ '\x7b') (hlit : (literalState pre).1 = false)
    (hobject : BalancedObject object) :
    extractFirstJSON.scan (pre ++ object ++ suf) (pre ++ object ++ suf) 0 (-1) 0 false false =
      (⟨object⟩, true) := by
  obtain ⟨hhead, _, hzero, hmid⟩ := hobject
  cases object with
  | nil => simp at hhead
  | cons c body =>
    have hc : c = '\x7b' := by simpa using hhead
    subst hc
    have hset : (literalState pre).2 = false :=
      literalState_fold_settled pre (false, false) (fun _ => rfl) hlit
    have hA := extractFirstJSON.scan_commentary (pre ++ '\x7b' :: body ++ suf) pre
      ('\x7b' :: body ++ suf) 0 (false, false) (fun _ => rfl) hpre
    have hassoc : pre ++ '\x7b' :: body ++ suf = pre ++ ('\x7b' :: body ++ suf) := by
      simp [List.append_assoc]
    rw [hassoc] at hA ⊢
    rw [hA]
    have hl1 : (pre.foldl literalStep (false, false)).1 = false := hlit
    have hl2 : (pre.foldl literalStep (false, false)).2 = false := hset
    rw [hl1, hl2]
    simp only [List.cons_append, extractFirstJSON.scan, Bool.false_eq_true, if_false,
      show ('\x7b' : Char) ≠ '"' by decide, if_true, Nat.zero_add]
    have hB := extractFirstJSON.scan_object (pre ++ '\x7b' :: (body ++ suf)) suf pre.length body
      ['\x7b'] 1 (false, false) (by simp [depthStep, literalStep]) (by omega)
      (fun n hn hlt => by
        have := hmid (n + 1) (by omega) (by simp only [List.length_cons]; omega)
        simpa [braceDepth, List.take_succ_cons] using this)
      (by simpa [braceDepth] using hzero)
    simp only [List.length_singleton, Nat.cast_ofNat] at hB
    show extractFirstJSON.scan _ (body ++ suf) _ _ _ _ _ = _
    rw [hB]
    congr 2
    rw [List.drop_left, Nat.add_comm, ← List.length_cons '\x7b' body,
      ← List.cons_append, List.take_left]

set_option maxRecDepth 8000 in
/-- C20 fails as stated: the commentary before the object holds no opening brace but one
double quote (7" kiln), the scan takes what follows for a string literal, and nothing is
extracted from a response of the form commentary, balanced object, nothing. -/
theorem extractFirstJSON_commentary_counterexample :
    (∀ c ∈ "Re the 7\" kiln: ".data, c ≠ '\x7b') ∧
    BalancedObject "\x7b\"category\": \"pottery\", \"needsUrlContent\": false\x7d".data ∧
    extractFirstJSON ("Re the 7\" kiln: " ++
      "\x7b\"category\": \"pottery\", \"needsUrlContent\": false\x7d" ++ "") = ("", false) := by
  refine ⟨by decide, ⟨by decide, by decide, by decide, ?_⟩, by decide⟩
  intro n h0 hlt
  have hn : n < 49 := by simpa using hlt
  interval_cases n <;> decide

/-- C20, amended: for a response of the form commentary, balanced object, rest, where the
commentary holds no opening brace and, read by itself, ends outside a string literal (as
it does when it holds no double quote), `extractFirstJSON` returns the object and true. -/
theorem extractFirstJSON_tolerates_commentary (pre object suf : String)
    (hpre : ∀ c ∈ pre.data, c ≠ '\x7b') (hobject : BalancedObject object.data) :
    ((literalState pre.data).1 = false →
      extractFirstJSON (pre ++ object ++ suf) = (object, true)) ∧
    ((∀ c ∈ pre.data, c ≠ '"') →
      extractFirstJSON (pre ++ object ++ suf) = (object, true)) := by
  have main : (literalState pre.data).1 = false →
      extractFirstJSON (pre ++ object ++ suf) = (object, true) := by
    intro hlit
    unfold extractFirstJSON
    simp only [String.data_append]
    exact extractFirstJSON_of_balanced pre.data object.data suf.data hpre hlit hobject
  refine ⟨main, ?_⟩
  intro hquote
  apply main
  have hstay : ∀ (l : List Char), (∀ c ∈ l, c ≠ '"') →
      l.foldl literalStep (false, false) = (false, false) := by
    intro l
    induction l with
    | nil => intro _; rfl
    | cons a l ih =>
      intro hl
      have ha : a ≠ '"' := hl a (by simp)
      simp only [List.foldl_cons, literalStep, Bool.false_eq_true, if_false, ha]
      exact ih (fun c hc => hl c (by simp [hc]))
  unfold literalState
  rw [hstay pre.data hquote]

set_option maxRecDepth 8000 in
theorem extractFirstJSON_tolerates_commentary_witness :
    extractFirstJSON ("Sure, the \"kiln\" one: " ++
      "\x7b\"category\": \"pottery\", \"note\": \"a \x7d in a string\"\x7d" ++
      " Hope that helps \x7d") =
      ("\x7b\"category\": \"pottery\", \"note\": \"a \x7d in a string\"\x7d", true) :=
  (extractFirstJSON_tolerates_commentary "Sure, the \"kiln\" one: "
    "\x7b\"category\": \"pottery\", \"note\": \"a \x7d in a string\"\x7d" " Hope that helps \x7d"
    (by decide)
    ⟨by decide, by decide, by decide, by
      intro n h0 hlt
      have hn : n < 50 := by simpa using hlt
      interval_cases n <;> decide⟩).1 (by decide)

/-- C27: `truncate` returns the text unchanged when it has at most `max` bytes, and
otherwise its first `max` bytes followed by the marker "...".  Hence the result has at
most `max + 3` bytes, and it is a prefix of the text followed by the marker or by
nothing, where the marker is there exactly when bytes were cut off (the kept prefix is
shorter than the text exactly when `max` is below the length of the text); a result from
which bytes were cut ends with the marker. -/
theorem truncate_spec (text : String) (max : Nat) :
    (len text ≤ max → truncate text max = utf8 text) ∧
    (max < len text → truncate text max = (utf8 text).take max ++ utf8 "...") ∧
    (truncate text max).length ≤ max + 3 ∧
    (∃ kept, kept <+: utf8 text ∧ kept <+: truncate text max ∧
      truncate text max = kept ++ (if max < len text then utf8 "..." else []) ∧
      (kept.length < len text ↔ max < len text)) ∧
    (max < len text → utf8 "..." <:+ truncate text max) := by
  have hmark : (utf8 "...").length = 3 := by decide
  by_cases h : len text ≤ max
  · have ht : truncate text max = utf8 text := by simp [truncate, h]
    have hn : ¬ max < len text := by omega
    refine ⟨fun _ => ht, fun h2 => absurd h2 hn, ?_, ⟨utf8 text, List.prefix_refl _, ?_, ?_, ?_⟩,
      fun h2 => absurd h2 hn⟩
    · rw [ht]; unfold len at h; omega
    · rw [ht]
    · rw [ht, if_neg hn, List.append_nil]
    · unfold len at hn ⊢; simp [hn]
  · have ht : truncate text max = (utf8 text).take max ++ utf8 "..." := by simp [truncate, h]
    have hc : max < len text := by omega
    refine ⟨fun h2 => absurd h2 h, fun _ => ht, ?_,
      ⟨(utf8 text).take max, List.take_prefix _ _, ?_, ?_, ?_⟩, fun _ => ?_⟩
    · rw [ht, List.length_append, hmark, List.length_take]; omega
    · rw [ht]; exact List.prefix_append _ _
    · rw [ht, if_pos hc]
    · rw [List.length_take]; unfold len at hc ⊢; omega
    · rw [ht]; exact List.suffix_append _ _

/-- C21: once the tweet was read and a category resolved, `processBookmark` looks the
category up in the routing table by its exact name.  When the table has no entry, it
calls `routeTweet` with the route of action "notify", empty path and notify flag true
(after a warning), so that the outcome is that of the notify action with the flag set: no
error, and the notification of `buildNotifyMessage` as the only possible message.  When
the table has an entry, it calls `routeTweet` with that entry as it is.  In both cases the
events and the error of the call are what `processBookmark` passes on. -/
theorem processBookmark_default_route (U : RuneCase) (w : World) (config : Config)
    (bookmarksConfig : BookmarksConfig) (tweetID : String) (quietStart quietEnd : Int)
    (tweet : Tweet) (hread : readTweet w config.BirdBin tweetID = .ok tweet)
    (hcat : (classify U w config bookmarksConfig tweet).1 ≠ "") :
    (bookmarksConfig.Routing.get? (classify U w config bookmarksConfig tweet).1 = none →
      processBookmark U w config bookmarksConfig tweetID quietStart quietEnd =
        (Event.noRouting (classify U w config bookmarksConfig tweet).1 ::
          (routeTweet U w config bookmarksConfig tweet
            (classify U w config bookmarksConfig tweet).1 ⟨"notify", "", true⟩
            (extractURLs (tweet.Raw ++ "\n" ++ tweet.Thread)) quietStart quietEnd
            (classify U w config bookmarksConfig tweet).2 (w.range 5)).1,
          match (routeTweet U w config bookmarksConfig tweet
            (classify U w config bookmarksConfig tweet).1 ⟨"notify", "", true⟩
            (extractURLs (tweet.Raw ++ "\n" ++ tweet.Thread)) quietStart quietEnd
            (classify U w config bookmarksConfig tweet).2 (w.range 5)).2 with
          | some err => .error err
          | none => .ok ⟨(classify U w config bookmarksConfig tweet).1, true⟩) ∧
      processBookmark U w config bookmarksConfig tweetID quietStart quietEnd =
        (Event.noRouting (classify U w config bookmarksConfig tweet).1 ::
          sendTelegram w
            (buildNotifyMessage U (classify U w config bookmarksConfig tweet).1 tweet
              bookmarksConfig.Categories (w.range 5)) quietStart quietEnd,
          .ok ⟨(classify U w config bookmarksConfig tweet).1, true⟩)) ∧
    (∀ route,
      bookmarksConfig.Routing.get? (classify U w config bookmarksConfig tweet).1 = some route →
      processBookmark U w config bookmarksConfig tweetID quietStart quietEnd =
        ((routeTweet U w config bookmarksConfig tweet
            (classify U w config bookmarksConfig tweet).1 route
            (extractURLs (tweet.Raw ++ "\n" ++ tweet.Thread)) quietStart quietEnd
            (classify U w config bookmarksConfig tweet).2 (w.range 5)).1,
          match (routeTweet U w config bookmarksConfig tweet
            (classify U w config bookmarksConfig tweet).1 route
            (extractURLs (tweet.Raw ++ "\n" ++ tweet.Thread)) quietStart quietEnd
            (classify U w config bookmarksConfig tweet).2 (w.range 5)).2 with
          | some err => .error err
          | none => .ok ⟨(classify U w config bookmarksConfig tweet).1, true⟩)) := by
  have hnotify : ToLower U (TrimSpace "notify") = "notify" := by
    rw [ToLower_ascii U _ (by decide)]; decide
  refine ⟨fun hnone => ?_, fun route hsome => ?_⟩
  · have hcall : processBookmark U w config bookmarksConfig tweetID quietStart quietEnd =
        (Event.noRouting (classify U w config bookmarksConfig tweet).1 ::
          (routeTweet U w config bookmarksConfig tweet
            (classify U w config bookmarksConfig tweet).1 ⟨"notify", "", true⟩
            (extractURLs (tweet.Raw ++ "\n" ++ tweet.Thread)) quietStart quietEnd
            (classify U w config bookmarksConfig tweet).2 (w.range 5)).1,
          match (routeTweet U w config bookmarksConfig tweet
            (classify U w config bookmarksConfig tweet).1 ⟨"notify", "", true⟩
            (extractURLs (tweet.Raw ++ "\n" ++ tweet.Thread)) quietStart quietEnd
            (classify U w config bookmarksConfig tweet).2 (w.range 5)).2 with
          | some err => .error err
          | none => .ok ⟨(classify U w config bookmarksConfig tweet).1, true⟩) := by
      unfold processBookmark
      simp only [hread, if_neg hcat, hnone, List.singleton_append]
      split <;> rename_i h <;> simp only [h]
    refine ⟨hcall, ?_⟩
    rw [hcall, routeTweet_notify_events U w config bookmarksConfig tweet _ ⟨"notify", "", true⟩ _ _ _
      _ _ (Or.inl hnotify)]
    simp
  · unfold processBookmark
    simp only [hread, if_neg hcat, hsome, List.nil_append]
    split <;> rename_i h <;> simp only [h]

theorem processBookmark_default_route_witness :
    processBookmark asciiCase feedWorld plainConfig unroutedConfig "1" 1380 480 =
      (Event.noRouting "pottery" ::
        sendTelegram feedWorld
          (buildNotifyMessage asciiCase "pottery"
            ⟨"1", "New kiln and glaze setup", "New kiln and glaze setup", ""⟩
            unroutedConfig.Categories (feedWorld.range 5)) 1380 480,
        .ok ⟨"pottery", true⟩) :=
  ((processBookmark_default_route asciiCase feedWorld plainConfig unroutedConfig "1" 1380 480
    ⟨"1", "New kiln and glaze setup", "New kiln and glaze setup", ""⟩ (by rfl) (by decide)).1
    (by decide)).2

theorem buildGeminiPrompt.lines_eq (items : GoMap CategoryConfig) (order : List String) :
    buildGeminiPrompt.lines items order =
      (order.filterMap
        (fun name => (items.get? name).map (fun category => promptLine name category))).foldr
        (fun line rest => line ++ rest) "" := by
  induction order with
  | nil => rfl
  | cons name rest ih =>
    unfold buildGeminiPrompt.lines
    cases hg : items.get? name with
    | none => simp only [List.filterMap_cons, hg, Option.map_none']; exact ih
    | some category =>
      simp only [List.filterMap_cons, hg, Option.map_some', List.foldr_cons, ih, promptLine]

theorem utf8_block_of_mem (line : String) (lines : List String) (h : line ∈ lines) :
    utf8 line <:+: utf8 (lines.foldr (fun line rest => line ++ rest) "") := by
  induction lines with
  | nil => cases h
  | cons l rest ih =>
    simp only [List.foldr_cons, utf8_append]
    rcases List.mem_cons.1 h with h | h
    · subst h
      exact (List.prefix_append _ _).isInfix
    · exact (ih h).trans (List.suffix_append _ _).isInfix

theorem buildGeminiPrompt_block (tweet : Tweet) (categories : CategoriesConfig) :
    ∃ tail, buildGeminiPrompt tweet categories =
      "Categorize this tweet into ONE category:\n\n" ++
        (promptLines categories).foldr (fun line rest => line ++ rest) "" ++ tail := by
  refine ⟨"\nTweet: " ++ emptyIf tweet.Text "(no tweet text)" ++
    "\nThread: " ++ emptyIf tweet.Thread "(no thread)" ++
    "\nURLs: " ++ toString (extractURLs (tweet.Raw ++ "\n" ++ tweet.Thread)).length ++
    "\n\nReturn JSON: \x7b\"category\": \"" ++ String.intercalate "|" categories.Order ++
    "\", \"needsUrlContent\": true/false\x7d\n", ?_⟩
  unfold buildGeminiPrompt promptLines
  rw [buildGeminiPrompt.lines_eq]
  simp only [String.append_assoc]

set_option maxRecDepth 8000 in
/-- C22: the prompt of `buildGeminiPrompt` is its heading, then one line for every name of
the configured order that has an entry in the map, in that order, then the rest.  The
line of a category is "- name: description" and a line break, with the description
trimmed of surrounding white space and replaced by "No description provided" when it is
blank.  So the prompt contains the line of every such category, and with it the text
"- name:"; for the configuration of the test it contains "- pottery:". -/
theorem buildGeminiPrompt_lists_categories (tweet : Tweet) (categories : CategoriesConfig) :
    (∃ tail, buildGeminiPrompt tweet categories =
      "Categorize this tweet into ONE category:\n\n" ++
        (promptLines categories).foldr (fun line rest => line ++ rest) "" ++ tail) ∧
    (∀ name category, name ∈ categories.Order → categories.Items.get? name = some category →
      promptLine name category ∈ promptLines categories ∧
      Contains (buildGeminiPrompt tweet categories) (promptLine name category) = true ∧
      Contains (buildGeminiPrompt tweet categories) ("- " ++ name ++ ":") = true) ∧
    Contains (buildGeminiPrompt potteryTweet potteryConfig.Categories) "- pottery:" = true := by
  refine ⟨buildGeminiPrompt_block tweet categories, fun name category hname hget => ?_, by decide⟩
  have hmem : promptLine name category ∈ promptLines categories := by
    unfold promptLines
    exact List.mem_filterMap.2 ⟨name, hname, by simp [hget]⟩
  obtain ⟨tail, htail⟩ := buildGeminiPrompt_block tweet categories
  have hline : utf8 (promptLine name category) <:+: utf8 (buildGeminiPrompt tweet categories) := by
    rw [htail, utf8_append, utf8_append]
    exact (utf8_block_of_mem _ _ hmem).trans
      ((List.suffix_append _ _).isInfix.trans (List.prefix_append _ _).isInfix)
  refine ⟨hmem, (Contains_iff _ _).2 hline, (Contains_iff _ _).2 (List.IsInfix.trans ?_ hline)⟩
  unfold promptLine
  simp only [String.append_assoc, utf8_append]
  have h : utf8 "- " ++ (utf8 name ++ utf8 ":") <+:
      utf8 "- " ++ (utf8 name ++ (utf8 ": " ++
        (utf8 (if TrimSpace category.Description = "" then "No description provided"
          else TrimSpace category.Description) ++ utf8 "\n"))) := by
    have h2 : utf8 ": " = utf8 ":" ++ utf8 " " := by decide
    rw [h2]
    simp only [← List.append_assoc]
    exact ⟨_, by simp only [List.append_assoc]; rfl⟩
  exact h.isInfix

theorem GoMap.keys_set_nodup {V : Type} (m : GoMap V) (k : String) (v : V)
    (h : m.keys.Nodup) : (m.set k v).keys.Nodup := by
  induction m with
  | nil => simp [GoMap.set, GoMap.keys]
  | cons e rest ih =>
    obtain ⟨k', v'⟩ := e
    simp only [GoMap.keys, List.map_cons, List.nodup_cons] at h
    simp only [GoMap.set]
    by_cases hk : k' = k
    · subst hk
      simp only [if_true, GoMap.keys, List.map_cons, List.nodup_cons]
      exact h
    · simp only [hk, if_false]
      show (GoMap.keys ((k', v') :: GoMap.set rest k v)).Nodup
      simp only [GoMap.keys, List.map_cons, List.nodup_cons]
      refine ⟨fun hm => ?_, ih h.2⟩
      rcases (GoMap.mem_keys_set rest k v k').1 hm with h1 | h1
      · exact hk h1
      · exact h.1 h1

theorem UnmarshalYAML.loop_order (content : List (String × Except String CategoryConfig))
    (c c' : CategoriesConfig) (h : UnmarshalYAML.loop content c = .ok c') :
    c'.Order = c.Order ++ declaredKeys content ∧
    (∀ x, x ∈ c'.Items.keys ↔ x ∈ c.Items.keys ∨ x ∈ declaredKeys content) ∧
    (c.Items.keys.Nodup → c'.Items.keys.Nodup) := by
  induction content generalizing c with
  | nil =>
    simp only [UnmarshalYAML.loop, Except.ok.injEq] at h
    subst h
    simp [declaredKeys]
  | cons e rest ih =>
    obtain ⟨k, v⟩ := e
    simp only [UnmarshalYAML.loop] at h
    by_cases hk : TrimSpace k = ""
    · simp only [hk, if_true] at h
      have hd : declaredKeys ((k, v) :: rest) = declaredKeys rest := by
        simp [declaredKeys, hk]
      rw [hd]
      exact ih c h
    · simp only [hk, if_false] at h
      have hd : declaredKeys ((k, v) :: rest) = TrimSpace k :: declaredKeys rest := by
        simp [declaredKeys, hk]
      cases v with
      | error err => simp at h
      | ok category =>
        simp only at h
        obtain ⟨h1, h2, h3⟩ := ih _ h
        rw [hd]
        refine ⟨?_, ?_, ?_⟩
        · rw [h1]; simp
        · intro x
          rw [h2, GoMap.mem_keys_set]
          simp only [List.mem_cons]
          tauto
        · intro hn
          exact h3 (GoMap.keys_set_nodup _ _ _ hn)

theorem UnmarshalYAML.loop_returns (content : List (String × Except String CategoryConfig))
    (c : CategoriesConfig)
    (h : ∀ kv ∈ content, TrimSpace kv.1 ≠ "" → ∃ category, kv.2 = .ok category) :
    ∃ c', UnmarshalYAML.loop content c = .ok c' := by
  induction content generalizing c with
  | nil => exact ⟨c, rfl⟩
  | cons e rest ih =>
    obtain ⟨k, v⟩ := e
    have hrest : ∀ kv ∈ rest, TrimSpace kv.1 ≠ "" → ∃ category, kv.2 = .ok category :=
      fun kv hkv => h kv (List.mem_cons_of_mem _ hkv)
    simp only [UnmarshalYAML.loop]
    by_cases hk : TrimSpace k = ""
    · simp only [hk, if_true]
      exact ih c hrest
    · simp only [hk, if_false]
      obtain ⟨category, hv⟩ := h (k, v) (List.mem_cons_self _ _) hk
      simp only at hv
      subst hv
      exact ih _ hrest

theorem sortedKeys_sorted (values : GoMap CategoryConfig) :
    (sortedKeys values).Sorted (fun a b => a ≤ b) ∧ (sortedKeys values).Perm values.keys := by
  have hrel : ∀ a b : String, (decide (a < b) || decide (a = b)) = true ↔ a ≤ b := by
    intro a b
    simp only [Bool.or_eq_true, decide_eq_true_eq]
    exact le_iff_lt_or_eq.symm
  have htotal : IsTotal String (fun a b => (decide (a < b) || decide (a = b)) = true) :=
    ⟨fun a b => by rw [hrel, hrel]; exact le_total a b⟩
  have htrans : IsTrans String (fun a b => (decide (a < b) || decide (a = b)) = true) :=
    ⟨fun a b c => by rw [hrel, hrel, hrel]; exact le_trans⟩
  refine ⟨?_, List.perm_insertionSort _ _⟩
  have hs := List.sorted_insertionSort
    (fun a b : String => (decide (a < b) || decide (a = b)) = true) values.keys
  unfold sortedKeys
  exact hs.imp (fun {a b} hab => (hrel a b).1 hab)

/-- C23: for a mapping node whose values under non-blank keys all decode,
`UnmarshalYAML` returns categories whose order is the list of the trimmed non-blank keys
in the order of declaration, and whose map has distinct keys, an entry for each key of
that list and no other entry.  `CategoryOrder` on the result returns that same list.  On
any configuration `CategoryOrder` returns the recorded order when there is one, and only
when none is recorded the keys of the map in ascending order. -/
theorem UnmarshalYAML_keeps_order (node : YamlNode) (routing : GoMap RoutingConfig)
    (hkind : node.Kind = YamlKind.MappingNode)
    (hdecode : ∀ kv ∈ node.Content, TrimSpace kv.1 ≠ "" → ∃ category, kv.2 = .ok category) :
    (∃ c, UnmarshalYAML node = .ok c ∧ c.Order = declaredKeys node.Content ∧
      (∀ x, x ∈ c.Items.keys ↔ x ∈ declaredKeys node.Content) ∧ c.Items.keys.Nodup ∧
      BookmarksConfig.CategoryOrder ⟨c, routing⟩ = declaredKeys node.Content) ∧
    (∀ bc : BookmarksConfig,
      (bc.Categories.Order ≠ [] → bc.CategoryOrder = bc.Categories.Order) ∧
      (bc.Categories.Order = [] →
        bc.CategoryOrder.Sorted (fun a b => a ≤ b) ∧
        bc.CategoryOrder.Perm bc.Categories.Items.keys)) := by
  constructor
  · obtain ⟨c, hc⟩ := UnmarshalYAML.loop_returns node.Content ⟨[], []⟩ hdecode
    have hok : UnmarshalYAML node = .ok c := by
      unfold UnmarshalYAML
      simp only [hkind, ne_eq, not_true_eq_false, if_false]
      exact hc
    obtain ⟨h1, h2, h3⟩ := UnmarshalYAML.loop_order node.Content ⟨[], []⟩ c hc
    simp only [List.nil_append] at h1
    have h2' : ∀ x, x ∈ c.Items.keys ↔ x ∈ declaredKeys node.Content := by
      intro x
      rw [h2]
      simp [GoMap.keys]
    have h3' : c.Items.keys.Nodup := h3 (by simp [GoMap.keys])
    refine ⟨c, hok, h1, h2', h3', ?_⟩
    unfold BookmarksConfig.CategoryOrder
    by_cases hlen : c.Order.length > 0
    · rw [if_pos hlen]; exact h1
    · simp only [hlen, if_false]
      have hnil : c.Order = [] := List.length_eq_zero.1 (by omega)
      have hkeys : c.Items.keys = [] := by
        apply List.eq_nil_iff_forall_not_mem.2
        intro x hx
        have := (h2' x).1 hx
        rw [← h1, hnil] at this
        cases this
      have hitems : c.Items = [] := by
        simpa [GoMap.keys] using hkeys
      rw [← h1, hnil, hitems]
      rfl
  · intro bc
    constructor
    · intro hne
      unfold BookmarksConfig.CategoryOrder
      have : bc.Categories.Order.length > 0 := List.length_pos.2 hne
      simp only [this, if_true]
    · intro hnil
      unfold BookmarksConfig.CategoryOrder
      simp only [hnil, List.length_nil, gt_iff_lt, lt_self_iff_false, if_false]
      exact sortedKeys_sorted _

theorem UnmarshalYAML_keeps_order_witness :
    ∃ c, UnmarshalYAML paddedNode = .ok c ∧ c.Order = ["razor", "pottery"] ∧
      (∀ x, x ∈ c.Items.keys ↔ x ∈ ["razor", "pottery"]) ∧ c.Items.keys.Nodup ∧
      BookmarksConfig.CategoryOrder ⟨c, []⟩ = ["razor", "pottery"] :=
  (UnmarshalYAML_keeps_order paddedNode [] rfl (by
    intro kv hkv hk
    simp only [paddedNode, List.mem_cons, List.mem_singleton, List.not_mem_nil, or_false] at hkv
    rcases hkv with rfl | rfl | rfl
    · exact ⟨_, rfl⟩
    · exact absurd hk (by decide)
    · exact ⟨_, rfl⟩)).1

theorem depthStep_fold_fst (l : List Char) (t : (Bool × Bool) × Int) :
    (l.foldl depthStep t).1 = l.foldl literalStep t.1 := by
  induction l generalizing t with
  | nil => rfl
  | cons a l ih => simp only [List.foldl_cons, ih, depthStep_fst]

theorem extractFirstJSON.scan_inside (input pre : List Char) (r : String) :
    ∀ (todo done : List Char) (depth : Nat) (s : Bool × Bool),
      input = pre ++ done ++ todo →
      done.foldl depthStep ((false, false), 0) = (s, (depth : Int)) → 0 < depth →
      done.head? = some '\x7b' →
      (∀ n, 0 < n → n ≤ done.length → 0 < braceDepth (done.take n)) →
      extractFirstJSON.scan input todo (pre.length + done.length) (pre.length : Int) depth
        s.1 s.2 = (r, true) →
      ∃ object suf, todo = object ++ suf ∧ r = ⟨done ++ object⟩ ∧
        BalancedObject (done ++ object) := by
  intro todo
  induction todo with
  | nil =>
    intro done depth s _ _ _ _ _ hscan
    simp [extractFirstJSON.scan] at hscan
  | cons c rest ih =>
    intro done depth s hinput hdone hpos hhead hmid hscan
    have hne : done ≠ [] := by
      intro h; rw [h] at hhead; simp at hhead
    have hnext : (done ++ [c]).foldl depthStep ((false, false), 0) =
        depthStep (s, (depth : Int)) c := by
      rw [List.foldl_append, hdone]; rfl
    have go : ∀ (depth2 : Nat) (s2 : Bool × Bool),
        depthStep (s, (depth : Int)) c = (s2, (depth2 : Int)) → 0 < depth2 →
        extractFirstJSON.scan input rest (pre.length + done.length + 1) (pre.length : Int)
          depth2 s2.1 s2.2 = (r, true) →
        ∃ object suf, c :: rest = object ++ suf ∧ r = ⟨done ++ object⟩ ∧
          BalancedObject (done ++ object) := by
      intro depth2 s2 h2 hpos2 hscan2
      have hlen : pre.length + (done ++ [c]).length = pre.length + done.length + 1 := by
        simp only [List.length_append, List.length_cons, List.length_nil]; omega
      obtain ⟨object, suf, h1, h3, h4⟩ := ih (done ++ [c]) depth2 s2
        (by rw [hinput]; simp [List.append_assoc]) (by rw [hnext, h2]) hpos2
        (by rw [List.head?_append_of_ne_nil _ hne]; exact hhead)
        (by
          intro n hn hle
          by_cases hle2 : n ≤ done.length
          · rw [List.take_append_of_le_length hle2]
            exact hmid n hn hle2
          · have hn2 : n = (done ++ [c]).length := by
              simp only [List.length_append, List.length_cons, List.length_nil] at hle ⊢
              omega
            rw [hn2, List.take_length]
            unfold braceDepth
            rw [hnext, h2]
            show (0 : Int) < (depth2 : Int)
            exact_mod_cast hpos2)
        (by rw [hlen]; exact hscan2)
      refine ⟨c :: object, suf, by rw [h1]; rfl, ?_, ?_⟩
      · rw [h3]; simp [List.append_assoc]
      · simpa [List.append_assoc] using h4
    obtain ⟨b, e⟩ := s
    cases b with
    | true =>
      cases e with
      | true =>
        simp only [extractFirstJSON.scan, if_true] at hscan
        exact go depth (true, false) (by simp [depthStep, literalStep]) hpos hscan
      | false =>
        by_cases h1 : c = '\\'
        · simp only [extractFirstJSON.scan, if_true, h1, Bool.false_eq_true, if_false] at hscan
          exact go depth (true, true) (by simp [depthStep, literalStep, h1]) hpos hscan
        · by_cases h2 : c = '"'
          · simp only [extractFirstJSON.scan, if_true, h1, h2, Bool.false_eq_true,
              if_false] at hscan
            exact go depth (false, false) (by simp [depthStep, literalStep, h2]) hpos hscan
          · simp only [extractFirstJSON.scan, if_true, h1, h2, Bool.false_eq_true,
              if_false] at hscan
            exact go depth (true, false) (by simp [depthStep, literalStep, h1, h2]) hpos hscan
    | false =>
      have he : e = false := by
        have := literalState_fold_settled done (false, false) (fun _ => rfl)
        have h1 : done.foldl literalStep (false, false) = (false, e) := by
          have := depthStep_fold_fst done ((false, false), 0)
          rw [hdone] at this
          exact this.symm
        rw [h1] at this
        exact this rfl
      subst he
      by_cases h2 : c = '"'
      · simp only [extractFirstJSON.scan, Bool.false_eq_true, if_false, h2, if_true] at hscan
        exact go depth (true, false) (by simp [depthStep, literalStep, h2]) hpos hscan
      · by_cases h3 : c = '\x7b'
        · have hd0 : depth ≠ 0 := by omega
          simp only [extractFirstJSON.scan, Bool.false_eq_true, if_false, h2, h3, if_true,
            hd0] at hscan
          exact go (depth + 1) (false, false)
            (by simp [depthStep, literalStep, h3]) (by omega) hscan
        · by_cases h4 : c = '\x7d'
          · by_cases h5 : depth = 1
            · -- the closing brace of the object: the scan returns
              subst h5
              simp only [extractFirstJSON.scan, Bool.false_eq_true, if_false, h2, h3, h4,
                if_true] at hscan
              simp at hscan
              have harith : pre.length + done.length + 1 - pre.length = done.length + 1 := by
                omega
              rw [harith, hinput, List.append_assoc, List.drop_left] at hscan
              have htake : List.take (done.length + 1) (done ++ c :: rest) = done ++ [c] := by
                rw [List.take_append_eq_append_take]
                simp
              rw [htake] at hscan
              refine ⟨[c], rest, rfl, hscan.symm, ?_, ?_, ?_, ?_⟩
              · rw [List.head?_append_of_ne_nil _ hne]; exact hhead
              · simp [h4]
              · unfold braceDepth
                rw [hnext]
                simp [depthStep, h4]
              · intro n hn hlt
                have hle : n ≤ done.length := by
                  simp only [List.length_append, List.length_cons, List.length_nil] at hlt
                  omega
                rw [List.take_append_of_le_length hle]
                exact hmid n hn hle
            · have hd1 : ¬ (depth - 1 = 0) := by omega
              simp only [extractFirstJSON.scan, Bool.false_eq_true, if_false, h2, h3, h4,
                if_true, hpos, hd1, gt_iff_lt, true_and, false_and] at hscan
              exact go (depth - 1) (false, false)
                (by
                  simp only [depthStep, literalStep, h4, Bool.false_eq_true, if_false]
                  simp
                  omega) (by omega) hscan
          · simp only [extractFirstJSON.scan, Bool.false_eq_true, if_false, h2, h3, h4,
              false_and] at hscan
            exact go depth (false, false) (by simp [depthStep, literalStep, h2, h3, h4]) hpos
              hscan

theorem extractFirstJSON.scan_literal_step (input rest : List Char) (c : Char) (i : Nat)
    (start : Int) (depth : Nat) (escape : Bool) :
    extractFirstJSON.scan input (c :: rest) i start depth true escape =
      extractFirstJSON.scan input rest (i + 1) start depth (literalStep (true, escape) c).1
        (literalStep (true, escape) c).2 := by
  cases escape with
  | true => simp [extractFirstJSON.scan, literalStep]
  | false =>
    by_cases h1 : c = '\\'
    · simp [extractFirstJSON.scan, literalStep, h1]
    · by_cases h2 : c = '"'
      · simp [extractFirstJSON.scan, literalStep, h2]
      · simp [extractFirstJSON.scan, literalStep, h1, h2]

theorem extractFirstJSON.scan_outside (input : List Char) (r : String) :
    ∀ (todo pre : List Char) (s : Bool × Bool), input = pre ++ todo →
      (s.1 = false → s.2 = false) →
      extractFirstJSON.scan input todo pre.length (-1) 0 s.1 s.2 = (r, true) →
      ∃ pre2 suf, input = pre2 ++ r.data ++ suf ∧ BalancedObject r.data := by
  intro todo
  induction todo with
  | nil =>
    intro pre s _ _ hscan
    simp [extractFirstJSON.scan] at hscan
  | cons c rest ih =>
    intro pre s hinput hs hscan
    have hlen : (pre ++ [c]).length = pre.length + 1 := by simp
    have hin2 : input = (pre ++ [c]) ++ rest := by rw [hinput]; simp
    by_cases hopen : s.1 = false ∧ c = '\x7b'
    · obtain ⟨hs1, hc⟩ := hopen
      obtain ⟨b, e⟩ := s
      simp only at hs1
      subst hs1
      have he : e = false := hs rfl
      subst he
      subst hc
      simp only [extractFirstJSON.scan, Bool.false_eq_true, if_false,
        show ('\x7b' : Char) ≠ '"' by decide, if_true] at hscan
      obtain ⟨object, suf, h1, h2, h3⟩ := extractFirstJSON.scan_inside input pre r rest
        ['\x7b'] 1 (false, false) (by rw [hinput]; simp) (by simp [depthStep, literalStep])
        (by omega) rfl
        (by
          intro n hn hle
          have hn1 : n = 1 := by
            simp only [List.length_cons, List.length_nil] at hle; omega
          subst hn1
          simp [braceDepth, depthStep])
        (by simpa using hscan)
      refine ⟨pre, suf, ?_, ?_⟩
      · rw [hinput, h1, h2]; simp
      · rw [h2]; exact h3
    · have hstep : extractFirstJSON.scan input (c :: rest) pre.length (-1) 0 s.1 s.2 =
          extractFirstJSON.scan input rest (pre.length + 1) (-1) 0 (literalStep s c).1
            (literalStep s c).2 := by
        by_cases hb : s.1 = true
        · obtain ⟨b, e⟩ := s
          simp only at hb
          subst hb
          exact extractFirstJSON.scan_literal_step input rest c pre.length (-1) 0 e
        · have hb2 : s.1 = false := by simpa using hb
          exact extractFirstJSON.scan_commentary_step input rest c pre.length s hs
            (fun hc => hopen ⟨hb2, hc⟩)
      rw [hstep, ← hlen] at hscan
      exact ih (pre ++ [c]) (literalStep s c) hin2 (literalStep_settled s c) hscan

theorem extractFirstJSON.scan_no_brace (input : List Char) :
    ∀ (todo : List Char) (i : Nat) (s : Bool × Bool), (s.1 = false → s.2 = false) →
      (∀ c ∈ todo, c ≠ '\x7b') →
      extractFirstJSON.scan input todo i (-1) 0 s.1 s.2 = ("", false) := by
  intro todo i s hs hno
  have := extractFirstJSON.scan_commentary input todo [] i s hs hno
  rw [List.append_nil] at this
  rw [this]
  simp [extractFirstJSON.scan]

/-- C29: whenever `extractFirstJSON` returns a text with the flag true, the text is a
contiguous part of the input, it starts with an opening and ends with a closing brace,
its braces outside double-quoted string literals (a backslash escapes the next rune) are
balanced, and no shorter prefix of it is such a balanced object: up to the last rune the
depth stays positive.  While the scan is inside a string literal, a rune leaves the start
and the depth as they are, whatever the rune.  An input without an opening brace gives the
empty text and the flag false. -/
theorem extractFirstJSON_sound (input : String) :
    (∀ r, extractFirstJSON input = (r, true) →
      (∃ pre suf, input.data = pre ++ r.data ++ suf) ∧
      r.data.head? = some '\x7b' ∧ r.data.getLast? = some '\x7d' ∧ braceDepth r.data = 0 ∧
      (∀ n, 0 < n → n < r.data.length → 0 < braceDepth (r.data.take n)) ∧
      (∀ n, n < r.data.length → ¬ BalancedObject (r.data.take n))) ∧
    (∀ (rest : List Char) (c : Char) (i : Nat) (start : Int) (depth : Nat) (escape : Bool),
      ∃ inString2 escape2,
        extractFirstJSON.scan input.data (c :: rest) i start depth true escape =
          extractFirstJSON.scan input.data rest (i + 1) start depth inString2 escape2) ∧
    ((∀ c ∈ input.data, c ≠ '\x7b') → extractFirstJSON input = ("", false)) := by
  refine ⟨fun r hr => ?_, fun rest c i start depth escape => ?_, fun hno => ?_⟩
  · unfold extractFirstJSON at hr
    obtain ⟨pre, suf, h1, h2⟩ := extractFirstJSON.scan_outside input.data r input.data []
      (false, false) rfl (fun _ => rfl) hr
    refine ⟨⟨pre, suf, h1⟩, h2.1, h2.2.1, h2.2.2.1, h2.2.2.2, fun n hn hbal => ?_⟩
    by_cases h0 : n = 0
    · subst h0
      have := hbal.1
      simp at this
    · have := h2.2.2.2 n (by omega) hn
      rw [hbal.2.2.1] at this
      exact absurd this (by decide)
  · exact ⟨_, _, extractFirstJSON.scan_literal_step input.data rest c i start depth escape⟩
  · exact extractFirstJSON.scan_no_brace input.data input.data 0 (false, false) (fun _ => rfl) hno

theorem wrapInt64_of_fits (x : Int) (h1 : -2 ^ 63 ≤ x) (h2 : x < 2 ^ 63) : wrapInt64 x = x := by
  unfold wrapInt64
  have : (x + 2 ^ 63) % 2 ^ 64 = x + 2 ^ 63 := Int.emod_eq_of_lt (by omega) (by omega)
  omega

theorem countOf_set_self (m : GoMap Int) (k : String) (v : Int) : countOf (m.set k v) k = v := by
  unfold countOf
  rw [GoMap.get?_set_self]

theorem totalCount_set (m : GoMap Int) (k : String) (v : Int) :
    totalCount (m.set k v) = totalCount m + v - countOf m k := by
  induction m with
  | nil => simp [GoMap.set, totalCount, countOf, GoMap.get?]
  | cons e rest ih =>
    obtain ⟨k', v'⟩ := e
    by_cases hk : k' = k
    · subst hk
      simp only [GoMap.set, if_true, totalCount, countOf, GoMap.get?, List.map_cons,
        List.sum_cons]
      omega
    · simp only [GoMap.set, hk, if_false, totalCount, countOf, GoMap.get?, List.map_cons,
        List.sum_cons] at ih ⊢
      omega

theorem incrementCategory_spec (m : GoMap Int) (c : String) (h1 : -2 ^ 63 ≤ countOf m c)
    (h2 : countOf m c + 1 < 2 ^ 63) :
    countOf (incrementCategory m c) c = countOf m c + 1 ∧
    (∀ x, x ≠ c → (incrementCategory m c).get? x = m.get? x) ∧
    totalCount (incrementCategory m c) = totalCount m + 1 := by
  have hw : incrementCategory m c = m.set c (countOf m c + 1) := by
    unfold incrementCategory
    show m.set c (wrapInt64 (countOf m c + 1)) = _
    rw [wrapInt64_of_fits _ (by omega) h2]
  rw [hw]
  refine ⟨countOf_set_self _ _ _, fun x hx => GoMap.get?_set_other _ _ _ _ hx, ?_⟩
  rw [totalCount_set]
  omega

theorem resolvedCategory_of_failed (U : RuneCase) (w : World) (config : Config)
    (bookmarksConfig : BookmarksConfig) (quietStart quietEnd : Int) (id : String)
    (h : succeeds U w config bookmarksConfig quietStart quietEnd id = false) :
    resolvedCategory U w config bookmarksConfig quietStart quietEnd id = none := by
  unfold succeeds at h
  unfold resolvedCategory
  cases hr : (processBookmark U w config bookmarksConfig id quietStart quietEnd).2 with
  | error err => rfl
  | ok result =>
    rw [hr] at h
    simp only at h
    simp [h]

theorem resolvedCategory_of_succeeded (U : RuneCase) (w : World) (config : Config)
    (bookmarksConfig : BookmarksConfig) (quietStart quietEnd : Int) (id : String)
    (result : ProcessResult)
    (hr : (processBookmark U w config bookmarksConfig id quietStart quietEnd).2 = .ok result)
    (h : succeeds U w config bookmarksConfig quietStart quietEnd id = true) :
    resolvedCategory U w config bookmarksConfig quietStart quietEnd id =
      some result.Category := by
  unfold succeeds at h
  unfold resolvedCategory
  rw [hr] at h ⊢
  simp only at h
  simp [h]

theorem processBookmarksSequential.loop_counts (U : RuneCase) (w : World) (config : Config)
    (bookmarksConfig : BookmarksConfig) (quietStart quietEnd : Int) (ids : List String) :
    ∀ acc : Progress,
      (∀ c, -2 ^ 63 ≤ countOf acc.state.Categories c ∧
        countOf acc.state.Categories c + ids.length < 2 ^ 63) →
      (∀ c, countOf (processBookmarksSequential.loop U w config bookmarksConfig quietStart
          quietEnd ids acc).state.Categories c =
        countOf acc.state.Categories c +
          hits U w config bookmarksConfig quietStart quietEnd ids c) ∧
      (∀ c, hits U w config bookmarksConfig quietStart quietEnd ids c = 0 →
        (processBookmarksSequential.loop U w config bookmarksConfig quietStart quietEnd ids
          acc).state.Categories.get? c = acc.state.Categories.get? c) ∧
      totalCount (processBookmarksSequential.loop U w config bookmarksConfig quietStart
          quietEnd ids acc).state.Categories =
        totalCount acc.state.Categories +
          (ids.filter (succeeds U w config bookmarksConfig quietStart quietEnd)).length := by
  induction ids with
  | nil =>
    intro acc _
    simp [processBookmarksSequential.loop, hits]
  | cons id rest ih =>
    intro acc hroom
    simp only [processBookmarksSequential.loop]
    have hlen : ((id :: rest).length : Int) = rest.length + 1 := by
      simp only [List.length_cons]; push_cast; rfl
    cases h : succeeds U w config bookmarksConfig quietStart quietEnd id with
    | false =>
      have hres := resolvedCategory_of_failed U w config bookmarksConfig quietStart quietEnd id h
      have hhits : ∀ c, hits U w config bookmarksConfig quietStart quietEnd (id :: rest) c =
          hits U w config bookmarksConfig quietStart quietEnd rest c := by
        intro c; simp [hits, List.filter_cons, hres]
      rw [processBookmarksSequential.step_failed U w config bookmarksConfig quietStart quietEnd
        acc id h]
      obtain ⟨h1, h2, h3⟩ := ih
        { acc with
          events := acc.events ++
            attemptEvents U w config bookmarksConfig quietStart quietEnd id }
        (fun c => by
          have := hroom c
          rw [hlen] at this
          show -2 ^ 63 ≤ countOf acc.state.Categories c ∧
            countOf acc.state.Categories c + (rest.length : Int) < 2 ^ 63
          omega)
      refine ⟨fun c => ?_, fun c hc => ?_, ?_⟩
      · rw [hhits]; exact h1 c
      · rw [hhits] at hc; exact h2 c hc
      · rw [h3]; simp [List.filter_cons, h]
    | true =>
      obtain ⟨result, hr, hs⟩ := processBookmarksSequential.step_succeeded U w config
        bookmarksConfig quietStart quietEnd acc id h
      have hres := resolvedCategory_of_succeeded U w config bookmarksConfig quietStart quietEnd
        id result hr h
      have hhits : ∀ c, hits U w config bookmarksConfig quietStart quietEnd (id :: rest) c =
          (if result.Category = c then 1 else 0) +
            hits U w config bookmarksConfig quietStart quietEnd rest c := by
        intro c
        by_cases hc : result.Category = c
        · simp [hits, List.filter_cons, hres, hc]; omega
        · simp [hits, List.filter_cons, hres, hc]
      obtain ⟨hi1, hi2, hi3⟩ := incrementCategory_spec acc.state.Categories result.Category
        (hroom _).1 (by have := (hroom result.Category).2; rw [hlen] at this; omega)
      have hother : ∀ x, x ≠ result.Category →
          countOf (incrementCategory acc.state.Categories result.Category) x =
            countOf acc.state.Categories x := by
        intro x hx; unfold countOf; rw [hi2 x hx]
      rw [hs]
      obtain ⟨h1, h2, h3⟩ := ih
        { processedCount := acc.processedCount + 1
          state :=
            { acc.state with
              ProcessedIDs := appendUnique acc.state.ProcessedIDs id
              Categories := incrementCategory acc.state.Categories result.Category }
          processedSet := acc.processedSet.set id true
          events := acc.events ++
            attemptEvents U w config bookmarksConfig quietStart quietEnd id }
        (fun c => by
          have := hroom c
          rw [hlen] at this
          by_cases hc : c = result.Category
          · subst hc
            show -2 ^ 63 ≤ countOf (incrementCategory acc.state.Categories result.Category) _ ∧ _
            show _ ∧ countOf (incrementCategory acc.state.Categories result.Category) _ + _ < _
            rw [hi1]; omega
          · show -2 ^ 63 ≤ countOf (incrementCategory acc.state.Categories result.Category) _ ∧
              countOf (incrementCategory acc.state.Categories result.Category) _ + _ < _
            rw [hother c hc]; omega)
      simp only at h1 h2 h3
      refine ⟨fun c => ?_, fun c hc => ?_, ?_⟩
      · rw [h1 c, hhits c]
        by_cases hc : result.Category = c
        · subst hc; rw [hi1]; simp; omega
        · rw [hother c (fun hx => hc hx.symm)]; simp [hc]
      · rw [hhits c] at hc
        have hne : result.Category ≠ c := by
          intro hx; simp [hx] at hc
        simp only [hne, if_false, Nat.zero_add] at hc
        rw [h2 c hc, hi2 c (fun hx => hne hx.symm)]
      · rw [h3, hi3]; simp [List.filter_cons, h]; omega

/-- C30 fails as stated: the counts are Go ints, and the increment of a count that holds
the largest int wraps around to the smallest.  One item is processed, and the sum of the
counts does not go up by one but down. -/
theorem processBookmarksSequential_counts_counterexample :
    (processBookmarksSequential asciiCase feedWorld plainConfig potteryConfig ["1"] fullState
      1380 480 []).processedCount = 1 ∧
    resolvedCategory asciiCase feedWorld plainConfig potteryConfig 1380 480 "1" =
      some "pottery" ∧
    (processBookmarksSequential asciiCase feedWorld plainConfig potteryConfig ["1"] fullState
      1380 480 []).state.Categories = [("pottery", -9223372036854775808)] ∧
    totalCount (processBookmarksSequential asciiCase feedWorld plainConfig potteryConfig ["1"]
      fullState 1380 480 []).state.Categories ≠ totalCount fullState.Categories + 1 ∧
    countOf (processBookmarksSequential asciiCase feedWorld plainConfig potteryConfig ["1"]
      fullState 1380 480 []).state.Categories "pottery" ≠
      countOf fullState.Categories "pottery" + 1 := by
  decide

/-- C30: when every count of the initial state is a Go int that is far enough from the
largest one for as many increments as there are pending IDs (a missing count is 0),
`processBookmarksSequential` does the bookkeeping in exact arithmetic: the sum of all
category counts grows by the returned count, which is the number of pending IDs whose
processing succeeded; the count of every category grows by the number of successful
items that resolved to it, one for each; and a category to which no successful item
resolved keeps its entry, or stays without entry. -/
theorem processBookmarksSequential_counts (U : RuneCase) (w : World) (config : Config)
    (bookmarksConfig : BookmarksConfig) (ids : List String) (state : State)
    (quietStart quietEnd : Int) (processedSet : GoMap Bool)
    (hroom : ∀ c, -2 ^ 63 ≤ countOf state.Categories c ∧
      countOf state.Categories c + ids.length < 2 ^ 63) :
    totalCount (processBookmarksSequential U w config bookmarksConfig ids state quietStart
        quietEnd processedSet).state.Categories =
      totalCount state.Categories +
        (processBookmarksSequential U w config bookmarksConfig ids state quietStart quietEnd
          processedSet).processedCount ∧
    (processBookmarksSequential U w config bookmarksConfig ids state quietStart quietEnd
        processedSet).processedCount =
      (ids.filter (succeeds U w config bookmarksConfig quietStart quietEnd)).length ∧
    (∀ c, countOf (processBookmarksSequential U w config bookmarksConfig ids state quietStart
        quietEnd processedSet).state.Categories c =
      countOf state.Categories c + hits U w config bookmarksConfig quietStart quietEnd ids c) ∧
    (∀ c, hits U w config bookmarksConfig quietStart quietEnd ids c = 0 →
      (processBookmarksSequential U w config bookmarksConfig ids state quietStart quietEnd
        processedSet).state.Categories.get? c = state.Categories.get? c) := by
  have hcount := processBookmarksSequential.loop_count U w config bookmarksConfig quietStart
    quietEnd ids ⟨0, state, processedSet, []⟩
  obtain ⟨h1, h2, h3⟩ := processBookmarksSequential.loop_counts U w config bookmarksConfig
    quietStart quietEnd ids ⟨0, state, processedSet, []⟩ hroom
  simp only [Nat.zero_add] at hcount
  unfold processBookmarksSequential
  exact ⟨by rw [h3, hcount], hcount, h1, h2⟩

theorem processBookmarksSequential_counts_witness :
    totalCount (processBookmarksSequential asciiCase feedWorld plainConfig potteryConfig
        ["2", "3"] oneDoneState 1380 480 [("1", true)]).state.Categories =
      totalCount oneDoneState.Categories +
        (processBookmarksSequential asciiCase feedWorld plainConfig potteryConfig ["2", "3"]
          oneDoneState 1380 480 [("1", true)]).processedCount ∧
    countOf (processBookmarksSequential asciiCase feedWorld plainConfig potteryConfig
        ["2", "3"] oneDoneState 1380 480 [("1", true)]).state.Categories "pottery" =
      countOf oneDoneState.Categories "pottery" +
        hits asciiCase feedWorld plainConfig potteryConfig 1380 480 ["2", "3"] "pottery" ∧
    hits asciiCase feedWorld plainConfig potteryConfig 1380 480 ["2", "3"] "pottery" = 1 :=
  ⟨(processBookmarksSequential_counts asciiCase feedWorld plainConfig potteryConfig ["2", "3"]
      oneDoneState 1380 480 [("1", true)] (fun c => by
        unfold countOf
        simp only [oneDoneState, GoMap.get?]
        split_ifs <;> simp)).1,
    (processBookmarksSequential_counts asciiCase feedWorld plainConfig potteryConfig ["2", "3"]
      oneDoneState 1380 480 [("1", true)] (fun c => by
        unfold countOf
        simp only [oneDoneState, GoMap.get?]
        split_ifs <;> simp)).2.2.1 "pottery",
    by decide⟩

theorem twoDigits_count (n : Nat) (h : n < 100) : (twoDigits n).data.count ':' = 0 := by
  revert n
  decide

theorem clockText_count (h m : Nat) (hh : h < 100) (hm : m < 100) :
    (clockText h m).data.count ':' = 1 := by
  unfold clockText
  simp only [String.data_append, List.count_append, twoDigits_count h hh, twoDigits_count m hm]
  rfl

theorem Sscanf.skipSpace_twoDigits (n : Nat) (hn : n < 100) (rest : List Char) :
    Sscanf.skipSpace ((twoDigits n).data ++ rest) = .ok ((twoDigits n).data ++ rest) := by
  interval_cases n <;> rfl

theorem Sscanf.field_twoDigits (n : Nat) (hn : n < 100) (rest : List Char) :
    Sscanf.field ((twoDigits n).data ++ rest) = .ok ((n : Int), rest) := by
  interval_cases n <;> rfl

theorem Sscanf_clockText (h m : Nat) (hh : h < 100) (hm : m < 100) (tail : String) :
    Sscanf (clockText h m ++ tail) = .ok ((h : Int), (m : Int)) := by
  have hdata : (clockText h m ++ tail).data =
      (twoDigits h).data ++ (':' :: ((twoDigits m).data ++ tail.data)) := by
    simp [clockText, String.data_append]
  unfold Sscanf
  rw [hdata, Sscanf.skipSpace_twoDigits h hh]
  simp only [Sscanf.field_twoDigits h hh, ne_eq, not_true_eq_false, if_false,
    Sscanf.skipSpace_twoDigits m hm, Sscanf.field_twoDigits m hm]

set_option maxRecDepth 8000 in
/-- C28 fails in the code: the clock text 12:345 is accepted as 12:34, because the verb
%02d reads at most two runes and `Sscanf` does not look at what follows the second number;
12:100 is accepted as 12:10, and text after the minute is ignored. -/
theorem parseClock_overlong_counterexample :
    parseClock Sscanf "12:345" = .ok 754 ∧ parseClock Sscanf "12:100" = .ok 730 ∧
    parseClock Sscanf "23:59 and later" = .ok 1439 :=
  ⟨by rfl, by rfl, by rfl⟩

/-- C28: what `parseClock` does with a clock text.  A text that starts with two digits,
a colon and two digits, and holds no other colon, is accepted exactly when the hour is at
most 23 and the minute at most 59, and the result is then 60 * hour + minute, whatever
follows the minute; in particular every zero-padded HH:MM from 00:00 to 23:59 is
accepted.  Every value returned without error lies between 0 and 1439.  A text that does
not hold exactly one colon is rejected before it is scanned, and a text from which the
scanner reads a number out of range is rejected. -/
theorem parseClock_spec :
    (∀ (h m : Nat) (tail : String), h < 100 → m < 100 → ':' ∉ tail.data →
      parseClock Sscanf (clockText h m ++ tail) =
        if h ≤ 23 ∧ m ≤ 59 then .ok (60 * (h : Int) + (m : Int)) else .error "invalid time") ∧
    (∀ h m : Nat, h ≤ 23 → m ≤ 59 →
      parseClock Sscanf (clockText h m) = .ok (60 * (h : Int) + (m : Int))) ∧
    (∀ value n, parseClock Sscanf value = .ok n → 0 ≤ n ∧ n ≤ 1439) ∧
    (∀ value, value.data.count ':' ≠ 1 → parseClock Sscanf value = .error "expected HH:MM") ∧
    (∀ value hour minute, Sscanf value = .ok (hour, minute) →
      hour > 23 ∨ minute > 59 ∨ hour < 0 ∨ minute < 0 →
      value.data.count ':' = 1 → parseClock Sscanf value = .error "invalid time") := by
  have hmain : ∀ (h m : Nat) (tail : String), h < 100 → m < 100 → ':' ∉ tail.data →
      parseClock Sscanf (clockText h m ++ tail) =
        if h ≤ 23 ∧ m ≤ 59 then .ok (60 * (h : Int) + (m : Int)) else .error "invalid time" := by
    intro h m tail hh hm htail
    have hcount : (clockText h m ++ tail).data.count ':' = 1 := by
      rw [String.data_append, List.count_append, clockText_count h m hh hm,
        List.count_eq_zero_of_not_mem htail]
    unfold parseClock
    rw [hcount, Sscanf_clockText h m hh hm tail]
    simp only [Nat.reduceAdd, ne_eq, not_true_eq_false, if_false]
    by_cases hr : h ≤ 23 ∧ m ≤ 59
    · have hr2 : ¬ ((h : Int) < 0 ∨ (h : Int) > 23 ∨ (m : Int) < 0 ∨ (m : Int) > 59) := by omega
      simp only [hr2, if_false, hr, and_self, if_true]
      congr 1
      omega
    · have hr2 : (h : Int) < 0 ∨ (h : Int) > 23 ∨ (m : Int) < 0 ∨ (m : Int) > 59 := by omega
      simp only [hr2, if_true, hr, if_false]
  refine ⟨hmain, fun h m hh hm => ?_, fun value n hn => ?_, fun value hv => ?_,
    fun value hour minute hv hbad hcount => ?_⟩
  · have := hmain h m "" (by omega) (by omega) (by simp)
    rw [String.append_empty] at this
    rw [this, if_pos ⟨hh, hm⟩]
  · unfold parseClock at hn
    split at hn
    · cases hn
    · split at hn
      · cases hn
      · rename_i hour minute _
        split at hn
        · cases hn
        · rename_i hr
          simp only [Except.ok.injEq] at hn
          omega
  · unfold parseClock
    have : value.data.count ':' + 1 ≠ 2 := by omega
    simp only [this, ne_eq, not_false_eq_true, if_true]
  · unfold parseClock
    rw [hcount, hv]
    have hr : hour < 0 ∨ hour > 23 ∨ minute < 0 ∨ minute > 59 := by omega
    simp only [Nat.reduceAdd, ne_eq, not_true_eq_false, if_false, hr, if_true]

end Bookmarks

namespace Tuya

/-! ## Tuya configuration -/

/-- C25 fails as stated: `Save` succeeds for a configuration whose backend starts with a
line break, and with a YAML library that reads the written text back without that line
break `Load` of the same path succeeds with another backend. -/
theorem Save_Load_newline_counterexample :
    Save lossySystem [] "/home/u/tuya.yaml" newlineConfig =
      .ok ("/home/u/tuya.yaml", [("/home/u/tuya.yaml", "(YAML text of the configuration)")]) ∧
    Load lossySystem [("/home/u/tuya.yaml", "(YAML text of the configuration)")]
      "/home/u/tuya.yaml" = .ok ⟨"a", ⟨"", ""⟩, ⟨"", "", "", "", "", ""⟩⟩ ∧
    (⟨"a", ⟨"", ""⟩, ⟨"", "", "", "", "", ""⟩⟩ : Config).Backend ≠ newlineConfig.Backend :=
  ⟨by rfl, by rfl, by decide⟩

/-- C25, amended: on a system in which reading a path after a successful write to it
gives the written data, when `Save` succeeds for a path and a configuration, `Load` of
the same path on the file system that `Save` leaves returns what the YAML library decodes
from the text it produced for the configuration: that decoding, or its error.  So `Load`
succeeds with the saved configuration, equal in every field, exactly when the library
decodes its own text of the configuration back to it. -/
theorem Save_Load_round_trip {Disk : Type} (sys : System Disk) (disk disk2 : Disk)
    (path saved : String) (cfg : Config)
    (hdisk : ∀ d p data d2, sys.WriteFile d p data = .ok d2 → sys.ReadFile d2 p = .ok data)
    (hsave : Save sys disk path cfg = .ok (saved, disk2)) :
    ∃ data, sys.Marshal cfg = .ok data ∧
      Load sys disk2 path = sys.Unmarshal data ∧
      (Load sys disk2 path = .ok cfg ↔ sys.Unmarshal data = .ok cfg) ∧
      (sys.Unmarshal data = .ok cfg →
        ∃ loaded, Load sys disk2 path = .ok loaded ∧
          loaded.Backend = cfg.Backend ∧
          loaded.HomeAssistant.URL = cfg.HomeAssistant.URL ∧
          loaded.HomeAssistant.Token = cfg.HomeAssistant.Token ∧
          loaded.Cloud.AccessID = cfg.Cloud.AccessID ∧
          loaded.Cloud.AccessKey = cfg.Cloud.AccessKey ∧
          loaded.Cloud.Endpoint = cfg.Cloud.Endpoint ∧
          loaded.Cloud.Region = cfg.Cloud.Region ∧
          loaded.Cloud.Schema = cfg.Cloud.Schema ∧ loaded.Cloud.UserID = cfg.Cloud.UserID) := by
  unfold Save at hsave
  cases hres : (if path = "" then DefaultPath sys else Except.ok path) with
  | error err => simp [hres] at hsave
  | ok p =>
    simp only [hres] at hsave
    cases hm : sys.MkdirAll disk (sys.Dir p) with
    | error err => simp [hm] at hsave
    | ok d1 =>
      simp only [hm] at hsave
      cases hy : sys.Marshal cfg with
      | error err => simp [hy] at hsave
      | ok data =>
        simp only [hy] at hsave
        cases hw : sys.WriteFile d1 p data with
        | error err => simp [hw] at hsave
        | ok d2 =>
          simp only [hw, Except.ok.injEq, Prod.mk.injEq] at hsave
          obtain ⟨_, hd⟩ := hsave
          subst hd
          have hload : Load sys d2 path = sys.Unmarshal data := by
            unfold Load
            simp only [hres, hdisk d1 p data d2 hw]
            cases sys.Unmarshal data <;> rfl
          refine ⟨data, rfl, hload, by rw [hload], fun hu => ⟨cfg, by rw [hload, hu], ?_⟩⟩
          exact ⟨rfl, rfl, rfl, rfl, rfl, rfl, rfl, rfl, rfl⟩

theorem Save_Load_round_trip_witness :
    ∃ data, listSystem.Marshal cloudConfig = .ok data ∧
      Load listSystem
        [("/home/u/.config/tuya-hub/config.yaml", "backend: cloud\n(and the other fields)\n")]
        "" = listSystem.Unmarshal data ∧
      listSystem.Unmarshal data = .ok cloudConfig :=
  match Save_Load_round_trip listSystem [] _ "" "/home/u/.config/tuya-hub/config.yaml"
      cloudConfig
      (fun d p data d2 h => by
        simp only [listSystem, Except.ok.injEq] at h
        subst h
        simp [listSystem])
      (by rfl) with
  | ⟨data, h1, h2, _, _⟩ => ⟨data, h1, h2, by
      simp only [listSystem, if_true, Except.ok.injEq] at h1
      subst h1
      rfl⟩

/-- C26: `ApplyEnv` gives each of the nine fields the trimmed value of its own TUYA
variable when that value is not empty after trimming, and leaves the field as it is when
the variable is unset or blank; the new value of a field depends on no other variable.
With the environment of the test, the backend, the schema and the user ID of an empty
configuration are set and the other fields stay empty. -/
theorem ApplyEnv_spec (getenv : String → String) (c : Config) :
    ApplyEnv getenv c =
      ⟨envOr getenv "TUYA_BACKEND" c.Backend,
        ⟨envOr getenv "TUYA_HA_URL" c.HomeAssistant.URL,
          envOr getenv "TUYA_HA_TOKEN" c.HomeAssistant.Token⟩,
        ⟨envOr getenv "TUYA_CLOUD_ACCESS_ID" c.Cloud.AccessID,
          envOr getenv "TUYA_CLOUD_ACCESS_KEY" c.Cloud.AccessKey,
          envOr getenv "TUYA_CLOUD_ENDPOINT" c.Cloud.Endpoint,
          envOr getenv "TUYA_CLOUD_REGION" c.Cloud.Region,
          envOr getenv "TUYA_CLOUD_SCHEMA" c.Cloud.Schema,
          envOr getenv "TUYA_CLOUD_USER_ID" c.Cloud.UserID⟩⟩ ∧
    (∀ name old, Bookmarks.TrimSpace (getenv name) ≠ "" →
      envOr getenv name old = Bookmarks.TrimSpace (getenv name)) ∧
    (∀ name old, Bookmarks.TrimSpace (getenv name) = "" →
      envOr getenv name old = old) ∧
    (∀ other name old, other name = getenv name →
      envOr other name old = envOr getenv name old) ∧
    ApplyEnv testEnv ⟨"", ⟨"", ""⟩, ⟨"", "", "", "", "", ""⟩⟩ =
      ⟨"cloud", ⟨"", ""⟩, ⟨"", "", "", "", "smartlife", "uid"⟩⟩ := by
  refine ⟨?_, fun name old h => by simp [envOr, h], fun name old h => by simp [envOr, h],
    fun other name old h => by simp [envOr, h], by decide⟩
  have hstep : ∀ (name : String) (assign : Config → String → Config) (field : Config → String)
      (c : Config), assign c (field c) = c →
      ApplyEnv.statement getenv name assign c = assign c (envOr getenv name (field c)) := by
    intro name assign field c h2
    unfold ApplyEnv.statement envOr
    by_cases h : Bookmarks.TrimSpace (getenv name) = ""
    · simp only [h, ne_eq, not_true_eq_false, if_false, if_true, h2]
    · simp only [h, ne_eq, not_false_eq_true, if_true, if_false]
  unfold ApplyEnv
  simp only []
  rw [hstep "TUYA_BACKEND" _ (fun c => c.Backend) c rfl,
    hstep "TUYA_HA_URL" _ (fun c => c.HomeAssistant.URL) _ rfl,
    hstep "TUYA_HA_TOKEN" _ (fun c => c.HomeAssistant.Token) _ rfl,
    hstep "TUYA_CLOUD_ACCESS_ID" _ (fun c => c.Cloud.AccessID) _ rfl,
    hstep "TUYA_CLOUD_ACCESS_KEY" _ (fun c => c.Cloud.AccessKey) _ rfl,
    hstep "TUYA_CLOUD_ENDPOINT" _ (fun c => c.Cloud.Endpoint) _ rfl,
    hstep "TUYA_CLOUD_REGION" _ (fun c => c.Cloud.Region) _ rfl,
    hstep "TUYA_CLOUD_SCHEMA" _ (fun c => c.Cloud.Schema) _ rfl,
    hstep "TUYA_CLOUD_USER_ID" _ (fun c => c.Cloud.UserID) _ rfl]

end Tuya
